import Mathlib

/-!
# custom_smart_pointer: reference-counted `SharedPtr` / `WeakPtr`

Shallow embedding of `src/custom_smart_pointer.cpp`.

* The free store is modelled explicitly.  Every `new` yields a cell at a fresh
  address (addresses are allocation identities and are never handed out twice);
  `delete` marks the cell as freed.  Reading, writing or deleting through a
  pointer to a freed cell is undefined behaviour in C++ and is reported as a
  `Fault` here.  A freed cell keeps the last value stored in it only as
  bookkeeping: no operation can read it.
* Handle objects (`SharedPtr<Resource>`, `WeakPtr<Resource>`) live in two
  tables indexed by object identity, which is what `this != &rhs` compares.
  A destroyed object leaves a `none` entry.
* `Resource` is instantiated with an integer payload, as in `main`.
* The `long` counter is an `Int`.  Every increment belongs to a `SharedPtr`
  object that exists at that moment, so the counter is bounded by the number of
  handle objects existing at the same time; that number is assumed to stay
  below `LONG_MAX`, and signed overflow is not modelled.
* `delete resource` runs no destructor code: the payload is a plain value.
* A program is a finite sequence of public operations (`Op`, `runOps`) started
  in the empty state; the caller allocates resources with `new` and hands raw
  pointers to `SharedPtr(Resource*)` and `Reset(Resource*)`.  A sequence that
  runs into undefined behaviour has no state after the fault.
* The order of the two `delete` statements of `DecrementReferenceCount` cannot
  be read off the state they leave.  `DecrementReferenceCountTraced` runs the
  same statements one after the other, each on the state the previous one
  left, and keeps a record of the evaluated `delete` expressions.
-/

deriving instance DecidableEq for Except

namespace SmartPtr

/-- Undefined behaviour the C++ program can run into. -/
inductive Fault where
  /-- read or write through a pointer to a deleted object -/
  | useAfterFree
  /-- second `delete` of an object that was already deleted -/
  | doubleFree
  /-- access through a pointer that no `new` ever returned -/
  | invalidPointer
  /-- dereference (`operator*`) of a handle whose `resource` is `nullptr` -/
  | nullDereference
  /-- member call on a handle object that does not exist (any more) -/
  | deadObject
  deriving DecidableEq

/-- One heap object: an `int` payload or a `long` counter. -/
structure Cell where
  value : Int
  freed : Bool
  deriving DecidableEq

/-- A free store: the cell at index `p` is the object at address `p`. -/
abbrev Memory := List Cell

/-- Evaluation of `*p` as an rvalue. -/
def Memory.read (m : Memory) (p : Nat) : Except Fault Int :=
  match m[p]? with
  | none => .error .invalidPointer
  | some c => if c.freed then .error .useAfterFree else .ok c.value

/-- Evaluation of `*p = v`. -/
def Memory.write (m : Memory) (p : Nat) (v : Int) : Except Fault Memory :=
  match m[p]? with
  | none => .error .invalidPointer
  | some c => if c.freed then .error .useAfterFree else .ok (m.set p ⟨v, false⟩)

/-- Evaluation of `delete p` for a non-null `p`. -/
def Memory.delete (m : Memory) (p : Nat) : Except Fault Memory :=
  match m[p]? with
  | none => .error .invalidPointer
  | some c => if c.freed then .error .doubleFree else .ok (m.set p ⟨c.value, true⟩)

/-- Evaluation of `new T(v)`: the new object gets the address `m.length`. -/
def Memory.alloc (m : Memory) (v : Int) : Memory := m ++ [⟨v, false⟩]

/-- The two data members of `SharedPtr<Resource>`; `none` is `nullptr`. -/
structure SharedPtr where
  resource : Option Nat
  referenceCount : Option Nat
  deriving DecidableEq

/-- The two data members of `WeakPtr<Resource>`; `none` is `nullptr`. -/
structure WeakPtr where
  resource : Option Nat
  referenceCount : Option Nat
  deriving DecidableEq

/-- Program state: both free stores and both tables of handle objects. -/
structure State where
  /-- heap objects of type `Resource` -/
  resources : Memory
  /-- heap objects of type `long` (the control blocks) -/
  counters : Memory
  /-- `SharedPtr` objects by identity; `none` once destroyed -/
  shared : List (Option SharedPtr)
  /-- `WeakPtr` objects by identity; `none` once destroyed -/
  weak : List (Option WeakPtr)
  deriving DecidableEq

/-- State of a program that has not allocated or declared anything yet. -/
def State.empty : State := ⟨[], [], [], []⟩

/-- Evaluation of `new Resource(v)` by the caller; the pointer is `s.resources.length`. -/
def State.newResource (v : Int) (s : State) : State :=
  { s with resources := s.resources.alloc v }

/-- The `SharedPtr` object with identity `h`. -/
def State.getShared (s : State) (h : Nat) : Except Fault SharedPtr :=
  match s.shared[h]? with
  | some (some p) => .ok p
  | _ => .error .deadObject

/-- The `WeakPtr` object with identity `w`. -/
def State.getWeak (s : State) (w : Nat) : Except Fault WeakPtr :=
  match s.weak[w]? with
  | some (some p) => .ok p
  | _ => .error .deadObject

/-- Store to the data members of the `SharedPtr` object `h`. -/
def State.setShared (s : State) (h : Nat) (p : SharedPtr) : State :=
  { s with shared := s.shared.set h (some p) }

/-- Store to the data members of the `WeakPtr` object `w`. -/
def State.setWeak (s : State) (w : Nat) (p : WeakPtr) : State :=
  { s with weak := s.weak.set w (some p) }

namespace SharedPtr

/-- Source lines 92-98: `if (referenceCount != nullptr) (*referenceCount)++;`. -/
def IncrementReferenceCount (this : Nat) (s : State) : Except Fault State := do
  let p ← s.getShared this
  match p.referenceCount with
  | none => pure s
  | some c =>
    let v ← s.counters.read c
    let m ← s.counters.write c (v + 1)
    pure { s with counters := m }

/-- Source lines 100-111: decrement, and on reaching zero `delete resource`
(no effect on a null pointer) followed by `delete referenceCount`. -/
def DecrementReferenceCount (this : Nat) (s : State) : Except Fault State := do
  let p ← s.getShared this
  match p.referenceCount with
  | none => pure s
  | some c =>
    let v ← s.counters.read c
    let m ← s.counters.write c (v - 1)
    let v1 ← m.read c
    if v1 = 0 then
      let rs ← match p.resource with
        | none => pure s.resources
        | some r => s.resources.delete r
      let m2 ← m.delete c
      pure { s with resources := rs, counters := m2 }
    else
      pure { s with counters := m }

/-- Source line 10, `SharedPtr()`; the new object has identity `s.shared.length`. -/
def construct (s : State) : State :=
  { s with shared := s.shared ++ [some ⟨none, none⟩] }

/-- Source line 12, `SharedPtr(Resource* res)`; the new object has identity
`s.shared.length` and its control block the address `s.counters.length`. -/
def constructFrom (res : Option Nat) (s : State) : State :=
  { s with counters := s.counters.alloc 1,
           shared := s.shared ++ [some ⟨res, some s.counters.length⟩] }

/-- Source lines 14-17, `SharedPtr(const SharedPtr&)`; the new object has
identity `s.shared.length`. -/
def copyConstruct (rhs : Nat) (s : State) : Except Fault State := do
  let p ← s.getShared rhs
  IncrementReferenceCount s.shared.length
    { s with shared := s.shared ++ [some ⟨p.resource, p.referenceCount⟩] }

/-- Source lines 19-22, `SharedPtr(const WeakPtr&)`; the new object has
identity `s.shared.length`. -/
def constructFromWeak (rhs : Nat) (s : State) : Except Fault State := do
  let p ← s.getWeak rhs
  IncrementReferenceCount s.shared.length
    { s with shared := s.shared ++ [some ⟨p.resource, p.referenceCount⟩] }

/-- Source lines 24-34, `operator=(const SharedPtr&)`. -/
def assign (this rhs : Nat) (s : State) : Except Fault State :=
  if this ≠ rhs then do
    let s1 ← DecrementReferenceCount this s
    let p ← s1.getShared this
    let q ← s1.getShared rhs
    let s2 := s1.setShared this { p with resource := q.resource }
    let p2 ← s2.getShared this
    let q2 ← s2.getShared rhs
    let s3 := s2.setShared this { p2 with referenceCount := q2.referenceCount }
    IncrementReferenceCount this s3
  else
    pure s

/-- Source lines 36-39, `~SharedPtr()`; afterwards the object does not exist. -/
def destroy (this : Nat) (s : State) : Except Fault State := do
  let s1 ← DecrementReferenceCount this s
  pure { s1 with shared := s1.shared.set this none }

/-- Source lines 41-46, `Reset()`. -/
def Reset (this : Nat) (s : State) : Except Fault State := do
  let s1 ← DecrementReferenceCount this s
  let p ← s1.getShared this
  let s2 := s1.setShared this { p with resource := none }
  let p2 ← s2.getShared this
  pure (s2.setShared this { p2 with referenceCount := none })

/-- Source lines 48-53, `Reset(Resource* res)`. -/
def ResetTo (this : Nat) (res : Option Nat) (s : State) : Except Fault State := do
  let s1 ← DecrementReferenceCount this s
  let p ← s1.getShared this
  let s2 := s1.setShared this { p with resource := res }
  let p2 ← s2.getShared this
  let s3 := { s2 with counters := s2.counters.alloc 1 }
  pure (s3.setShared this { p2 with referenceCount := some s2.counters.length })

/-- Source lines 55-59, `Swap(SharedPtr&)`: two `std::swap` calls, one per member. -/
def Swap (this rhs : Nat) (s : State) : Except Fault State := do
  let p ← s.getShared this
  let q ← s.getShared rhs
  let s1 := s.setShared this { p with resource := q.resource }
  let q1 ← s1.getShared rhs
  let s2 := s1.setShared rhs { q1 with resource := p.resource }
  let p2 ← s2.getShared this
  let q2 ← s2.getShared rhs
  let s3 := s2.setShared this { p2 with referenceCount := q2.referenceCount }
  let q3 ← s3.getShared rhs
  pure (s3.setShared rhs { q3 with referenceCount := p2.referenceCount })

/-- Source lines 61-64, `Get()`. -/
def Get (this : Nat) (s : State) : Except Fault (Option Nat) := do
  let p ← s.getShared this
  pure p.resource

/-- Source lines 66-69, `operator*()` read as an rvalue. -/
def deref (this : Nat) (s : State) : Except Fault Int := do
  let p ← s.getShared this
  match p.resource with
  | none => .error .nullDereference
  | some r => s.resources.read r

/-- Source lines 66-69, `*this = v`: a store through `operator*()`. -/
def derefAssign (this : Nat) (v : Int) (s : State) : Except Fault State := do
  let p ← s.getShared this
  match p.resource with
  | none => .error .nullDereference
  | some r =>
    let m ← s.resources.write r v
    pure { s with resources := m }

/-- Source lines 76-83, `UseCount()`. -/
def UseCount (this : Nat) (s : State) : Except Fault Int := do
  let p ← s.getShared this
  match p.referenceCount with
  | some c => s.counters.read c
  | none => pure 0

end SharedPtr

namespace WeakPtr

/-- Source line 118, `WeakPtr()`; the new object has identity `s.weak.length`. -/
def construct (s : State) : State :=
  { s with weak := s.weak ++ [some ⟨none, none⟩] }

/-- Source line 120, `WeakPtr(const WeakPtr&)`. -/
def copyConstruct (rhs : Nat) (s : State) : Except Fault State := do
  let p ← s.getWeak rhs
  pure { s with weak := s.weak ++ [some ⟨p.resource, p.referenceCount⟩] }

/-- Source line 122, `WeakPtr(const SharedPtr&)`. -/
def constructFromShared (rhs : Nat) (s : State) : Except Fault State := do
  let r ← SharedPtr.Get rhs s
  let p ← s.getShared rhs
  pure { s with weak := s.weak ++ [some ⟨r, p.referenceCount⟩] }

/-- Source lines 124-132, `operator=(const WeakPtr&)`. -/
def assign (this rhs : Nat) (s : State) : Except Fault State :=
  if this ≠ rhs then do
    let p ← s.getWeak this
    let q ← s.getWeak rhs
    let s1 := s.setWeak this { p with resource := q.resource }
    let p1 ← s1.getWeak this
    let q1 ← s1.getWeak rhs
    pure (s1.setWeak this { p1 with referenceCount := q1.referenceCount })
  else
    pure s

/-- Source lines 134-139, `operator=(const SharedPtr&)`. -/
def assignShared (this rhs : Nat) (s : State) : Except Fault State := do
  let p ← s.getWeak this
  let r ← SharedPtr.Get rhs s
  let s1 := s.setWeak this { p with resource := r }
  let p1 ← s1.getWeak this
  let q ← s1.getShared rhs
  pure (s1.setWeak this { p1 with referenceCount := q.referenceCount })

/-- Source line 141, `~WeakPtr() {}`; afterwards the object does not exist. -/
def destroy (this : Nat) (s : State) : Except Fault State := do
  let _ ← s.getWeak this
  pure { s with weak := s.weak.set this none }

/-- Source lines 143-147, `Reset()`. -/
def Reset (this : Nat) (s : State) : Except Fault State := do
  let p ← s.getWeak this
  let s1 := s.setWeak this { p with resource := none }
  let p1 ← s1.getWeak this
  pure (s1.setWeak this { p1 with referenceCount := none })

/-- Source lines 149-153, `Swap(WeakPtr&)`. -/
def Swap (this rhs : Nat) (s : State) : Except Fault State := do
  let p ← s.getWeak this
  let q ← s.getWeak rhs
  let s1 := s.setWeak this { p with resource := q.resource }
  let q1 ← s1.getWeak rhs
  let s2 := s1.setWeak rhs { q1 with resource := p.resource }
  let p2 ← s2.getWeak this
  let q2 ← s2.getWeak rhs
  let s3 := s2.setWeak this { p2 with referenceCount := q2.referenceCount }
  let q3 ← s3.getWeak rhs
  pure (s3.setWeak rhs { q3 with referenceCount := p2.referenceCount })

/-- Source lines 155-162, `UseCount()`. -/
def UseCount (this : Nat) (s : State) : Except Fault Int := do
  let p ← s.getWeak this
  match p.referenceCount with
  | some c => s.counters.read c
  | none => pure 0

/-- Source lines 164-167, `Expired()`: `referenceCount == nullptr || *referenceCount == 0`. -/
def Expired (this : Nat) (s : State) : Except Fault Bool := do
  let p ← s.getWeak this
  match p.referenceCount with
  | none => pure true
  | some c =>
    let v ← s.counters.read c
    pure (decide (v = 0))

/-- Source lines 169-172, `Lock()`: `return SharedPtr<Resource>(*this);`.  The
result pairs the identity of the returned object with the new state. -/
def Lock (this : Nat) (s : State) : Except Fault (Nat × State) := do
  let s1 ← SharedPtr.constructFromWeak this s
  pure (s.shared.length, s1)

end WeakPtr

/-! ## Specification-level definitions -/

/-- The object at address `p` exists and has not been deleted. -/
def Memory.live (m : Memory) (p : Nat) : Bool :=
  match m[p]? with
  | some c => !c.freed
  | none => false

/-- The object at address `p` has been deleted. -/
def Memory.released (m : Memory) (p : Nat) : Bool :=
  match m[p]? with
  | some c => c.freed
  | none => false

/-- The entry `o` of the `SharedPtr` table is an existing object whose
`referenceCount` member points to the control block `c`. -/
def aliases (c : Nat) (o : Option SharedPtr) : Bool :=
  match o with
  | some p => p.referenceCount == some c
  | none => false

/-- Number of currently existing `SharedPtr` objects that alias control block `c`. -/
def liveCount (c : Nat) (s : State) : Nat := s.shared.countP (aliases c)

/-- The control block of the table entry `o`, if it has one, has not been
deleted and holds the number of existing `SharedPtr` objects aliasing it. -/
def blockOk (s : State) (o : Option SharedPtr) : Bool :=
  match o with
  | some p =>
    match p.referenceCount with
    | some c => decide (s.counters[c]? = some ⟨(liveCount c s : Int), false⟩)
    | none => true
  | none => true

/-- Counting invariant of the control blocks (spec section 3). -/
def CountInv (s : State) : Prop := ∀ o ∈ s.shared, blockOk s o = true

instance (s : State) : Decidable (CountInv s) :=
  inferInstanceAs (Decidable (∀ o ∈ s.shared, blockOk s o = true))

/-- The resource of the table entry `o`, if it has both a control block and a
non-null resource, has not been deleted. -/
def resourceOk (s : State) (o : Option SharedPtr) : Bool :=
  match o with
  | some p =>
    match p.referenceCount, p.resource with
    | some _, some r => s.resources.live r
    | _, _ => true
  | none => true

/-- Every owned resource is still allocated. -/
def ResourceInv (s : State) : Prop := ∀ o ∈ s.shared, resourceOk s o = true

instance (s : State) : Decidable (ResourceInv s) :=
  inferInstanceAs (Decidable (∀ o ∈ s.shared, resourceOk s o = true))

/-- Well-formed states: the counting invariant holds and owned resources are allocated. -/
def WF (s : State) : Prop := CountInv s ∧ ResourceInv s

instance (s : State) : Decidable (WF s) :=
  inferInstanceAs (Decidable (CountInv s ∧ ResourceInv s))

/-- The three `SharedPtr` operations of the counting property: copy
construction, copy assignment and destruction. -/
inductive StrongOp where
  | copyConstruct (rhs : Nat)
  | assign (this rhs : Nat)
  | destroy (this : Nat)
  deriving DecidableEq

/-- Effect of one operation. -/
def StrongOp.apply : StrongOp → State → Except Fault State
  | .copyConstruct rhs, s => SharedPtr.copyConstruct rhs s
  | .assign this rhs, s => SharedPtr.assign this rhs s
  | .destroy this, s => SharedPtr.destroy this s

/-- Effect of a finite sequence of operations, left to right. -/
def run : List StrongOp → State → Except Fault State
  | [], s => .ok s
  | op :: ops, s =>
    match op.apply s with
    | .ok s1 => run ops s1
    | .error e => .error e

/-- Counters after `(*referenceCount)++` through the pointer `rc`. -/
def Incremented (rc : Option Nat) (m m1 : Memory) : Prop :=
  match rc with
  | none => m1 = m
  | some c => ∃ v, m[c]? = some ⟨v, false⟩ ∧ m1 = m.set c ⟨v + 1, false⟩

/-- Counters after `(*referenceCount)--` through the pointer `rc`, followed by
`delete referenceCount` when the new value is zero. -/
def Decremented (rc : Option Nat) (m m1 : Memory) : Prop :=
  match rc with
  | none => m1 = m
  | some c => ∃ v, m[c]? = some ⟨v, false⟩ ∧ m1 = m.set c ⟨v - 1, decide (v = 1)⟩

/-- Resources after the decrement of a counter that held `v`, through a handle
whose `resource` member is `res`: `delete resource` runs exactly when `v = 1`. -/
def ResourceDeleted (res : Option Nat) (v : Int) (m m1 : Memory) : Prop :=
  if v = 1 then
    match res with
    | none => m1 = m
    | some r => ∃ x, m[r]? = some ⟨x, false⟩ ∧ m1 = m.set r ⟨x, true⟩
  else m1 = m

/-- Two table entries do not own the same resource through different control blocks. -/
def sameOwner (o1 o2 : Option SharedPtr) : Bool :=
  match o1, o2 with
  | some p, some q =>
    match p.resource, p.referenceCount, q.resource, q.referenceCount with
    | some r1, some c1, some r2, some c2 => r1 != r2 || c1 == c2
    | _, _, _, _ => true
  | _, _ => true

/-- Single-owner chain (spec section 4.1): a resource is owned through one control block only. -/
def Exclusive (s : State) : Prop :=
  ∀ o1 ∈ s.shared, ∀ o2 ∈ s.shared, sameOwner o1 o2 = true

instance (s : State) : Decidable (Exclusive s) :=
  inferInstanceAs (Decidable (∀ o1 ∈ s.shared, ∀ o2 ∈ s.shared, sameOwner o1 o2 = true))

/-- States in which every operation on existing handles is defined: the counting
invariant, allocated resources and exclusive ownership. -/
def Valid (s : State) : Prop := WF s ∧ Exclusive s

instance (s : State) : Decidable (Valid s) :=
  inferInstanceAs (Decidable (WF s ∧ Exclusive s))

/-- The table entry `o` is an existing object whose `resource` member is `x`. -/
def holds (x : Nat) (o : Option SharedPtr) : Bool :=
  match o with
  | some p => p.resource == some x
  | none => false

/-- Precondition of `SharedPtr(Resource*)` (spec section 4.1): the pointer is
null, or points to an allocated resource that no handle holds yet. -/
def transferable (r : Option Nat) (s : State) : Bool :=
  match r with
  | none => true
  | some x => s.resources.live x && s.shared.all (fun o => !holds x o)

/-- The weak-pointer scenario of `main` (source lines 197-205) up to and
including `ptr.Reset()`: `ptr` is `SharedPtr` object 0, `weakPtr` is `WeakPtr`
object 0 and `lockedPtr` is `SharedPtr` object 1, destroyed at the end of its block. -/
def mainAfterReset : Except Fault State := do
  let s1 := SharedPtr.constructFrom (some 0) (State.empty.newResource 5)
  let s2 ← WeakPtr.constructFromShared 0 s1
  let e ← WeakPtr.Expired 0 s2
  let s3 ← if !e then do
      let (lockedPtr, s) ← WeakPtr.Lock 0 s2
      let _ ← SharedPtr.deref lockedPtr s
      SharedPtr.destroy lockedPtr s
    else pure s2
  SharedPtr.Reset 0 s3

/-- The state `mainAfterReset` ends in: resource and control block are
deleted, `ptr` is empty and `weakPtr` still holds both stale pointers. -/
def stateAfterReset : State :=
  ⟨[⟨5, true⟩], [⟨0, true⟩], [some ⟨none, none⟩, none], [some ⟨some 0, some 0⟩]⟩

/-- One owner (`SharedPtr` 0) of the resource 0 holding 5, observed by `WeakPtr` 0:
the state of `main` after `WeakPtr<int> weakPtr(ptr);`. -/
def exampleObserved : State :=
  ⟨[⟨5, false⟩], [⟨1, false⟩], [some ⟨some 0, some 0⟩], [some ⟨some 0, some 0⟩]⟩

/-- Two resources, each with its own sole owner. -/
def exampleTwoOwners : State :=
  SharedPtr.constructFrom (some 1)
    (SharedPtr.constructFrom (some 0) ((State.empty.newResource 5).newResource 7))

/-- Frame condition of the `WeakPtr` operations: no counter, no resource and no
`SharedPtr` object differs between the two states. -/
def Untouched (s s1 : State) : Prop :=
  s1.counters = s.counters ∧ s1.resources = s.resources ∧ s1.shared = s.shared

/-- The state `exampleObserved` once `ptr` has gone out of scope: resource and
control block are deleted, `weakPtr` still holds both pointers. -/
def stateAfterDestroy : State :=
  ⟨[⟨5, true⟩], [⟨0, true⟩], [none], [some ⟨some 0, some 0⟩]⟩

/-- The public operations of the two handle types, together with the
allocation of a resource by the caller (`new Resource(v)`).  `this` and `rhs`
are object identities. -/
inductive Op where
  | newResource (v : Int)
  | sharedConstruct
  | sharedConstructFrom (res : Option Nat)
  | sharedCopyConstruct (rhs : Nat)
  | sharedConstructFromWeak (rhs : Nat)
  | sharedAssign (this rhs : Nat)
  | sharedDestroy (this : Nat)
  | sharedReset (this : Nat)
  | sharedResetTo (this : Nat) (res : Option Nat)
  | sharedSwap (this rhs : Nat)
  | sharedGet (this : Nat)
  | sharedDeref (this : Nat)
  | sharedDerefAssign (this : Nat) (v : Int)
  | sharedUseCount (this : Nat)
  | weakConstruct
  | weakCopyConstruct (rhs : Nat)
  | weakConstructFromShared (rhs : Nat)
  | weakAssign (this rhs : Nat)
  | weakAssignShared (this rhs : Nat)
  | weakDestroy (this : Nat)
  | weakReset (this : Nat)
  | weakSwap (this rhs : Nat)
  | weakUseCount (this : Nat)
  | weakExpired (this : Nat)
  | weakLock (this : Nat)
  deriving DecidableEq

/-- State after one public operation; the `const` member functions are
evaluated for their possible fault and leave the state as it is. -/
def Op.apply : Op → State → Except Fault State
  | .newResource v, s => pure (s.newResource v)
  | .sharedConstruct, s => pure (SharedPtr.construct s)
  | .sharedConstructFrom res, s => pure (SharedPtr.constructFrom res s)
  | .sharedCopyConstruct rhs, s => SharedPtr.copyConstruct rhs s
  | .sharedConstructFromWeak rhs, s => SharedPtr.constructFromWeak rhs s
  | .sharedAssign this rhs, s => SharedPtr.assign this rhs s
  | .sharedDestroy this, s => SharedPtr.destroy this s
  | .sharedReset this, s => SharedPtr.Reset this s
  | .sharedResetTo this res, s => SharedPtr.ResetTo this res s
  | .sharedSwap this rhs, s => SharedPtr.Swap this rhs s
  | .sharedGet this, s => do let _ ← SharedPtr.Get this s; pure s
  | .sharedDeref this, s => do let _ ← SharedPtr.deref this s; pure s
  | .sharedDerefAssign this v, s => SharedPtr.derefAssign this v s
  | .sharedUseCount this, s => do let _ ← SharedPtr.UseCount this s; pure s
  | .weakConstruct, s => pure (WeakPtr.construct s)
  | .weakCopyConstruct rhs, s => WeakPtr.copyConstruct rhs s
  | .weakConstructFromShared rhs, s => WeakPtr.constructFromShared rhs s
  | .weakAssign this rhs, s => WeakPtr.assign this rhs s
  | .weakAssignShared this rhs, s => WeakPtr.assignShared this rhs s
  | .weakDestroy this, s => WeakPtr.destroy this s
  | .weakReset this, s => WeakPtr.Reset this s
  | .weakSwap this rhs, s => WeakPtr.Swap this rhs s
  | .weakUseCount this, s => do let _ ← WeakPtr.UseCount this s; pure s
  | .weakExpired this, s => do let _ ← WeakPtr.Expired this s; pure s
  | .weakLock this, s => do let r ← WeakPtr.Lock this s; pure r.2

/-- The `WeakPtr` operations other than `Lock()`. -/
def Op.weakOnly : Op → Bool
  | .weakConstruct => true
  | .weakCopyConstruct _ => true
  | .weakConstructFromShared _ => true
  | .weakAssign _ _ => true
  | .weakAssignShared _ _ => true
  | .weakDestroy _ => true
  | .weakReset _ => true
  | .weakSwap _ _ => true
  | .weakUseCount _ => true
  | .weakExpired _ => true
  | _ => false

/-- State after a finite sequence of public operations, left to right. -/
def runOps : List Op → State → Except Fault State
  | [], s => .ok s
  | op :: ops, s =>
    match op.apply s with
    | .ok s1 => runOps ops s1
    | .error e => .error e

/-- Counting discipline of the control blocks (spec section 3) on a counter
store `m` and a table `l` of `SharedPtr` objects: the control block of every
existing handle is allocated; an allocated counter holds the number of existing
handles aliasing it, which is at least one; a deleted counter was left at zero. -/
def Counted (m : Memory) (l : List (Option SharedPtr)) : Prop :=
  (∀ (h : Nat) (p : SharedPtr) (c : Nat), l[h]? = some (some p) →
    p.referenceCount = some c → ∃ v : Int, m[c]? = some ⟨v, false⟩) ∧
  (∀ (c : Nat) (v : Int), m[c]? = some ⟨v, false⟩ →
    v = (l.countP (aliases c) : Int) ∧ 1 ≤ l.countP (aliases c)) ∧
  (∀ (c : Nat) (v : Int), m[c]? = some ⟨v, true⟩ → v = 0)

/-- A handle without control block holds no resource, for both handle types. -/
def NullInv (s : State) : Prop :=
  (∀ (h : Nat) (p : SharedPtr), s.shared[h]? = some (some p) →
    p.referenceCount = none → p.resource = none) ∧
  (∀ (w : Nat) (q : WeakPtr), s.weak[w]? = some (some q) →
    q.referenceCount = none → q.resource = none)

/-- Invariant of the states reachable through the public operations. -/
def Sound (s : State) : Prop := NullInv s ∧ Counted s.counters s.shared

/-- Effect of `DecrementReferenceCount` through a handle with members `p` on
the resources: `delete resource` runs exactly when the counter held 1. -/
def ResourceEffect (p : SharedPtr) (s s1 : State) : Prop :=
  match p.referenceCount with
  | none => s1.resources = s.resources
  | some c => ∃ v : Int, s.counters[c]? = some ⟨v, false⟩ ∧
      ResourceDeleted p.resource v s.resources s1.resources

/-- A slot of the `SharedPtr` table that references nothing: a destroyed
object or an empty handle. -/
def vacant (o : Option SharedPtr) : Prop := o = none ∨ o = some ⟨none, none⟩

/-- The elementary state changes the public operations begin with; taking the
pointers of another handle (`Acquire`) or a raw pointer (`Adopt`) may follow. -/
inductive Prim (s s1 : State) : Prop where
  /-- only `WeakPtr` objects change; they copy pointers that some handle has -/
  | weakOnly (hu : Untouched s s1)
      (hw : ∀ (w : Nat) (q : WeakPtr), s1.weak[w]? = some (some q) →
        q = ⟨none, none⟩ ∨ (∃ j : Nat, s.weak[j]? = some (some q)) ∨
        ∃ (j : Nat) (p : SharedPtr), s.shared[j]? = some (some p) ∧
          q = ⟨p.resource, p.referenceCount⟩)
  /-- only resource objects change: a new one is allocated or a value is stored -/
  | resources (hc : s1.counters = s.counters) (hs : s1.shared = s.shared)
      (hw : s1.weak = s.weak)
      (hr : ∀ (x : Nat) (c : Cell), s.resources[x]? = some c →
        ∃ v : Int, s1.resources[x]? = some ⟨v, c.freed⟩ ∧ (c.freed = true → v = c.value))
      (hn : ∀ (x : Nat) (c1 : Cell), s1.resources[x]? = some c1 →
        (∃ c : Cell, s.resources[x]? = some c) ∨ c1.freed = false)
  /-- a new `SharedPtr` object that references nothing yet -/
  | pushVacant (o : Option SharedPtr) (ho : vacant o)
      (h : s1 = { s with shared := s.shared ++ [o] })
  /-- a handle gives up what it references: `DecrementReferenceCount`, then the slot is cleared -/
  | release (a : Nat) (p : SharedPtr) (o : Option SharedPtr) (s2 : State)
      (ha : s.shared[a]? = some (some p)) (ho : vacant o)
      (hd : SharedPtr.DecrementReferenceCount a s = .ok s2)
      (h : s1 = { s2 with shared := s.shared.set a o })
  /-- two handles exchange their pointers -/
  | swap (a b : Nat) (pa pb : SharedPtr) (ha : s.shared[a]? = some (some pa))
      (hb : s.shared[b]? = some (some pb))
      (h : s1 = { s with shared := (s.shared.set a (some pb)).set b (some pa) })

/-- A vacant slot `a` takes the pointers `q` of another handle or of a weak
handle, followed by `IncrementReferenceCount`. -/
def Acquire (a : Nat) (q : SharedPtr) (s s1 : State) : Prop :=
  (∃ o, s.shared[a]? = some o ∧ vacant o) ∧
  ((∃ g : Nat, g ≠ a ∧ s.shared[g]? = some (some q)) ∨
    ∃ (w : Nat) (wq : WeakPtr), s.weak[w]? = some (some wq) ∧
      q = ⟨wq.resource, wq.referenceCount⟩) ∧
  s1.shared = s.shared.set a (some q) ∧ s1.weak = s.weak ∧
  s1.resources = s.resources ∧ Incremented q.referenceCount s.counters s1.counters

/-- A vacant slot `a` takes the raw pointer `r` with a newly allocated counter. -/
def Adopt (r : Option Nat) (a : Nat) (s s1 : State) : Prop :=
  (∃ o, s.shared[a]? = some o ∧ vacant o) ∧
  s1 = { s with counters := s.counters ++ [⟨1, false⟩],
                shared := s.shared.set a (some ⟨r, some s.counters.length⟩) }

/-- The raw pointer an operation takes ownership of, if any. -/
def Op.raw : Op → Option Nat
  | .sharedConstructFrom res => res
  | .sharedResetTo _ res => res
  | _ => none

/-- Decomposition of one public operation into elementary state changes. -/
def Steps (r : Option Nat) (s s1 : State) : Prop :=
  Prim s s1 ∨ (∃ t a q, Prim s t ∧ Acquire a q t s1) ∨ ∃ t a, Prim s t ∧ Adopt r a t s1

/-- Nothing is released twice between `s` and `s1`: released counters and
released resources are left as they are, a counter is released only by going
from 1 to 0, and a resource only together with the counter of a handle that
held it. -/
def ReleasedOnce (s s1 : State) : Prop :=
  (∀ (c : Nat) (v : Int), s.counters[c]? = some ⟨v, true⟩ →
    s1.counters[c]? = some ⟨v, true⟩) ∧
  (∀ (r : Nat) (x : Int), s.resources[r]? = some ⟨x, true⟩ →
    s1.resources[r]? = some ⟨x, true⟩) ∧
  (∀ (c : Nat) (v v1 : Int), s.counters[c]? = some ⟨v, false⟩ →
    s1.counters[c]? = some ⟨v1, true⟩ → v = 1 ∧ v1 = 0) ∧
  (∀ (r : Nat) (x x1 : Int), s.resources[r]? = some ⟨x, false⟩ →
    s1.resources[r]? = some ⟨x1, true⟩ →
    ∃ (a : Nat) (p : SharedPtr) (c : Nat), s.shared[a]? = some (some p) ∧
      p.resource = some r ∧ p.referenceCount = some c ∧
      s.counters[c]? = some ⟨1, false⟩ ∧ s1.counters[c]? = some ⟨0, true⟩)

/-- Same resource through the same control block: the handles and weak handles
that point to the control block of a `SharedPtr` hold its resource pointer. -/
def Coherent (s : State) : Prop :=
  ∀ (h : Nat) (p : SharedPtr) (c : Nat), s.shared[h]? = some (some p) →
    p.referenceCount = some c →
    (∀ (g : Nat) (q : SharedPtr), s.shared[g]? = some (some q) →
      q.referenceCount = some c → q.resource = p.resource) ∧
    (∀ (w : Nat) (q : WeakPtr), s.weak[w]? = some (some q) →
      q.referenceCount = some c → q.resource = p.resource)

/-- Weak handles point to counters that were allocated at some time. -/
def WeakBound (s : State) : Prop :=
  ∀ (w : Nat) (q : WeakPtr) (c : Nat), s.weak[w]? = some (some q) →
    q.referenceCount = some c → c < s.counters.length

/-- The states the public operations keep the program in when raw pointers are
handed over as the precondition of `SharedPtr(Resource*)` demands. -/
def Safe (s : State) : Prop :=
  Sound s ∧ ResourceInv s ∧ Exclusive s ∧ Coherent s ∧ WeakBound s

/-- The sequence `ops`, run from `s`, hands over raw pointers only as the
precondition of `SharedPtr(Resource*)` and `Reset(Resource*)` demands: null, or
an allocated resource that no handle holds yet. -/
def respects : List Op → State → Bool
  | [], _ => true
  | op :: ops, s =>
    transferable op.raw s &&
      match op.apply s with
      | .ok s1 => respects ops s1
      | .error _ => true

/-- One evaluated `delete` expression with a non-null operand. -/
inductive Deletion where
  | resource (r : Nat)
  | counter (c : Nat)
  deriving DecidableEq

/-- A program state together with the `delete` expressions evaluated so far,
oldest first. -/
structure Traced where
  state : State
  deleted : List Deletion
  deriving DecidableEq

/-- Source line 107, the statement `delete resource;`: no effect on a null
pointer, otherwise the resource is deleted in the current state. -/
def Traced.deleteResource (t : Traced) (res : Option Nat) : Except Fault Traced :=
  match res with
  | none => pure t
  | some r => do
    let rs ← t.state.resources.delete r
    pure ⟨{ t.state with resources := rs }, t.deleted ++ [.resource r]⟩

/-- Source line 108, the statement `delete referenceCount;`. -/
def Traced.deleteCounter (t : Traced) (c : Nat) : Except Fault Traced := do
  let m ← t.state.counters.delete c
  pure ⟨{ t.state with counters := m }, t.deleted ++ [.counter c]⟩

/-- Source lines 100-111 statement by statement, every statement acting on the
state the one before it left: `(*referenceCount)--`, the test
`*referenceCount == 0`, then `delete resource;` and `delete referenceCount;`. -/
def SharedPtr.DecrementReferenceCountTraced (this : Nat) (t : Traced) : Except Fault Traced := do
  let p ← t.state.getShared this
  match p.referenceCount with
  | none => pure t
  | some c =>
    let v ← t.state.counters.read c
    let m ← t.state.counters.write c (v - 1)
    let t1 : Traced := { t with state := { t.state with counters := m } }
    let v1 ← t1.state.counters.read c
    if v1 = 0 then
      let t2 ← t1.deleteResource p.resource
      t2.deleteCounter c
    else
      pure t1

/-- State after `ptr1(new int(5))`, a copy `ptr2`, `weakPtr(ptr1)`, the
destruction of `ptr2`, a second resource handed to a new owner, and
`ptr1.Reset()`: the first pair is released, the second has one owner. -/
def exampleReleased : State :=
  ⟨[⟨5, true⟩, ⟨7, false⟩], [⟨0, true⟩, ⟨1, false⟩],
    [some ⟨none, none⟩, none, some ⟨some 1, some 1⟩], [some ⟨some 0, some 0⟩]⟩

/-- The state `stateAfterDestroy` after a second resource got an owner, a copy
of that owner and a `WeakPtr`, which then swapped with the stale `weakPtr`. -/
def stateAfterSecondOwner : State :=
  ⟨[⟨5, true⟩, ⟨7, false⟩], [⟨0, true⟩, ⟨2, false⟩],
    [none, some ⟨some 1, some 1⟩, some ⟨some 1, some 1⟩],
    [some ⟨some 1, some 1⟩, some ⟨some 0, some 0⟩]⟩

/-! ## Lemmas about the embedding -/

open SharedPtr

theorem Memory.read_eq_ok {m : Memory} {p : Nat} {v : Int} (h : m[p]? = some ⟨v, false⟩) :
    m.read p = .ok v := by
  simp [Memory.read, h]

theorem Memory.write_eq_ok {m : Memory} {p : Nat} {v : Int} (w : Int) (h : m[p]? = some ⟨v, false⟩) :
    m.write p w = .ok (m.set p ⟨w, false⟩) := by
  simp [Memory.write, h]

theorem Memory.delete_eq_ok {m : Memory} {p : Nat} {v : Int} (h : m[p]? = some ⟨v, false⟩) :
    m.delete p = .ok (m.set p ⟨v, true⟩) := by
  simp [Memory.delete, h]

theorem State.getShared_eq_ok {s : State} {h : Nat} {p : SharedPtr}
    (hp : s.shared[h]? = some (some p)) : s.getShared h = .ok p := by
  simp [State.getShared, hp]

theorem State.getWeak_eq_ok {s : State} {w : Nat} {p : WeakPtr}
    (hp : s.weak[w]? = some (some p)) : s.getWeak w = .ok p := by
  simp [State.getWeak, hp]

namespace SharedPtr
variable {s : State} {h c : Nat} {p : SharedPtr} {v : Int}

theorem increment_none (hp : s.shared[h]? = some (some p)) (hc : p.referenceCount = none) :
    IncrementReferenceCount h s = .ok s := by
  simp [IncrementReferenceCount, State.getShared_eq_ok hp, hc, bind, Except.bind, pure, Except.pure]

theorem increment_some (hp : s.shared[h]? = some (some p)) (hc : p.referenceCount = some c)
    (hv : s.counters[c]? = some ⟨v, false⟩) :
    IncrementReferenceCount h s = .ok { s with counters := s.counters.set c ⟨v + 1, false⟩ } := by
  simp [IncrementReferenceCount, State.getShared_eq_ok hp, hc, Memory.read_eq_ok hv,
    Memory.write_eq_ok _ hv, bind, Except.bind, pure, Except.pure]

theorem decrement_none (hp : s.shared[h]? = some (some p)) (hc : p.referenceCount = none) :
    DecrementReferenceCount h s = .ok s := by
  simp [DecrementReferenceCount, State.getShared_eq_ok hp, hc, bind, Except.bind, pure, Except.pure]

theorem decrement_keep (hp : s.shared[h]? = some (some p)) (hc : p.referenceCount = some c)
    (hv : s.counters[c]? = some ⟨v, false⟩) (hne : v ≠ 1) :
    DecrementReferenceCount h s = .ok { s with counters := s.counters.set c ⟨v - 1, false⟩ } := by
  have hlt : c < s.counters.length := (List.getElem?_eq_some_iff.mp hv).1
  have hv2 : (s.counters.set c ⟨v - 1, false⟩)[c]? = some ⟨v - 1, false⟩ := by
    simp [List.getElem?_set, hlt]
  have hz : ¬ (v - 1 = 0) := by omega
  simp [DecrementReferenceCount, State.getShared_eq_ok hp, hc, Memory.read_eq_ok hv,
    Memory.write_eq_ok _ hv, Memory.read_eq_ok hv2, hz, bind, Except.bind, pure, Except.pure]

theorem decrement_release_null (hp : s.shared[h]? = some (some p))
    (hc : p.referenceCount = some c) (hv : s.counters[c]? = some ⟨1, false⟩)
    (hr : p.resource = none) :
    DecrementReferenceCount h s = .ok { s with counters := s.counters.set c ⟨0, true⟩ } := by
  have hlt : c < s.counters.length := (List.getElem?_eq_some_iff.mp hv).1
  have hv2 : (s.counters.set c ⟨0, false⟩)[c]? = some ⟨0, false⟩ := by
    simp [List.getElem?_set, hlt]
  simp [DecrementReferenceCount, State.getShared_eq_ok hp, hc, hr, Memory.read_eq_ok hv,
    Memory.write_eq_ok _ hv, Memory.read_eq_ok hv2, Memory.delete_eq_ok hv2,
    bind, Except.bind, pure, Except.pure]

theorem decrement_release {r : Nat} {x : Int} (hp : s.shared[h]? = some (some p))
    (hc : p.referenceCount = some c) (hv : s.counters[c]? = some ⟨1, false⟩)
    (hr : p.resource = some r) (hx : s.resources[r]? = some ⟨x, false⟩) :
    DecrementReferenceCount h s =
      .ok { s with resources := s.resources.set r ⟨x, true⟩,
                   counters := s.counters.set c ⟨0, true⟩ } := by
  have hlt : c < s.counters.length := (List.getElem?_eq_some_iff.mp hv).1
  have hv2 : (s.counters.set c ⟨0, false⟩)[c]? = some ⟨0, false⟩ := by
    simp [List.getElem?_set, hlt]
  simp [DecrementReferenceCount, State.getShared_eq_ok hp, hc, hr, Memory.read_eq_ok hv,
    Memory.write_eq_ok _ hv, Memory.read_eq_ok hv2, Memory.delete_eq_ok hv2,
    Memory.delete_eq_ok hx, bind, Except.bind, pure, Except.pure]

end SharedPtr

theorem lookup_push_last {α : Type} (l : List α) (x : α) : (l ++ [x])[l.length]? = some x := by
  simp

theorem lookup_push_old {α : Type} {l : List α} {i : Nat} {y : α} (x : α) (h : l[i]? = some y) :
    (l ++ [x])[i]? = some y := by
  have hlt : i < l.length := (List.getElem?_eq_some_iff.mp h).1
  rw [List.getElem?_append_left hlt, h]

theorem lookup_set_self {α : Type} {l : List α} {i : Nat} {y : α} (x : α) (h : l[i]? = some y) :
    (l.set i x)[i]? = some x := by
  have hlt : i < l.length := (List.getElem?_eq_some_iff.mp h).1
  simp [List.getElem?_set, hlt]

theorem lookup_set_other {α : Type} (l : List α) {i j : Nat} (x : α) (h : i ≠ j) :
    (l.set i x)[j]? = l[j]? := by
  simp [List.getElem?_set, h]

theorem lookup_lt {α : Type} {l : List α} {i : Nat} {y : α} (h : l[i]? = some y) :
    i < l.length := (List.getElem?_eq_some_iff.mp h).1

namespace SharedPtr
variable {s : State} {h c : Nat} {p : SharedPtr} {v : Int}

theorem UseCount_some (hp : s.shared[h]? = some (some p)) (hc : p.referenceCount = some c)
    (hv : s.counters[c]? = some ⟨v, false⟩) : UseCount h s = .ok v := by
  simp [UseCount, State.getShared_eq_ok hp, hc, Memory.read_eq_ok hv, bind, Except.bind]

theorem UseCount_none (hp : s.shared[h]? = some (some p)) (hc : p.referenceCount = none) :
    UseCount h s = .ok 0 := by
  simp [UseCount, State.getShared_eq_ok hp, hc, bind, Except.bind, pure, Except.pure]

theorem copyConstruct_some (hp : s.shared[h]? = some (some p)) (hc : p.referenceCount = some c)
    (hv : s.counters[c]? = some ⟨v, false⟩) :
    copyConstruct h s = .ok { s with counters := s.counters.set c ⟨v + 1, false⟩,
                                     shared := s.shared ++ [some ⟨p.resource, some c⟩] } := by
  simp only [copyConstruct, State.getShared_eq_ok hp, bind, Except.bind]
  rw [hc]
  exact increment_some (lookup_push_last _ _) rfl hv

theorem copyConstruct_none (hp : s.shared[h]? = some (some p)) (hc : p.referenceCount = none) :
    copyConstruct h s = .ok { s with shared := s.shared ++ [some ⟨p.resource, none⟩] } := by
  simp only [copyConstruct, State.getShared_eq_ok hp, bind, Except.bind]
  rw [hc]
  exact increment_none (lookup_push_last _ _) rfl

theorem destroy_none (hp : s.shared[h]? = some (some p)) (hc : p.referenceCount = none) :
    destroy h s = .ok { s with shared := s.shared.set h none } := by
  simp only [destroy, decrement_none hp hc, bind, Except.bind, pure, Except.pure]

theorem destroy_keep (hp : s.shared[h]? = some (some p)) (hc : p.referenceCount = some c)
    (hv : s.counters[c]? = some ⟨v, false⟩) (hne : v ≠ 1) :
    destroy h s = .ok { s with counters := s.counters.set c ⟨v - 1, false⟩,
                               shared := s.shared.set h none } := by
  simp only [destroy, decrement_keep hp hc hv hne, bind, Except.bind, pure, Except.pure]

theorem destroy_release_null (hp : s.shared[h]? = some (some p))
    (hc : p.referenceCount = some c) (hv : s.counters[c]? = some ⟨1, false⟩)
    (hr : p.resource = none) :
    destroy h s = .ok { s with counters := s.counters.set c ⟨0, true⟩,
                               shared := s.shared.set h none } := by
  simp only [destroy, decrement_release_null hp hc hv hr, bind, Except.bind, pure, Except.pure]

theorem destroy_release {r : Nat} {x : Int} (hp : s.shared[h]? = some (some p))
    (hc : p.referenceCount = some c) (hv : s.counters[c]? = some ⟨1, false⟩)
    (hr : p.resource = some r) (hx : s.resources[r]? = some ⟨x, false⟩) :
    destroy h s = .ok { s with resources := s.resources.set r ⟨x, true⟩,
                               counters := s.counters.set c ⟨0, true⟩,
                               shared := s.shared.set h none } := by
  simp only [destroy, decrement_release hp hc hv hr hx, bind, Except.bind, pure, Except.pure]

end SharedPtr

theorem Memory.read_ok_inv {m : Memory} {p : Nat} {v : Int} (h : m.read p = .ok v) :
    m[p]? = some ⟨v, false⟩ := by
  unfold Memory.read at h
  split at h
  · cases h
  · rename_i c hc
    split at h
    · cases h
    · rename_i hf
      cases h
      rw [hc]
      cases c
      simp_all

theorem Memory.delete_ok_inv {m m1 : Memory} {p : Nat} (h : m.delete p = .ok m1) :
    ∃ x, m[p]? = some ⟨x, false⟩ := by
  unfold Memory.delete at h
  split at h
  · cases h
  · rename_i c hc
    split at h
    · cases h
    · rename_i hf
      refine ⟨c.value, ?_⟩
      rw [hc]
      cases c
      simp_all

theorem State.getShared_ok_inv {s : State} {h : Nat} {p : SharedPtr}
    (hp : s.getShared h = .ok p) : s.shared[h]? = some (some p) := by
  unfold State.getShared at hp
  split at hp
  · rename_i q hq
    cases hp
    exact hq
  · cases hp

theorem State.getWeak_ok_inv {s : State} {w : Nat} {p : WeakPtr}
    (hp : s.getWeak w = .ok p) : s.weak[w]? = some (some p) := by
  unfold State.getWeak at hp
  split at hp
  · rename_i q hq
    cases hp
    exact hq
  · cases hp

theorem bind_ok_inv {α β : Type} {x : Except Fault α} {f : α → Except Fault β} {b : β}
    (h : (x >>= f) = .ok b) : ∃ a, x = .ok a ∧ f a = .ok b := by
  cases x with
  | error e => cases h
  | ok a => exact ⟨a, rfl, h⟩

/-- What a successful increment did. -/
theorem SharedPtr.increment_inv {s s1 : State} {h : Nat}
    (hs : IncrementReferenceCount h s = .ok s1) :
    ∃ p, s.shared[h]? = some (some p) ∧ s1.shared = s.shared ∧ s1.weak = s.weak ∧
      s1.resources = s.resources ∧ Incremented p.referenceCount s.counters s1.counters := by
  have hs0 := hs
  unfold IncrementReferenceCount at hs
  obtain ⟨p, hp, hs⟩ := bind_ok_inv hs
  have hp := State.getShared_ok_inv hp
  refine ⟨p, hp, ?_⟩
  cases hc : p.referenceCount with
  | none =>
    rw [increment_none hp hc] at hs0
    cases hs0
    exact ⟨rfl, rfl, rfl, rfl⟩
  | some c =>
    rw [hc] at hs
    obtain ⟨v, hv, -⟩ := bind_ok_inv hs
    have hv := Memory.read_ok_inv hv
    rw [increment_some hp hc hv] at hs0
    cases hs0
    exact ⟨rfl, rfl, rfl, v, hv, rfl⟩

/-- What a successful decrement did to the handle tables and the counters. -/
theorem SharedPtr.decrement_inv {s s1 : State} {h : Nat}
    (hs : DecrementReferenceCount h s = .ok s1) :
    ∃ p, s.shared[h]? = some (some p) ∧ s1.shared = s.shared ∧ s1.weak = s.weak ∧
      Decremented p.referenceCount s.counters s1.counters := by
  have hs0 := hs
  unfold DecrementReferenceCount at hs
  obtain ⟨p, hp, hs⟩ := bind_ok_inv hs
  have hp := State.getShared_ok_inv hp
  cases hc : p.referenceCount with
  | none =>
    rw [decrement_none hp hc] at hs0
    cases hs0
    refine ⟨p, hp, rfl, rfl, ?_⟩
    rw [hc]
    exact rfl
  | some c =>
    rw [hc] at hs
    obtain ⟨v, hv, hs⟩ := bind_ok_inv hs
    have hv := Memory.read_ok_inv hv
    by_cases h1 : v = 1
    · subst h1
      cases hr : p.resource with
      | none =>
        rw [decrement_release_null hp hc hv hr] at hs0
        cases hs0
        refine ⟨p, hp, rfl, rfl, ?_⟩
        rw [hc]
        exact ⟨1, hv, by simp⟩
      | some r =>
        obtain ⟨m, hm, hs⟩ := bind_ok_inv hs
        rw [Memory.write_eq_ok _ hv] at hm
        cases hm
        obtain ⟨v1, hv1, hs⟩ := bind_ok_inv hs
        have hv1 := Memory.read_ok_inv hv1
        rw [lookup_set_self _ hv] at hv1
        cases hv1
        rw [hr] at hs
        simp only [sub_self, if_true] at hs
        obtain ⟨rs, hrs, -⟩ := bind_ok_inv hs
        obtain ⟨x, hx⟩ := Memory.delete_ok_inv hrs
        rw [decrement_release hp hc hv hr hx] at hs0
        cases hs0
        refine ⟨p, hp, rfl, rfl, ?_⟩
        rw [hc]
        exact ⟨1, hv, by simp⟩
    · rw [decrement_keep hp hc hv h1] at hs0
      cases hs0
      refine ⟨p, hp, rfl, rfl, ?_⟩
      rw [hc]
      exact ⟨v, hv, by simp [h1]⟩

theorem aliases_some_iff {c : Nat} {p : SharedPtr} :
    aliases c (some p) = true ↔ p.referenceCount = some c := by
  simp [aliases]

theorem aliases_none (c : Nat) : aliases c none = false := rfl

theorem countP_set_add {α : Type} (q : α → Bool) {l : List α} {i : Nat} {x : α} (a : α)
    (h : l[i]? = some x) :
    (l.set i a).countP q + (if q x then 1 else 0) = l.countP q + (if q a then 1 else 0) := by
  obtain ⟨hlt, hx⟩ := List.getElem?_eq_some_iff.mp h
  have h1 := List.countP_set q l i a hlt
  have h2 := List.boole_getElem_le_countP q l i hlt
  rw [hx] at h1 h2
  omega

theorem int_count_step {n n1 : Nat} {x y : Bool}
    (h : n1 + (if x = true then 1 else 0) = n + (if y = true then 1 else 0)) :
    (n : Int) - (if x = true then 1 else 0) + (if y = true then 1 else 0) = n1 := by
  cases x <;> cases y <;> simp at h ⊢ <;> omega

theorem countP_ge_one {l : List (Option SharedPtr)} {h c : Nat} {p : SharedPtr}
    (hp : l[h]? = some (some p)) (hc : p.referenceCount = some c) :
    1 ≤ l.countP (aliases c) := by
  have hmem : some p ∈ l := List.getElem?_mem hp
  have : 0 < l.countP (aliases c) :=
    List.countP_pos_iff.mpr ⟨some p, hmem, aliases_some_iff.mpr hc⟩
  omega

theorem countP_ge_two {l : List (Option SharedPtr)} {h g c : Nat} {p q : SharedPtr}
    (hne : h ≠ g) (hp : l[h]? = some (some p)) (hc : p.referenceCount = some c)
    (hq : l[g]? = some (some q)) (hd : q.referenceCount = some c) :
    2 ≤ l.countP (aliases c) := by
  have h1 := countP_set_add (aliases c) none hp
  have hq2 : (l.set h none)[g]? = some (some q) := by
    rw [lookup_set_other _ _ hne]; exact hq
  have h2 := countP_ge_one hq2 hd
  rw [aliases_some_iff.mpr hc, aliases_none] at h1
  simp at h1
  omega

theorem CountInv.cell {s : State} {h c : Nat} {p : SharedPtr} (hi : CountInv s)
    (hp : s.shared[h]? = some (some p)) (hc : p.referenceCount = some c) :
    s.counters[c]? = some ⟨(liveCount c s : Int), false⟩ := by
  have := hi _ (List.getElem?_mem hp)
  simpa [blockOk, hc] using this

theorem CountInv.of_cells {s : State}
    (H : ∀ (h : Nat) (p : SharedPtr) (c : Nat), s.shared[h]? = some (some p) →
      p.referenceCount = some c →
      s.counters[c]? = some ⟨(liveCount c s : Int), false⟩) : CountInv s := by
  intro o ho
  obtain ⟨n, hn⟩ := List.getElem?_of_mem ho
  cases o with
  | none => rfl
  | some p =>
    cases hc : p.referenceCount with
    | none => simp [blockOk, hc]
    | some c => simpa [blockOk, hc] using H n p c hn hc

theorem CountInv_constructFrom {s : State} (r : Option Nat) (hi : CountInv s) :
    CountInv (constructFrom r s) := by
  apply CountInv.of_cells
  intro h p c hp hc
  have hlen : h < s.shared.length ∨ h = s.shared.length := by
    have := lookup_lt hp
    simp [constructFrom] at this
    omega
  rcases hlen with hlt | rfl
  · have hp0 : s.shared[h]? = some (some p) := by
      simpa [constructFrom, List.getElem?_append_left hlt] using hp
    have hcell := hi.cell hp0 hc
    have hne : ¬ (s.counters.length = c) := by
      have := lookup_lt hcell
      omega
    simp only [constructFrom, Memory.alloc, liveCount, List.countP_append]
    rw [lookup_push_old _ hcell]
    simp [liveCount, List.countP_cons, aliases, hne]
  · have hp1 : p = ⟨r, some s.counters.length⟩ := by
      have := lookup_push_last s.shared (some (⟨r, some s.counters.length⟩ : SharedPtr))
      simp only [constructFrom] at hp
      rw [this] at hp
      cases hp
      rfl
    subst hp1
    cases hc
    have hz : s.shared.countP (aliases s.counters.length) = 0 := by
      rw [List.countP_eq_zero]
      intro o ho ha
      cases o with
      | none => simp [aliases] at ha
      | some q =>
        obtain ⟨n, hn⟩ := List.getElem?_of_mem ho
        have := lookup_lt (hi.cell hn (aliases_some_iff.mp ha))
        omega
    simp only [constructFrom, Memory.alloc, liveCount, List.countP_append]
    rw [lookup_push_last, hz]
    simp [List.countP_cons, aliases]

namespace SharedPtr
variable {s s1 : State} {h g c : Nat} {p q : SharedPtr} {v : Int}

/-- The part of `operator=` after the decrement: both members of the target
are overwritten with those of `rhs`, then the count is incremented. -/
theorem assign_of_decrement (hne : h ≠ g) (hd : DecrementReferenceCount h s = .ok s1)
    (hq : s.shared[g]? = some (some q)) :
    assign h g s = IncrementReferenceCount h
      { s1 with shared := s.shared.set h (some ⟨q.resource, q.referenceCount⟩) } := by
  obtain ⟨p, hp, hsh, -, -⟩ := decrement_inv hd
  have hp1 : s1.shared[h]? = some (some p) := by rw [hsh]; exact hp
  have hq1 : s1.shared[g]? = some (some q) := by rw [hsh]; exact hq
  have hp2 : (s1.setShared h { p with resource := q.resource }).shared[h]? =
      some (some ⟨q.resource, p.referenceCount⟩) := lookup_set_self _ hp1
  have hq2 : (s1.setShared h { p with resource := q.resource }).shared[g]? = some (some q) := by
    simp only [State.setShared]
    rw [lookup_set_other _ _ hne]; exact hq1
  simp only [assign, hne, ne_eq, not_false_eq_true, if_true, hd, bind, Except.bind,
    State.getShared_eq_ok hp1, State.getShared_eq_ok hq1, State.getShared_eq_ok hp2,
    State.getShared_eq_ok hq2]
  simp [State.setShared, List.set_set, hsh]

theorem assign_error_of_decrement {e : Fault} (hne : h ≠ g)
    (hd : DecrementReferenceCount h s = .error e) : assign h g s = .error e := by
  simp [assign, hne, hd, bind, Except.bind]

/-- `Reset()` is the decrement followed by clearing both members. -/
theorem Reset_of_decrement (hd : DecrementReferenceCount h s = .ok s1) :
    Reset h s = .ok { s1 with shared := s.shared.set h (some ⟨none, none⟩) } := by
  obtain ⟨p, hp, hsh, -, -⟩ := decrement_inv hd
  have hp1 : s1.shared[h]? = some (some p) := by rw [hsh]; exact hp
  have hp2 : (s1.setShared h { p with resource := none }).shared[h]? =
      some (some ⟨none, p.referenceCount⟩) := lookup_set_self _ hp1
  simp only [Reset, hd, bind, Except.bind, State.getShared_eq_ok hp1,
    State.getShared_eq_ok hp2, pure, Except.pure]
  simp [State.setShared, List.set_set, hsh]

/-- `Reset(res)` is the decrement followed by taking `res` with a new control block. -/
theorem ResetTo_of_decrement (r : Option Nat) (hd : DecrementReferenceCount h s = .ok s1) :
    ResetTo h r s = .ok { s1 with counters := s1.counters ++ [⟨1, false⟩],
                                  shared := s.shared.set h (some ⟨r, some s1.counters.length⟩) } := by
  obtain ⟨p, hp, hsh, -, -⟩ := decrement_inv hd
  have hp1 : s1.shared[h]? = some (some p) := by rw [hsh]; exact hp
  have hp2 : (s1.setShared h { p with resource := r }).shared[h]? =
      some (some ⟨r, p.referenceCount⟩) := lookup_set_self _ hp1
  simp only [ResetTo, hd, bind, Except.bind, State.getShared_eq_ok hp1,
    State.getShared_eq_ok hp2, pure, Except.pure]
  simp [State.setShared, List.set_set, hsh, Memory.alloc]

theorem destroy_of_decrement (hd : DecrementReferenceCount h s = .ok s1) :
    destroy h s = .ok { s1 with shared := s.shared.set h none } := by
  obtain ⟨p, hp, hsh, -, -⟩ := decrement_inv hd
  simp [destroy, hd, bind, Except.bind, pure, Except.pure, hsh]

end SharedPtr

theorem lookup_push_cases {α : Type} {l : List α} {x y : α} {i : Nat}
    (h : (l ++ [x])[i]? = some y) : l[i]? = some y ∨ (i = l.length ∧ y = x) := by
  have hlt := lookup_lt h
  simp at hlt
  by_cases hi : i < l.length
  · left
    rwa [List.getElem?_append_left hi] at h
  · right
    have : i = l.length := by omega
    subst this
    rw [lookup_push_last] at h
    cases h
    exact ⟨rfl, rfl⟩

theorem lookup_set_cases {α : Type} {l : List α} {x y : α} {i j : Nat}
    (h : (l.set i x)[j]? = some y) : (j ≠ i ∧ l[j]? = some y) ∨ (j = i ∧ y = x) := by
  by_cases hij : i = j
  · right
    subst hij
    have hlt := lookup_lt h
    simp at hlt
    rw [List.getElem?_set_self hlt] at h
    cases h
    exact ⟨rfl, rfl⟩
  · left
    rw [lookup_set_other _ _ hij] at h
    exact ⟨fun e => hij e.symm, h⟩

namespace SharedPtr

theorem copyConstruct_inv {s s1 : State} {g : Nat} (hs : copyConstruct g s = .ok s1) :
    ∃ q, s.shared[g]? = some (some q) ∧ s1.shared = s.shared ++ [some q] ∧
      s1.weak = s.weak ∧ s1.resources = s.resources ∧
      Incremented q.referenceCount s.counters s1.counters := by
  unfold copyConstruct at hs
  obtain ⟨q, hq, hs⟩ := bind_ok_inv hs
  obtain ⟨p1, hp1, h1, h2, h3, h4⟩ := increment_inv hs
  have hp1 : p1 = q := by
    simp only [lookup_push_last] at hp1
    cases hp1
    rfl
  subst hp1
  exact ⟨_, State.getShared_ok_inv hq, h1, h2, h3, h4⟩

theorem destroy_inv {s s1 : State} {h : Nat} (hs : destroy h s = .ok s1) :
    ∃ p, s.shared[h]? = some (some p) ∧ s1.shared = s.shared.set h none ∧
      s1.weak = s.weak ∧ Decremented p.referenceCount s.counters s1.counters := by
  have hs0 := hs
  unfold destroy at hs
  obtain ⟨s2, hd, -⟩ := bind_ok_inv hs
  rw [destroy_of_decrement hd] at hs0
  cases hs0
  obtain ⟨p, hp, -, h2, h3⟩ := decrement_inv hd
  exact ⟨p, hp, rfl, h2, h3⟩

theorem assign_inv {s s1 : State} {h g : Nat} (hne : h ≠ g) (hs : assign h g s = .ok s1) :
    ∃ p q m, s.shared[h]? = some (some p) ∧ s.shared[g]? = some (some q) ∧
      s1.shared = s.shared.set h (some q) ∧ s1.weak = s.weak ∧
      Decremented p.referenceCount s.counters m ∧
      Incremented q.referenceCount m s1.counters := by
  have hs0 := hs
  unfold assign at hs
  rw [if_pos hne] at hs
  obtain ⟨s2, hd, hs⟩ := bind_ok_inv hs
  obtain ⟨p, hp, hsh, hw, hdec⟩ := decrement_inv hd
  obtain ⟨p2, -, hs⟩ := bind_ok_inv hs
  obtain ⟨q, hq, -⟩ := bind_ok_inv hs
  have hq := State.getShared_ok_inv hq
  rw [hsh] at hq
  rw [assign_of_decrement hne hd hq] at hs0
  obtain ⟨p3, hp3, h1, h2, -, h4⟩ := increment_inv hs0
  have hp3 : p3 = q := by
    simp only [lookup_set_self _ hp] at hp3
    cases hp3
    rfl
  subst hp3
  exact ⟨p, _, s2.counters, hp, hq, h1, h2.trans hw, hdec, h4⟩

end SharedPtr

theorem counted_push {m m1 : Memory} {l : List (Option SharedPtr)} {g : Nat} {q : SharedPtr}
    (H : ∀ (h : Nat) (p : SharedPtr) (c : Nat), l[h]? = some (some p) →
      p.referenceCount = some c → m[c]? = some ⟨(l.countP (aliases c) : Int), false⟩)
    (hq : l[g]? = some (some q)) (hinc : Incremented q.referenceCount m m1) :
    ∀ (h : Nat) (p : SharedPtr) (c : Nat), (l ++ [some q])[h]? = some (some p) →
      p.referenceCount = some c →
      m1[c]? = some ⟨((l ++ [some q]).countP (aliases c) : Int), false⟩ := by
  intro h p k hp hk
  have hcell : m[k]? = some ⟨(l.countP (aliases k) : Int), false⟩ := by
    rcases lookup_push_cases hp with h0 | ⟨-, h1⟩
    · exact H _ _ _ h0 hk
    · cases h1
      exact H _ _ _ hq hk
  rw [List.countP_append]
  cases hc : q.referenceCount with
  | none =>
    rw [hc] at hinc
    cases hinc
    simp [List.countP_cons, aliases, hc, hcell]
  | some c =>
    rw [hc] at hinc
    obtain ⟨v, hv, rfl⟩ := hinc
    by_cases hkc : c = k
    · subst hkc
      rw [hcell] at hv
      cases hv
      rw [lookup_set_self _ hcell]
      simp [List.countP_cons, aliases, hc]
    · rw [lookup_set_other _ _ hkc, hcell]
      simp [List.countP_cons, aliases, hc, hkc]

theorem counted_set_none {m m1 : Memory} {l : List (Option SharedPtr)} {h : Nat} {p : SharedPtr}
    (H : ∀ (h : Nat) (p : SharedPtr) (c : Nat), l[h]? = some (some p) →
      p.referenceCount = some c → m[c]? = some ⟨(l.countP (aliases c) : Int), false⟩)
    (hp : l[h]? = some (some p)) (hdec : Decremented p.referenceCount m m1) :
    ∀ (i : Nat) (r : SharedPtr) (c : Nat), (l.set h none)[i]? = some (some r) →
      r.referenceCount = some c →
      m1[c]? = some ⟨((l.set h none).countP (aliases c) : Int), false⟩ := by
  intro i r k hr hk
  rcases lookup_set_cases hr with ⟨hne, hr0⟩ | ⟨-, hbad⟩
  swap
  · cases hbad
  have hcell := H _ _ _ hr0 hk
  have hcnt := countP_set_add (aliases k) none hp
  rw [aliases_none] at hcnt
  cases hc : p.referenceCount with
  | none =>
    rw [hc] at hdec
    cases hdec
    have : aliases k (some p) = false := by simp [aliases, hc]
    rw [this] at hcnt
    simp at hcnt
    rw [hcnt, hcell]
  | some c =>
    rw [hc] at hdec
    obtain ⟨v, hv, rfl⟩ := hdec
    by_cases hkc : c = k
    · subst hkc
      have h2 := countP_ge_two hne hr0 hk hp hc
      rw [aliases_some_iff.mpr hc] at hcnt
      rw [hcell] at hv
      cases hv
      rw [lookup_set_self _ hcell]
      have hne1 : ¬ ((l.countP (aliases c) : Int) = 1) := by omega
      simp only [hne1, decide_False]
      congr 2
      simp at hcnt
      omega
    · have : aliases k (some p) = false := by
        simp [aliases, hc, hkc]
      rw [this] at hcnt
      simp at hcnt
      rw [lookup_set_other _ _ hkc, hcnt, hcell]

theorem counted_set_some {m m1 m2 : Memory} {l : List (Option SharedPtr)} {h g : Nat}
    {p q : SharedPtr}
    (H : ∀ (h : Nat) (p : SharedPtr) (c : Nat), l[h]? = some (some p) →
      p.referenceCount = some c → m[c]? = some ⟨(l.countP (aliases c) : Int), false⟩)
    (hne : h ≠ g) (hp : l[h]? = some (some p)) (hq : l[g]? = some (some q))
    (hdec : Decremented p.referenceCount m m1) (hinc : Incremented q.referenceCount m1 m2) :
    ∀ (i : Nat) (r : SharedPtr) (c : Nat), (l.set h (some q))[i]? = some (some r) →
      r.referenceCount = some c →
      m2[c]? = some ⟨((l.set h (some q)).countP (aliases c) : Int), false⟩ := by
  intro i r k hr hk
  -- an object other than the target aliases block `k`, before and after
  have hwit : ∃ j t, j ≠ h ∧ l[j]? = some (some t) ∧ t.referenceCount = some k := by
    rcases lookup_set_cases hr with ⟨hne1, hr0⟩ | ⟨-, h1⟩
    · exact ⟨i, r, hne1, hr0, hk⟩
    · cases h1
      exact ⟨g, _, fun e => hne e.symm, hq, hk⟩
  obtain ⟨j, t, hjh, ht, htk⟩ := hwit
  have hcell := H _ _ _ ht htk
  have hcnt := countP_set_add (aliases k) (some q) hp
  -- the counter of `k` after the decrement
  have hmid : m1[k]? = some ⟨(l.countP (aliases k) : Int) - (if aliases k (some p) then 1 else 0),
      false⟩ := by
    cases hc : p.referenceCount with
    | none =>
      rw [hc] at hdec
      cases hdec
      have : aliases k (some p) = false := by simp [aliases, hc]
      simp [this, hcell]
    | some c =>
      rw [hc] at hdec
      obtain ⟨v, hv, rfl⟩ := hdec
      by_cases hkc : c = k
      · subst hkc
        have h2 := countP_ge_two hjh ht htk hp hc
        rw [hcell] at hv
        cases hv
        rw [lookup_set_self _ hcell]
        have hne1 : ¬ ((l.countP (aliases c) : Int) = 1) := by omega
        simp [hne1, aliases, hc]
      · have : aliases k (some p) = false := by simp [aliases, hc, hkc]
        rw [lookup_set_other _ _ hkc]
        simp [this, hcell]
  have hbal := int_count_step hcnt
  cases hd : q.referenceCount with
  | none =>
    rw [hd] at hinc
    cases hinc
    have hqk : aliases k (some q) = false := by simp [aliases, hd]
    rw [hmid]
    congr 2
    simpa [hqk] using hbal
  | some d =>
    rw [hd] at hinc
    obtain ⟨v, hv, rfl⟩ := hinc
    by_cases hkd : d = k
    · subst hkd
      rw [hmid] at hv
      cases hv
      rw [lookup_set_self _ hmid]
      congr 2
      simpa [aliases_some_iff.mpr hd] using hbal
    · have hqk : aliases k (some q) = false := by simp [aliases, hd, hkd]
      rw [lookup_set_other _ _ hkd, hmid]
      congr 2
      simpa [hqk] using hbal

theorem CountInv.cells {s : State} (hi : CountInv s) :
    ∀ (h : Nat) (p : SharedPtr) (c : Nat), s.shared[h]? = some (some p) →
      p.referenceCount = some c →
      s.counters[c]? = some ⟨(s.shared.countP (aliases c) : Int), false⟩ :=
  fun _ _ _ hp hc => hi.cell hp hc

theorem CountInv_apply {s s1 : State} (op : StrongOp) (hi : CountInv s)
    (hs : op.apply s = .ok s1) : CountInv s1 := by
  apply CountInv.of_cells
  cases op with
  | copyConstruct g =>
    obtain ⟨q, hq, hsh, -, -, hinc⟩ := copyConstruct_inv hs
    simp only [liveCount]
    rw [hsh]
    exact counted_push hi.cells hq hinc
  | destroy h =>
    obtain ⟨p, hp, hsh, -, hdec⟩ := destroy_inv hs
    simp only [liveCount]
    rw [hsh]
    exact counted_set_none hi.cells hp hdec
  | assign h g =>
    by_cases hne : h = g
    · subst hne
      have : s1 = s := by
        simp [StrongOp.apply, assign, pure, Except.pure] at hs
        exact hs.symm
      subst this
      exact hi.cells
    · obtain ⟨p, q, m, hp, hq, hsh, -, hdec, hinc⟩ := assign_inv hne hs
      simp only [liveCount]
      rw [hsh]
      exact counted_set_some hi.cells hne hp hq hdec hinc

theorem CountInv_run {ops : List StrongOp} {s s1 : State} (hi : CountInv s)
    (hs : run ops s = .ok s1) : CountInv s1 := by
  induction ops generalizing s with
  | nil =>
    cases hs
    exact hi
  | cons op ops ih =>
    simp only [run] at hs
    cases hop : op.apply s with
    | error e => rw [hop] at hs; cases hs
    | ok s2 =>
      rw [hop] at hs
      exact ih (CountInv_apply op hi hop) hs

theorem WeakPtr.Expired_false_inv {s : State} {w : Nat} (he : WeakPtr.Expired w s = .ok false) :
    ∃ wp c v, s.weak[w]? = some (some wp) ∧ wp.referenceCount = some c ∧
      s.counters[c]? = some ⟨v, false⟩ ∧ v ≠ 0 := by
  unfold WeakPtr.Expired at he
  obtain ⟨wp, hwp, he⟩ := bind_ok_inv he
  have hwp := State.getWeak_ok_inv hwp
  cases hc : wp.referenceCount with
  | none =>
    rw [hc] at he
    cases he
  | some c =>
    rw [hc] at he
    obtain ⟨v, hv, he⟩ := bind_ok_inv he
    have hv := Memory.read_ok_inv hv
    refine ⟨wp, c, v, hwp, hc, hv, ?_⟩
    intro h0
    subst h0
    cases he

theorem WeakPtr.useCount_of_cell {s : State} {w c : Nat} {wp : WeakPtr} {v : Int}
    (hw : s.weak[w]? = some (some wp)) (hc : wp.referenceCount = some c)
    (hv : s.counters[c]? = some ⟨v, false⟩) : WeakPtr.UseCount w s = .ok v := by
  simp [WeakPtr.UseCount, State.getWeak_eq_ok hw, hc, Memory.read_eq_ok hv, bind, Except.bind]

theorem SharedPtr.constructFromWeak_some {s : State} {w c : Nat} {wp : WeakPtr} {v : Int}
    (hw : s.weak[w]? = some (some wp)) (hc : wp.referenceCount = some c)
    (hv : s.counters[c]? = some ⟨v, false⟩) :
    constructFromWeak w s = .ok { s with counters := s.counters.set c ⟨v + 1, false⟩,
                                         shared := s.shared ++ [some ⟨wp.resource, some c⟩] } := by
  simp only [constructFromWeak, State.getWeak_eq_ok hw, bind, Except.bind]
  rw [hc]
  exact increment_some (lookup_push_last _ _) rfl hv

theorem SharedPtr.constructFromWeak_none {s : State} {w : Nat} {wp : WeakPtr}
    (hw : s.weak[w]? = some (some wp)) (hc : wp.referenceCount = none) :
    constructFromWeak w s = .ok { s with shared := s.shared ++ [some ⟨wp.resource, none⟩] } := by
  simp only [constructFromWeak, State.getWeak_eq_ok hw, bind, Except.bind]
  rw [hc]
  exact increment_none (lookup_push_last _ _) rfl

theorem Memory.live_inv {m : Memory} {r : Nat} (h : m.live r = true) :
    ∃ x, m[r]? = some ⟨x, false⟩ := by
  unfold Memory.live at h
  split at h
  · rename_i c hc
    refine ⟨c.value, ?_⟩
    rw [hc]
    cases c
    simp_all
  · cases h

theorem Memory.live_of_lookup {m : Memory} {r : Nat} {x : Int} (h : m[r]? = some ⟨x, false⟩) :
    m.live r = true := by
  simp [Memory.live, h]

theorem Memory.released_set {m : Memory} {r : Nat} {x y : Int} (h : m[r]? = some ⟨x, false⟩) :
    Memory.released (m.set r ⟨y, true⟩) r = true := by
  simp [Memory.released, lookup_set_self _ h]

theorem ResourceInv.live {s : State} {h c r : Nat} {p : SharedPtr} (hi : ResourceInv s)
    (hp : s.shared[h]? = some (some p)) (hc : p.referenceCount = some c)
    (hr : p.resource = some r) : ∃ x, s.resources[r]? = some ⟨x, false⟩ := by
  have := hi _ (List.getElem?_mem hp)
  simp only [resourceOk, hc, hr] at this
  exact Memory.live_inv this

theorem ResourceDeleted.released {res : Option Nat} {v : Int} {m m1 : Memory}
    (h : ResourceDeleted res v m m1) (hv : v = 1) (r : Nat) (hr : res = some r) :
    m.live r = true ∧ m1.released r = true := by
  subst hv hr
  simp only [ResourceDeleted, if_true] at h
  obtain ⟨x, hx, rfl⟩ := h
  exact ⟨Memory.live_of_lookup hx, Memory.released_set hx⟩

theorem ResourceDeleted.unchanged {res : Option Nat} {v : Int} {m m1 : Memory}
    (h : ResourceDeleted res v m m1) (hv : v ≠ 1) : m1 = m := by
  simpa [ResourceDeleted, hv] using h

/-- In a well-formed state the decrement through any existing handle succeeds. -/
theorem SharedPtr.decrement_of_WF {s : State} {h : Nat} {p : SharedPtr} (hwf : WF s)
    (hp : s.shared[h]? = some (some p)) :
    ∃ s1, DecrementReferenceCount h s = .ok s1 ∧ s1.shared = s.shared ∧ s1.weak = s.weak ∧
      (p.referenceCount = none → s1.counters = s.counters ∧ s1.resources = s.resources) ∧
      (∀ c, p.referenceCount = some c →
        s.counters[c]? = some ⟨(liveCount c s : Int), false⟩ ∧
        s1.counters = s.counters.set c
          ⟨(liveCount c s : Int) - 1, decide ((liveCount c s : Int) = 1)⟩ ∧
        ResourceDeleted p.resource (liveCount c s) s.resources s1.resources) := by
  cases hc : p.referenceCount with
  | none =>
    exact ⟨s, decrement_none hp hc, rfl, rfl, fun _ => ⟨rfl, rfl⟩, fun c hc' => by cases hc'⟩
  | some c =>
    have hcell := hwf.1.cell hp hc
    by_cases h1 : (liveCount c s : Int) = 1
    · rw [h1] at hcell
      cases hr : p.resource with
      | none =>
        refine ⟨_, decrement_release_null hp hc hcell hr, rfl, rfl, (fun h0 => by cases h0), ?_⟩
        intro c' hc'
        cases hc'
        rw [h1]
        exact ⟨hcell, by simp, by simp [ResourceDeleted]⟩
      | some r =>
        obtain ⟨x, hx⟩ := hwf.2.live hp hc hr
        refine ⟨_, decrement_release hp hc hcell hr hx, rfl, rfl, (fun h0 => by cases h0), ?_⟩
        intro c' hc'
        cases hc'
        rw [h1]
        exact ⟨hcell, by simp, by simp only [ResourceDeleted, if_true]; exact ⟨x, hx, rfl⟩⟩
    · refine ⟨_, decrement_keep hp hc hcell h1, rfl, rfl, (fun h0 => by cases h0), ?_⟩
      intro c' hc'
      cases hc'
      exact ⟨hcell, by simp [h1], by simp [ResourceDeleted, h1]⟩

theorem list_set_same {α : Type} {l : List α} {i : Nat} {x : α} (h : l[i]? = some x) :
    l.set i x = l := by
  apply List.ext_getElem?
  intro j
  by_cases hij : i = j
  · subst hij
    rw [lookup_set_self _ h, h]
  · rw [lookup_set_other _ _ hij]

theorem SharedPtr.decrement_length {s s1 : State} {h : Nat}
    (hd : DecrementReferenceCount h s = .ok s1) : s1.counters.length = s.counters.length := by
  obtain ⟨p, -, -, -, hdec⟩ := decrement_inv hd
  cases hc : p.referenceCount with
  | none =>
    rw [hc] at hdec
    rw [show s1.counters = s.counters from hdec]
  | some c =>
    rw [hc] at hdec
    obtain ⟨v, -, hm⟩ := hdec
    rw [hm, List.length_set]

/-- In a well-formed state copy assignment between two distinct existing
handles succeeds; the result is described member by member. -/
theorem SharedPtr.assign_of_WF {s : State} {a b : Nat} {pa pb : SharedPtr} (hwf : WF s)
    (hab : a ≠ b) (ha : s.shared[a]? = some (some pa)) (hb : s.shared[b]? = some (some pb)) :
    ∃ s2 s1, DecrementReferenceCount a s = .ok s2 ∧ assign a b s = .ok s1 ∧
      s1.shared = s.shared.set a (some pb) ∧ s1.weak = s.weak ∧
      s1.resources = s2.resources ∧
      Incremented pb.referenceCount s2.counters s1.counters := by
  obtain ⟨s2, hd, hsh, hw, hnone, hsome⟩ := decrement_of_WF hwf ha
  have hassign := assign_of_decrement hab hd hb
  have hset : ({ s2 with shared := s.shared.set a (some ⟨pb.resource, pb.referenceCount⟩) }
      : State).shared[a]? = some (some pb) := lookup_set_self _ ha
  cases hcb : pb.referenceCount with
  | none =>
    rw [increment_none hset hcb] at hassign
    exact ⟨s2, _, hd, hassign, rfl, hw, rfl, rfl⟩
  | some cb =>
    have hcellb := hwf.1.cell hb hcb
    have hmid : ∃ x, s2.counters[cb]? = some ⟨x, false⟩ := by
      cases hca : pa.referenceCount with
      | none =>
        rw [(hnone hca).1]
        exact ⟨_, hcellb⟩
      | some ca =>
        obtain ⟨-, hcnt, -⟩ := hsome ca hca
        rw [hcnt]
        by_cases hcc : ca = cb
        · subst hcc
          have h2 := countP_ge_two hab ha hca hb hcb
          have hne1 : ¬ ((liveCount ca s : Int) = 1) := by
            simp only [liveCount]; omega
          refine ⟨(liveCount ca s : Int) - 1, ?_⟩
          rw [lookup_set_self _ hcellb]
          simp [hne1]
        · rw [lookup_set_other _ _ hcc]
          exact ⟨_, hcellb⟩
    obtain ⟨x, hx⟩ := hmid
    rw [increment_some hset hcb hx] at hassign
    exact ⟨s2, _, hd, hassign, rfl, hw, rfl, x, hx, rfl⟩

theorem SharedPtr.UseCount_congr {s s1 : State} {a b : Nat} {p : SharedPtr}
    (ha : s1.shared[a]? = some (some p)) (hb : s.shared[b]? = some (some p))
    (hc : s1.counters = s.counters) : UseCount a s1 = UseCount b s := by
  simp [UseCount, State.getShared_eq_ok ha, State.getShared_eq_ok hb, hc]

theorem Exclusive.same {s : State} {i j r c1 c2 : Nat} {p q : SharedPtr} (he : Exclusive s)
    (hp : s.shared[i]? = some (some p)) (hq : s.shared[j]? = some (some q))
    (hpr : p.resource = some r) (hqr : q.resource = some r)
    (hpc : p.referenceCount = some c1) (hqc : q.referenceCount = some c2) : c1 = c2 := by
  have := he _ (List.getElem?_mem hp) _ (List.getElem?_mem hq)
  simpa [sameOwner, hpr, hqr, hpc, hqc] using this

theorem Exclusive.of_pairs {s : State}
    (H : ∀ (i j r c1 c2 : Nat) (p q : SharedPtr), s.shared[i]? = some (some p) →
      s.shared[j]? = some (some q) → p.resource = some r → q.resource = some r →
      p.referenceCount = some c1 → q.referenceCount = some c2 → c1 = c2) : Exclusive s := by
  intro o1 h1 o2 h2
  obtain ⟨i, hi⟩ := List.getElem?_of_mem h1
  obtain ⟨j, hj⟩ := List.getElem?_of_mem h2
  cases o1 with
  | none => rfl
  | some p =>
    cases o2 with
    | none => rfl
    | some q =>
      cases hpr : p.resource with
      | none => simp [sameOwner, hpr]
      | some r1 =>
        cases hpc : p.referenceCount with
        | none => simp [sameOwner, hpr, hpc]
        | some c1 =>
          cases hqr : q.resource with
          | none => simp [sameOwner, hpr, hpc, hqr]
          | some r2 =>
            cases hqc : q.referenceCount with
            | none => simp [sameOwner, hpr, hpc, hqr, hqc]
            | some c2 =>
              simp only [sameOwner, hpr, hpc, hqr, hqc, Bool.or_eq_true, bne_iff_ne, ne_eq,
                beq_iff_eq]
              by_cases hr : r1 = r2
              · subst hr
                exact Or.inr (H i j r1 c1 c2 p q hi hj hpr hqr hpc hqc)
              · exact Or.inl hr

theorem ResourceInv.of_entries {s : State}
    (H : ∀ (h c r : Nat) (p : SharedPtr), s.shared[h]? = some (some p) →
      p.referenceCount = some c → p.resource = some r → s.resources.live r = true) :
    ResourceInv s := by
  intro o ho
  obtain ⟨n, hn⟩ := List.getElem?_of_mem ho
  cases o with
  | none => rfl
  | some p =>
    cases hc : p.referenceCount with
    | none => simp [resourceOk, hc]
    | some c =>
      cases hr : p.resource with
      | none => simp [resourceOk, hc, hr]
      | some r => simpa [resourceOk, hc, hr] using H n c r p hn hc hr

/-- Exclusive ownership only depends on which entries the handle table has. -/
theorem Exclusive.mono {s s1 : State} (he : Exclusive s)
    (hsub : ∀ (h : Nat) (p : SharedPtr), s1.shared[h]? = some (some p) →
      ∃ j : Nat, s.shared[j]? = some (some p)) : Exclusive s1 := by
  apply Exclusive.of_pairs
  intro i j r c1 c2 p q hp hq hpr hqr hpc hqc
  obtain ⟨i0, hp0⟩ := hsub _ _ hp
  obtain ⟨j0, hq0⟩ := hsub _ _ hq
  exact he.same hp0 hq0 hpr hqr hpc hqc

/-- Owned resources stay allocated when handle `a` gives up its ownership. -/
theorem ResourceInv.after_release {s s1 : State} {a : Nat} {pa : SharedPtr} (hv : Valid s)
    (ha : s.shared[a]? = some (some pa))
    (hsub : ∀ (h : Nat) (p : SharedPtr), s1.shared[h]? = some (some p) →
      ∃ j : Nat, j ≠ a ∧ s.shared[j]? = some (some p))
    (hnone : pa.referenceCount = none → s1.resources = s.resources)
    (hsome : ∀ c, pa.referenceCount = some c →
      ResourceDeleted pa.resource (liveCount c s) s.resources s1.resources) :
    ResourceInv s1 := by
  apply ResourceInv.of_entries
  intro h c r p hp hc hr
  obtain ⟨j, hja, hp0⟩ := hsub _ _ hp
  obtain ⟨x, hx⟩ := hv.1.2.live hp0 hc hr
  cases hca : pa.referenceCount with
  | none =>
    rw [hnone hca]
    exact Memory.live_of_lookup hx
  | some ca =>
    have hdel := hsome ca hca
    by_cases h1 : (liveCount ca s : Int) = 1
    · cases hra : pa.resource with
      | none =>
        simp only [ResourceDeleted, h1, if_true, hra] at hdel
        rw [hdel]
        exact Memory.live_of_lookup hx
      | some ra =>
        simp only [ResourceDeleted, h1, if_true, hra] at hdel
        obtain ⟨y, hy, hm⟩ := hdel
        have hne : ra ≠ r := by
          intro e
          subst e
          have hcc := hv.2.same hp0 ha hr hra hc hca
          subst hcc
          have h2 := countP_ge_two hja hp0 hc ha hca
          simp only [liveCount] at h1
          omega
        rw [hm]
        simp only [Memory.live]
        rw [lookup_set_other _ _ hne, hx]
        rfl
    · rw [hdel.unchanged h1]
      exact Memory.live_of_lookup hx

theorem State.getShared_dead {s : State} {h : Nat}
    (hd : ∀ p, s.shared[h]? ≠ some (some p)) : s.getShared h = .error .deadObject := by
  unfold State.getShared
  split
  · rename_i p hp
    exact absurd hp (hd p)
  · rfl

theorem lookup_live_or_dead (l : List (Option SharedPtr)) (h : Nat) :
    (∃ p, l[h]? = some (some p)) ∨ ∀ p, l[h]? ≠ some (some p) := by
  cases hl : l[h]? with
  | none => exact Or.inr (fun p hp => by cases hp)
  | some o =>
    cases o with
    | none => exact Or.inr (fun p hp => by cases hp)
    | some p => exact Or.inl ⟨p, rfl⟩

theorem ResourceInv.of_subset {s s1 : State} (hi : ResourceInv s)
    (hres : s1.resources = s.resources)
    (hsub : ∀ (h : Nat) (p : SharedPtr), s1.shared[h]? = some (some p) →
      ∃ j : Nat, s.shared[j]? = some (some p)) : ResourceInv s1 := by
  apply ResourceInv.of_entries
  intro h c r p hp hc hr
  obtain ⟨j, hp0⟩ := hsub _ _ hp
  obtain ⟨x, hx⟩ := hi.live hp0 hc hr
  rw [hres]
  exact Memory.live_of_lookup hx

theorem SharedPtr.decrement_dead {s : State} {h : Nat}
    (hd : ∀ p, s.shared[h]? ≠ some (some p)) :
    DecrementReferenceCount h s = .error .deadObject := by
  simp [DecrementReferenceCount, State.getShared_dead hd, bind, Except.bind]

theorem Valid_copyConstruct {s : State} (g : Nat) (hv : Valid s) :
    copyConstruct g s = .error .deadObject ∨ ∃ s1, copyConstruct g s = .ok s1 ∧ Valid s1 := by
  rcases lookup_live_or_dead s.shared g with ⟨q, hq⟩ | hdead
  · right
    have hok : ∃ s1, copyConstruct g s = .ok s1 := by
      cases hc : q.referenceCount with
      | none => exact ⟨_, copyConstruct_none hq hc⟩
      | some c => exact ⟨_, copyConstruct_some hq hc (hv.1.1.cell hq hc)⟩
    obtain ⟨s1, hs⟩ := hok
    obtain ⟨q', hq', hsh, -, hres, -⟩ := copyConstruct_inv hs
    rw [hq] at hq'
    cases hq'
    have hsub : ∀ (h : Nat) (p : SharedPtr), s1.shared[h]? = some (some p) →
        ∃ j : Nat, s.shared[j]? = some (some p) := by
      intro h p hp
      rw [hsh] at hp
      rcases lookup_push_cases hp with h0 | ⟨-, h1⟩
      · exact ⟨h, h0⟩
      · cases h1
        exact ⟨g, hq⟩
    exact ⟨s1, hs, ⟨CountInv_apply (.copyConstruct g) hv.1.1 hs, hv.1.2.of_subset hres hsub⟩,
      hv.2.mono hsub⟩
  · left
    simp [copyConstruct, State.getShared_dead hdead, bind, Except.bind]

theorem Valid_destroy {s : State} (h : Nat) (hv : Valid s) :
    destroy h s = .error .deadObject ∨ ∃ s1, destroy h s = .ok s1 ∧ Valid s1 := by
  rcases lookup_live_or_dead s.shared h with ⟨p, hp⟩ | hdead
  · right
    obtain ⟨s2, hd, -, -, hnone, hsome⟩ := decrement_of_WF hv.1 hp
    have hs := destroy_of_decrement hd
    have hsub : ∀ (i : Nat) (q : SharedPtr),
        ({ s2 with shared := s.shared.set h none } : State).shared[i]? = some (some q) →
        ∃ j : Nat, j ≠ h ∧ s.shared[j]? = some (some q) := by
      intro i q hq
      rcases lookup_set_cases hq with ⟨hne, h0⟩ | ⟨-, h1⟩
      · exact ⟨i, hne, h0⟩
      · cases h1
    refine ⟨_, hs, ⟨CountInv_apply (.destroy h) hv.1.1 hs, ?_⟩, hv.2.mono ?_⟩
    · exact ResourceInv.after_release hv hp hsub (fun h0 => (hnone h0).2)
        (fun c hc => (hsome c hc).2.2)
    · intro i q hq
      obtain ⟨j, -, hj⟩ := hsub i q hq
      exact ⟨j, hj⟩
  · left
    simp [destroy, decrement_dead hdead, bind, Except.bind]

theorem Valid_assign {s : State} (a b : Nat) (hv : Valid s) :
    assign a b s = .error .deadObject ∨ ∃ s1, assign a b s = .ok s1 ∧ Valid s1 := by
  by_cases hab : a = b
  · right
    subst hab
    exact ⟨s, by simp [assign, pure, Except.pure], hv⟩
  rcases lookup_live_or_dead s.shared a with ⟨pa, ha⟩ | hdead
  swap
  · left
    exact assign_error_of_decrement hab (decrement_dead hdead)
  rcases lookup_live_or_dead s.shared b with ⟨pb, hb⟩ | hdead
  · right
    obtain ⟨s2, s1, hd, hs, hsh, -, hres, -⟩ := assign_of_WF hv.1 hab ha hb
    obtain ⟨s2', hd', -, -, hnone, hsome⟩ := decrement_of_WF hv.1 ha
    rw [hd] at hd'
    cases hd'
    have hsub : ∀ (i : Nat) (q : SharedPtr), s1.shared[i]? = some (some q) →
        ∃ j : Nat, j ≠ a ∧ s.shared[j]? = some (some q) := by
      intro i q hq
      rw [hsh] at hq
      rcases lookup_set_cases hq with ⟨hne, h0⟩ | ⟨-, h1⟩
      · exact ⟨i, hne, h0⟩
      · cases h1
        exact ⟨b, fun e => hab e.symm, hb⟩
    refine ⟨s1, hs, ⟨CountInv_apply (.assign a b) hv.1.1 hs, ?_⟩, hv.2.mono ?_⟩
    · exact ResourceInv.after_release hv ha hsub (fun h0 => hres.trans (hnone h0).2)
        (fun c hc => by rw [hres]; exact (hsome c hc).2.2)
    · intro i q hq
      obtain ⟨j, -, hj⟩ := hsub i q hq
      exact ⟨j, hj⟩
  · left
    obtain ⟨s2, hd, hsh, -, -, -⟩ := decrement_of_WF hv.1 ha
    have ha2 : s2.shared[a]? = some (some pa) := by rw [hsh]; exact ha
    have hb2 : ∀ p, s2.shared[b]? ≠ some (some p) := by rw [hsh]; exact hdead
    simp [assign, hab, hd, State.getShared_eq_ok ha2, State.getShared_dead hb2, bind,
      Except.bind]

theorem Valid_apply {s : State} (op : StrongOp) (hv : Valid s) :
    op.apply s = .error .deadObject ∨ ∃ s1, op.apply s = .ok s1 ∧ Valid s1 := by
  cases op with
  | copyConstruct g => exact Valid_copyConstruct g hv
  | assign a b => exact Valid_assign a b hv
  | destroy h => exact Valid_destroy h hv

theorem Valid_run {s : State} (ops : List StrongOp) (hv : Valid s) :
    run ops s = .error .deadObject ∨ ∃ s1, run ops s = .ok s1 ∧ Valid s1 := by
  induction ops generalizing s with
  | nil => exact Or.inr ⟨s, rfl, hv⟩
  | cons op ops ih =>
    rcases Valid_apply op hv with he | ⟨s1, hs, hv1⟩
    · left
      simp [run, he]
    · simp only [run, hs]
      exact ih hv1

theorem Valid_constructFrom {s : State} {r : Option Nat} (hv : Valid s)
    (hr : transferable r s = true) : Valid (constructFrom r s) := by
  refine ⟨⟨CountInv_constructFrom r hv.1.1, ?_⟩, ?_⟩
  · apply ResourceInv.of_entries
    intro h c x p hp hc hx
    rcases lookup_push_cases hp with h0 | ⟨-, h1⟩
    · obtain ⟨y, hy⟩ := hv.1.2.live h0 hc hx
      exact Memory.live_of_lookup hy
    · cases h1
      cases hx
      simp only [transferable, Bool.and_eq_true] at hr
      exact hr.1
  · apply Exclusive.of_pairs
    intro i j x c1 c2 p q hp hq hpr hqr hpc hqc
    have hfresh : ∀ (k : Nat) (t : SharedPtr), s.shared[k]? = some (some t) →
        t.resource = some x → r ≠ some x := by
      intro k t ht htr e
      subst e
      simp only [transferable, Bool.and_eq_true, List.all_eq_true] at hr
      have := hr.2 _ (List.getElem?_mem ht)
      simp [holds, htr] at this
    rcases lookup_push_cases hp with h0 | ⟨-, h1⟩
    · rcases lookup_push_cases hq with h2 | ⟨-, h3⟩
      · exact hv.2.same h0 h2 hpr hqr hpc hqc
      · cases h3
        exact absurd hqr (hfresh _ _ h0 hpr)
    · cases h1
      rcases lookup_push_cases hq with h2 | ⟨-, h3⟩
      · exact absurd hpr (hfresh _ _ h2 hqr)
      · cases h3
        cases hpc
        cases hqc
        rfl

theorem run_append (xs ys : List StrongOp) (s : State) :
    run (xs ++ ys) s =
      match run xs s with
      | .ok s1 => run ys s1
      | .error e => .error e := by
  induction xs generalizing s with
  | nil => rfl
  | cons op xs ih =>
    simp only [List.cons_append, run]
    cases op.apply s with
    | error e => rfl
    | ok s1 => exact ih s1

/-! ## Lemmas for the weak handle and for handles without control block -/

theorem push_then_set_last {α : Type} (l : List α) (x y : α) :
    (l ++ [x]).set l.length y = l ++ [y] := by
  induction l with
  | nil => rfl
  | cons a l ih => simp [List.set, ih]

theorem lookup_past_end {α : Type} (l : List α) : l[l.length]? = none := by
  simp

theorem WeakPtr.Lock_of_construct {s s1 : State} {w : Nat}
    (h : constructFromWeak w s = .ok s1) : WeakPtr.Lock w s = .ok (s.shared.length, s1) := by
  simp [WeakPtr.Lock, h, bind, Except.bind, pure, Except.pure]

/-- `Lock()` followed by the destruction of its result, on a weak handle that
reads a non-zero counter. -/
theorem lock_destroy_of_cell {s : State} {w c : Nat} {wp : WeakPtr} {v : Int}
    (hw : s.weak[w]? = some (some wp)) (hc : wp.referenceCount = some c)
    (hv : s.counters[c]? = some ⟨v, false⟩) (h0 : v ≠ 0) :
    ∃ s1, WeakPtr.Lock w s = .ok (s.shared.length, s1) ∧
      destroy s.shared.length s1 = .ok { s with shared := s.shared ++ [none] } := by
  have hl := constructFromWeak_some hw hc hv
  refine ⟨_, WeakPtr.Lock_of_construct hl, ?_⟩
  have hp : ({ s with counters := s.counters.set c ⟨v + 1, false⟩,
                      shared := s.shared ++ [some ⟨wp.resource, some c⟩] } : State).shared[
      s.shared.length]? = some (some ⟨wp.resource, some c⟩) := lookup_push_last _ _
  have hv1 := lookup_set_self (⟨v + 1, false⟩ : Cell) hv
  rw [destroy_keep hp rfl hv1 (by omega)]
  simp only [List.set_set, add_sub_cancel_right, push_then_set_last, list_set_same hv]

/-! ### Frame of the `WeakPtr` operations -/

theorem set_four_times {α : Type} (l : List α) {a b : Nat} {x1 x2 x3 x4 : α} :
    (((l.set a x1).set b x2).set a x3).set b x4 = (l.set a x3).set b x4 := by
  apply List.ext_getElem?
  intro j
  by_cases hb : b = j
  · subst hb
    simp [List.getElem?_set]
  · by_cases ha : a = j
    · subst ha
      simp [List.getElem?_set, hb]
    · simp [List.getElem?_set, ha, hb]

theorem WeakPtr.copyConstruct_ok {s : State} {g : Nat} {q : WeakPtr}
    (hg : s.weak[g]? = some (some q)) :
    WeakPtr.copyConstruct g s = .ok { s with weak := s.weak ++ [some q] } := by
  simp [WeakPtr.copyConstruct, State.getWeak_eq_ok hg, bind, Except.bind, pure, Except.pure]

theorem WeakPtr.constructFromShared_ok {s : State} {h : Nat} {p : SharedPtr}
    (hp : s.shared[h]? = some (some p)) :
    WeakPtr.constructFromShared h s =
      .ok { s with weak := s.weak ++ [some ⟨p.resource, p.referenceCount⟩] } := by
  simp [WeakPtr.constructFromShared, SharedPtr.Get, State.getShared_eq_ok hp, bind, Except.bind,
    pure, Except.pure]

theorem WeakPtr.assign_ok {s : State} {w g : Nat} {wq gq : WeakPtr}
    (hw : s.weak[w]? = some (some wq)) (hg : s.weak[g]? = some (some gq)) :
    WeakPtr.assign w g s = .ok { s with weak := s.weak.set w (some gq) } := by
  by_cases hwg : w = g
  · subst hwg
    rw [hw] at hg
    cases hg
    simp [WeakPtr.assign, pure, Except.pure, list_set_same hw]
  · have h1 : (s.setWeak w { wq with resource := gq.resource }).weak[w]? =
        some (some ⟨gq.resource, wq.referenceCount⟩) := lookup_set_self _ hw
    have h2 : (s.setWeak w { wq with resource := gq.resource }).weak[g]? = some (some gq) := by
      simp only [State.setWeak]
      rw [lookup_set_other _ _ hwg]; exact hg
    simp only [WeakPtr.assign, hwg, ne_eq, not_false_eq_true, if_true, bind, Except.bind,
      State.getWeak_eq_ok hw, State.getWeak_eq_ok hg, State.getWeak_eq_ok h1,
      State.getWeak_eq_ok h2, pure, Except.pure]
    simp [State.setWeak, List.set_set]

theorem WeakPtr.assignShared_ok {s : State} {w h : Nat} {wq : WeakPtr} {p : SharedPtr}
    (hw : s.weak[w]? = some (some wq)) (hp : s.shared[h]? = some (some p)) :
    WeakPtr.assignShared w h s =
      .ok { s with weak := s.weak.set w (some ⟨p.resource, p.referenceCount⟩) } := by
  have h1 : (s.setWeak w { wq with resource := p.resource }).weak[w]? =
      some (some ⟨p.resource, wq.referenceCount⟩) := lookup_set_self _ hw
  have h2 : (s.setWeak w { wq with resource := p.resource }).shared[h]? = some (some p) := hp
  simp only [WeakPtr.assignShared, SharedPtr.Get, bind, Except.bind, State.getWeak_eq_ok hw,
    State.getShared_eq_ok hp, State.getWeak_eq_ok h1, State.getShared_eq_ok h2, pure,
    Except.pure]
  simp [State.setWeak, List.set_set]

theorem WeakPtr.Reset_ok {s : State} {w : Nat} {wq : WeakPtr}
    (hw : s.weak[w]? = some (some wq)) :
    WeakPtr.Reset w s = .ok { s with weak := s.weak.set w (some ⟨none, none⟩) } := by
  have h1 : (s.setWeak w { wq with resource := none }).weak[w]? =
      some (some ⟨none, wq.referenceCount⟩) := lookup_set_self _ hw
  simp only [WeakPtr.Reset, bind, Except.bind, State.getWeak_eq_ok hw, State.getWeak_eq_ok h1,
    pure, Except.pure]
  simp [State.setWeak, List.set_set]

theorem WeakPtr.destroy_ok {s : State} {w : Nat} {wq : WeakPtr}
    (hw : s.weak[w]? = some (some wq)) :
    WeakPtr.destroy w s = .ok { s with weak := s.weak.set w none } := by
  simp [WeakPtr.destroy, State.getWeak_eq_ok hw, bind, Except.bind, pure, Except.pure]

theorem WeakPtr.Swap_ok {s : State} {a b : Nat} {pa pb : WeakPtr}
    (ha : s.weak[a]? = some (some pa)) (hb : s.weak[b]? = some (some pb)) :
    WeakPtr.Swap a b s =
      .ok { s with weak := (s.weak.set a (some pb)).set b (some pa) } := by
  by_cases hab : a = b
  · subst hab
    rw [ha] at hb
    cases hb
    have hla := lookup_lt ha
    simp [WeakPtr.Swap, State.getWeak, State.setWeak, ha, hla, bind, Except.bind, pure,
      Except.pure]
  · have hba : b ≠ a := fun e => hab e.symm
    have a1 : (s.setWeak a ⟨pb.resource, pa.referenceCount⟩).weak[a]? =
        some (some ⟨pb.resource, pa.referenceCount⟩) := lookup_set_self _ ha
    have b1 : (s.setWeak a ⟨pb.resource, pa.referenceCount⟩).weak[b]? = some (some pb) := by
      simp only [State.setWeak]
      rw [lookup_set_other _ _ hab]; exact hb
    have a2 : ((s.setWeak a ⟨pb.resource, pa.referenceCount⟩).setWeak b
        ⟨pa.resource, pb.referenceCount⟩).weak[a]? =
        some (some ⟨pb.resource, pa.referenceCount⟩) := by
      simp only [State.setWeak]
      rw [lookup_set_other _ _ hba]; exact a1
    have b2 : ((s.setWeak a ⟨pb.resource, pa.referenceCount⟩).setWeak b
        ⟨pa.resource, pb.referenceCount⟩).weak[b]? =
        some (some ⟨pa.resource, pb.referenceCount⟩) := lookup_set_self _ b1
    have b3 : (((s.setWeak a ⟨pb.resource, pa.referenceCount⟩).setWeak b
        ⟨pa.resource, pb.referenceCount⟩).setWeak a ⟨pb.resource, pb.referenceCount⟩).weak[b]? =
        some (some ⟨pa.resource, pb.referenceCount⟩) := by
      simp only [State.setWeak]
      rw [lookup_set_other _ _ hab]; exact b2
    simp only [WeakPtr.Swap, bind, Except.bind, State.getWeak_eq_ok ha, State.getWeak_eq_ok hb,
      State.getWeak_eq_ok b1, State.getWeak_eq_ok a2, State.getWeak_eq_ok b2,
      State.getWeak_eq_ok b3, pure, Except.pure]
    simp only [State.setWeak, List.set_set, Except.ok.injEq, State.mk.injEq, true_and]
    exact set_four_times _

theorem WeakPtr.getWeak_live_or_dead (s : State) (w : Nat) :
    (∃ q, s.weak[w]? = some (some q)) ∨ s.getWeak w = .error .deadObject := by
  cases hl : s.weak[w]? with
  | none => exact Or.inr (by simp [State.getWeak, hl])
  | some o =>
    cases o with
    | none => exact Or.inr (by simp [State.getWeak, hl])
    | some q => exact Or.inl ⟨q, rfl⟩

theorem State.getShared_live_or_dead (s : State) (h : Nat) :
    (∃ p, s.shared[h]? = some (some p)) ∨ s.getShared h = .error .deadObject := by
  rcases lookup_live_or_dead s.shared h with hp | hd
  · exact Or.inl hp
  · exact Or.inr (State.getShared_dead hd)

/-- What a `WeakPtr` operation other than `Lock()` does when it returns: only
the table of `WeakPtr` objects changes, and every entry of the new table is
dead, empty, an old entry, or the two pointers of an existing `SharedPtr`. -/
theorem WeakPtr.weakOnly_inv {s s1 : State} (op : Op) (hop : op.weakOnly = true)
    (hs : op.apply s = .ok s1) :
    Untouched s s1 ∧ ∀ (w : Nat) (q : WeakPtr), s1.weak[w]? = some (some q) →
      q = ⟨none, none⟩ ∨ (∃ j : Nat, s.weak[j]? = some (some q)) ∨
      ∃ (j : Nat) (p : SharedPtr), s.shared[j]? = some (some p) ∧
        q = ⟨p.resource, p.referenceCount⟩ := by
  cases op <;> simp only [Op.weakOnly] at hop <;> try (exact absurd hop (by decide))
  case weakConstruct =>
    cases hs
    refine ⟨⟨rfl, rfl, rfl⟩, fun w q hq => ?_⟩
    rcases lookup_push_cases hq with h0 | ⟨-, h1⟩
    · exact Or.inr (Or.inl ⟨w, h0⟩)
    · cases h1
      exact Or.inl rfl
  case weakCopyConstruct g =>
    rcases WeakPtr.getWeak_live_or_dead s g with ⟨gq, hg⟩ | hd
    · simp only [Op.apply] at hs
      rw [WeakPtr.copyConstruct_ok hg] at hs
      cases hs
      refine ⟨⟨rfl, rfl, rfl⟩, fun w q hq => ?_⟩
      rcases lookup_push_cases hq with h0 | ⟨-, h1⟩
      · exact Or.inr (Or.inl ⟨w, h0⟩)
      · cases h1
        exact Or.inr (Or.inl ⟨g, hg⟩)
    · simp [Op.apply, WeakPtr.copyConstruct, hd, bind, Except.bind] at hs
  case weakConstructFromShared h =>
    rcases State.getShared_live_or_dead s h with ⟨p, hp⟩ | hd
    · simp only [Op.apply] at hs
      rw [WeakPtr.constructFromShared_ok hp] at hs
      cases hs
      refine ⟨⟨rfl, rfl, rfl⟩, fun w q hq => ?_⟩
      rcases lookup_push_cases hq with h0 | ⟨-, h1⟩
      · exact Or.inr (Or.inl ⟨w, h0⟩)
      · cases h1
        exact Or.inr (Or.inr ⟨h, p, hp, rfl⟩)
    · simp [Op.apply, WeakPtr.constructFromShared, SharedPtr.Get, hd, bind, Except.bind] at hs
  case weakAssign a b =>
    by_cases hab : a = b
    · subst hab
      simp only [Op.apply, WeakPtr.assign, ne_eq, not_true_eq_false, if_false, pure,
        Except.pure] at hs
      cases hs
      exact ⟨⟨rfl, rfl, rfl⟩, fun w q hq => Or.inr (Or.inl ⟨w, hq⟩)⟩
    rcases WeakPtr.getWeak_live_or_dead s a with ⟨aq, ha⟩ | hd
    · rcases WeakPtr.getWeak_live_or_dead s b with ⟨bq, hb⟩ | hd
      · simp only [Op.apply] at hs
        rw [WeakPtr.assign_ok ha hb] at hs
        cases hs
        refine ⟨⟨rfl, rfl, rfl⟩, fun w q hq => ?_⟩
        rcases lookup_set_cases hq with ⟨-, h0⟩ | ⟨-, h1⟩
        · exact Or.inr (Or.inl ⟨w, h0⟩)
        · cases h1
          exact Or.inr (Or.inl ⟨b, hb⟩)
      · simp [Op.apply, WeakPtr.assign, hab, State.getWeak_eq_ok ha, hd, bind, Except.bind] at hs
    · simp [Op.apply, WeakPtr.assign, hab, hd, bind, Except.bind] at hs
  case weakAssignShared a h =>
    rcases WeakPtr.getWeak_live_or_dead s a with ⟨aq, ha⟩ | hd
    · rcases State.getShared_live_or_dead s h with ⟨p, hp⟩ | hd
      · simp only [Op.apply] at hs
        rw [WeakPtr.assignShared_ok ha hp] at hs
        cases hs
        refine ⟨⟨rfl, rfl, rfl⟩, fun w q hq => ?_⟩
        rcases lookup_set_cases hq with ⟨-, h0⟩ | ⟨-, h1⟩
        · exact Or.inr (Or.inl ⟨w, h0⟩)
        · cases h1
          exact Or.inr (Or.inr ⟨h, p, hp, rfl⟩)
      · simp [Op.apply, WeakPtr.assignShared, SharedPtr.Get, State.getWeak_eq_ok ha, hd, bind,
          Except.bind] at hs
    · simp [Op.apply, WeakPtr.assignShared, hd, bind, Except.bind] at hs
  case weakDestroy a =>
    rcases WeakPtr.getWeak_live_or_dead s a with ⟨aq, ha⟩ | hd
    · simp only [Op.apply] at hs
      rw [WeakPtr.destroy_ok ha] at hs
      cases hs
      refine ⟨⟨rfl, rfl, rfl⟩, fun w q hq => ?_⟩
      rcases lookup_set_cases hq with ⟨-, h0⟩ | ⟨-, h1⟩
      · exact Or.inr (Or.inl ⟨w, h0⟩)
      · cases h1
    · simp [Op.apply, WeakPtr.destroy, hd, bind, Except.bind] at hs
  case weakReset a =>
    rcases WeakPtr.getWeak_live_or_dead s a with ⟨aq, ha⟩ | hd
    · simp only [Op.apply] at hs
      rw [WeakPtr.Reset_ok ha] at hs
      cases hs
      refine ⟨⟨rfl, rfl, rfl⟩, fun w q hq => ?_⟩
      rcases lookup_set_cases hq with ⟨-, h0⟩ | ⟨-, h1⟩
      · exact Or.inr (Or.inl ⟨w, h0⟩)
      · cases h1
        exact Or.inl rfl
    · simp [Op.apply, WeakPtr.Reset, hd, bind, Except.bind] at hs
  case weakSwap a b =>
    rcases WeakPtr.getWeak_live_or_dead s a with ⟨aq, ha⟩ | hd
    · rcases WeakPtr.getWeak_live_or_dead s b with ⟨bq, hb⟩ | hd
      · simp only [Op.apply] at hs
        rw [WeakPtr.Swap_ok ha hb] at hs
        cases hs
        refine ⟨⟨rfl, rfl, rfl⟩, fun w q hq => ?_⟩
        rcases lookup_set_cases hq with ⟨-, h0⟩ | ⟨-, h1⟩
        · rcases lookup_set_cases h0 with ⟨-, h2⟩ | ⟨-, h3⟩
          · exact Or.inr (Or.inl ⟨w, h2⟩)
          · cases h3
            exact Or.inr (Or.inl ⟨b, hb⟩)
        · cases h1
          exact Or.inr (Or.inl ⟨a, ha⟩)
      · simp [Op.apply, WeakPtr.Swap, State.getWeak_eq_ok ha, hd, bind, Except.bind] at hs
    · simp [Op.apply, WeakPtr.Swap, hd, bind, Except.bind] at hs
  case weakUseCount a =>
    simp only [Op.apply] at hs
    obtain ⟨-, -, hs⟩ := bind_ok_inv hs
    cases hs
    exact ⟨⟨rfl, rfl, rfl⟩, fun w q hq => Or.inr (Or.inl ⟨w, hq⟩)⟩
  case weakExpired a =>
    simp only [Op.apply] at hs
    obtain ⟨-, -, hs⟩ := bind_ok_inv hs
    cases hs
    exact ⟨⟨rfl, rfl, rfl⟩, fun w q hq => Or.inr (Or.inl ⟨w, hq⟩)⟩

/-! ### `UseCount()` of a weak handle -/

theorem WeakPtr.useCount_none {s : State} {w : Nat} {wp : WeakPtr}
    (hw : s.weak[w]? = some (some wp)) (hc : wp.referenceCount = none) :
    WeakPtr.UseCount w s = .ok 0 := by
  simp [WeakPtr.UseCount, State.getWeak_eq_ok hw, hc, bind, Except.bind, pure, Except.pure]

theorem run_weak_unchanged {ops : List StrongOp} {s s1 : State} (hs : run ops s = .ok s1) :
    s1.weak = s.weak := by
  induction ops generalizing s with
  | nil =>
    cases hs
    rfl
  | cons op ops ih =>
    simp only [run] at hs
    cases hop : op.apply s with
    | error e => rw [hop] at hs; cases hs
    | ok s2 =>
      rw [hop] at hs
      rw [ih hs]
      cases op with
      | copyConstruct g =>
        obtain ⟨-, -, -, hw, -⟩ := copyConstruct_inv hop
        exact hw
      | destroy h =>
        obtain ⟨-, -, -, hw, -⟩ := destroy_inv hop
        exact hw
      | assign a b =>
        by_cases hab : a = b
        · subst hab
          simp [StrongOp.apply, assign, pure, Except.pure] at hop
          rw [hop]
        · obtain ⟨-, -, -, -, -, -, hw, -⟩ := assign_inv hab hop
          exact hw

/-! ### Aliasing of copies -/

theorem write_then_read {t : State} {x y r : Nat} {px py : SharedPtr} {u : Int} (v : Int)
    (hx : t.shared[x]? = some (some px)) (hxr : px.resource = some r)
    (hy : t.shared[y]? = some (some py)) (hyr : py.resource = some r)
    (hr : t.resources[r]? = some ⟨u, false⟩) :
    ∃ t2, derefAssign x v t = .ok t2 ∧ deref y t2 = .ok v ∧ deref x t2 = .ok v ∧
      t2.shared = t.shared ∧ t2.counters = t.counters := by
  have hw : derefAssign x v t = .ok { t with resources := t.resources.set r ⟨v, false⟩ } := by
    simp [derefAssign, State.getShared_eq_ok hx, hxr, Memory.write_eq_ok v hr, bind,
      Except.bind, pure, Except.pure]
  have hread : ({ t with resources := t.resources.set r ⟨v, false⟩ } : State).resources[r]? =
      some ⟨v, false⟩ := lookup_set_self _ hr
  refine ⟨_, hw, ?_, ?_, rfl, rfl⟩
  · have hy2 : ({ t with resources := t.resources.set r ⟨v, false⟩ } : State).shared[y]? =
        some (some py) := hy
    simp [deref, State.getShared_eq_ok hy2, hyr, Memory.read_eq_ok hread, bind, Except.bind]
  · have hx2 : ({ t with resources := t.resources.set r ⟨v, false⟩ } : State).shared[x]? =
        some (some px) := hx
    simp [deref, State.getShared_eq_ok hx2, hxr, Memory.read_eq_ok hread, bind, Except.bind]

theorem SharedPtr.Get_of_lookup {s : State} {h : Nat} {p : SharedPtr}
    (hp : s.shared[h]? = some (some p)) : Get h s = .ok p.resource := by
  simp [Get, State.getShared_eq_ok hp, bind, Except.bind, pure, Except.pure]

/-! ## The counting discipline under the public operations -/

theorem aliases_empty (c : Nat) : aliases c (some ⟨none, none⟩) = false := rfl

theorem aliases_of_rc_none {p : SharedPtr} (h : p.referenceCount = none) (c : Nat) :
    aliases c (some p) = false := by
  simp [aliases, h]

theorem aliases_of_rc_ne {p : SharedPtr} {c d : Nat} (h : p.referenceCount = some d)
    (hne : d ≠ c) : aliases c (some p) = false := by
  simp [aliases, h, hne]

/-- An entry whose slot is overwritten stops aliasing; the new entry aliases nothing. -/
theorem counted_release {m m1 : Memory} {l : List (Option SharedPtr)} {a : Nat}
    {p : SharedPtr} {o : Option SharedPtr} (H : Counted m l)
    (ha : l[a]? = some (some p)) (ho : ∀ c, aliases c o = false)
    (hdec : Decremented p.referenceCount m m1) : Counted m1 (l.set a o) := by
  obtain ⟨HA, HB, HC⟩ := H
  have hcnt : ∀ c, (l.set a o).countP (aliases c) + (if aliases c (some p) then 1 else 0) =
      l.countP (aliases c) := by
    intro c
    have := countP_set_add (aliases c) o ha
    rw [ho c] at this
    simpa using this
  have hold : ∀ (h : Nat) (q : SharedPtr) (c : Nat), (l.set a o)[h]? = some (some q) →
      q.referenceCount = some c → h ≠ a ∧ l[h]? = some (some q) := by
    intro h q c hq hqc
    rcases lookup_set_cases hq with ⟨hne, h0⟩ | ⟨-, h1⟩
    · exact ⟨hne, h0⟩
    · have := ho c
      rw [← h1, aliases_some_iff.mpr hqc] at this
      cases this
  cases hc : p.referenceCount with
  | none =>
    rw [hc] at hdec
    cases hdec
    have hsame : ∀ c, (l.set a o).countP (aliases c) = l.countP (aliases c) := by
      intro c
      have := hcnt c
      rw [aliases_of_rc_none hc] at this
      simpa using this
    refine ⟨fun h q c hq hqc => HA h q c (hold h q c hq hqc).2 hqc, fun c v hv => ?_, HC⟩
    rw [hsame c]
    exact HB c v hv
  | some c0 =>
    rw [hc] at hdec
    obtain ⟨v0, hv0, rfl⟩ := hdec
    obtain ⟨hv0n, hv0p⟩ := HB c0 v0 hv0
    have hc0 := hcnt c0
    rw [aliases_some_iff.mpr hc] at hc0
    simp only [if_true] at hc0
    have hother : ∀ c, c0 ≠ c → (l.set a o).countP (aliases c) = l.countP (aliases c) := by
      intro c hne
      have := hcnt c
      rw [aliases_of_rc_ne hc hne] at this
      simpa using this
    refine ⟨fun h q c hq hqc => ?_, fun c v hv => ?_, fun c v hv => ?_⟩
    · obtain ⟨hne, h0⟩ := hold h q c hq hqc
      by_cases hcc : c0 = c
      · subst hcc
        have h2 := countP_ge_two hne h0 hqc ha hc
        have hne1 : ¬ (v0 = 1) := by omega
        exact ⟨v0 - 1, by rw [lookup_set_self _ hv0]; simp [hne1]⟩
      · rw [lookup_set_other _ _ hcc]
        exact HA h q c h0 hqc
    · by_cases hcc : c0 = c
      · subst hcc
        rw [lookup_set_self _ hv0] at hv
        simp only [Option.some.injEq, Cell.mk.injEq, decide_eq_false_iff_not] at hv
        obtain ⟨hv1, hv2⟩ := hv
        constructor <;> omega
      · rw [lookup_set_other _ _ hcc] at hv
        rw [hother c hcc]
        exact HB c v hv
    · by_cases hcc : c0 = c
      · subst hcc
        rw [lookup_set_self _ hv0] at hv
        simp only [Option.some.injEq, Cell.mk.injEq, decide_eq_true_eq] at hv
        omega
      · rw [lookup_set_other _ _ hcc] at hv
        exact HC c v hv

/-- An empty slot takes over the pointers `q`, whose counter is incremented. -/
theorem counted_acquire {m m1 : Memory} {l : List (Option SharedPtr)} {a : Nat}
    {q : SharedPtr} {o : Option SharedPtr} (H : Counted m l)
    (ha : l[a]? = some o) (ho : ∀ c, aliases c o = false)
    (hinc : Incremented q.referenceCount m m1) : Counted m1 (l.set a (some q)) := by
  obtain ⟨HA, HB, HC⟩ := H
  have hcnt : ∀ c, (l.set a (some q)).countP (aliases c) =
      l.countP (aliases c) + (if aliases c (some q) then 1 else 0) := by
    intro c
    have := countP_set_add (aliases c) (some q) ha
    rw [ho c] at this
    simpa using this
  cases hc : q.referenceCount with
  | none =>
    rw [hc] at hinc
    cases hinc
    have hsame : ∀ c, (l.set a (some q)).countP (aliases c) = l.countP (aliases c) := by
      intro c
      rw [hcnt c, aliases_of_rc_none hc]
      simp
    refine ⟨fun h t c ht htc => ?_, fun c v hv => ?_, HC⟩
    · rcases lookup_set_cases ht with ⟨-, h0⟩ | ⟨-, h1⟩
      · exact HA h t c h0 htc
      · cases h1
        rw [hc] at htc
        cases htc
    · rw [hsame c]
      exact HB c v hv
  | some c0 =>
    rw [hc] at hinc
    obtain ⟨v0, hv0, rfl⟩ := hinc
    obtain ⟨hv0n, hv0p⟩ := HB c0 v0 hv0
    have hc0 := hcnt c0
    rw [aliases_some_iff.mpr hc] at hc0
    simp only [if_true] at hc0
    have hother : ∀ c, c0 ≠ c → (l.set a (some q)).countP (aliases c) =
        l.countP (aliases c) := by
      intro c hne
      rw [hcnt c, aliases_of_rc_ne hc hne]
      simp
    refine ⟨fun h t c ht htc => ?_, fun c v hv => ?_, fun c v hv => ?_⟩
    · by_cases hcc : c0 = c
      · subst hcc
        exact ⟨v0 + 1, lookup_set_self _ hv0⟩
      · rw [lookup_set_other _ _ hcc]
        rcases lookup_set_cases ht with ⟨-, h0⟩ | ⟨-, h1⟩
        · exact HA h t c h0 htc
        · cases h1
          rw [hc] at htc
          cases htc
          exact absurd rfl hcc
    · by_cases hcc : c0 = c
      · subst hcc
        rw [lookup_set_self _ hv0] at hv
        simp only [Option.some.injEq, Cell.mk.injEq, and_true] at hv
        constructor <;> omega
      · rw [lookup_set_other _ _ hcc] at hv
        rw [hother c hcc]
        exact HB c v hv
    · by_cases hcc : c0 = c
      · subst hcc
        rw [lookup_set_self _ hv0] at hv
        simp at hv
      · rw [lookup_set_other _ _ hcc] at hv
        exact HC c v hv

theorem counted_push_dead {m : Memory} {l : List (Option SharedPtr)} {o : Option SharedPtr}
    (H : Counted m l) (ho : ∀ c, aliases c o = false) : Counted m (l ++ [o]) := by
  obtain ⟨HA, HB, HC⟩ := H
  have hsame : ∀ c, (l ++ [o]).countP (aliases c) = l.countP (aliases c) := by
    intro c
    simp [List.countP_append, List.countP_cons, ho c]
  refine ⟨fun h t c ht htc => ?_, fun c v hv => ?_, HC⟩
  · rcases lookup_push_cases ht with h0 | ⟨-, h1⟩
    · exact HA h t c h0 htc
    · have := ho c
      rw [← h1, aliases_some_iff.mpr htc] at this
      cases this
  · rw [hsame c]
    exact HB c v hv

/-- An empty slot takes a resource with a newly allocated counter. -/
theorem counted_alloc {m : Memory} {l : List (Option SharedPtr)} {a : Nat}
    {o : Option SharedPtr} (r : Option Nat) (H : Counted m l)
    (ha : l[a]? = some o) (ho : ∀ c, aliases c o = false) :
    Counted (m ++ [⟨1, false⟩]) (l.set a (some ⟨r, some m.length⟩)) := by
  obtain ⟨HA, HB, HC⟩ := H
  have hcnt : ∀ c, (l.set a (some ⟨r, some m.length⟩)).countP (aliases c) =
      l.countP (aliases c) + (if aliases c (some ⟨r, some m.length⟩) then 1 else 0) := by
    intro c
    have := countP_set_add (aliases c) (some (⟨r, some m.length⟩ : SharedPtr)) ha
    rw [ho c] at this
    simpa using this
  have hzero : l.countP (aliases m.length) = 0 := by
    rw [List.countP_eq_zero]
    intro e he hal
    cases e with
    | none => simp [aliases] at hal
    | some t =>
      obtain ⟨n, hn⟩ := List.getElem?_of_mem he
      obtain ⟨v, hv⟩ := HA n t m.length hn (aliases_some_iff.mp hal)
      have := lookup_lt hv
      omega
  refine ⟨fun h t c ht htc => ?_, fun c v hv => ?_, fun c v hv => ?_⟩
  · rcases lookup_set_cases ht with ⟨-, h0⟩ | ⟨-, h1⟩
    · obtain ⟨v, hv⟩ := HA h t c h0 htc
      exact ⟨v, lookup_push_old _ hv⟩
    · cases h1
      cases htc
      exact ⟨1, lookup_push_last _ _⟩
  · rcases lookup_push_cases hv with h0 | ⟨h1, h2⟩
    · have hlt := lookup_lt h0
      have hne : m.length ≠ c := by omega
      rw [hcnt c, aliases_of_rc_ne rfl hne]
      simpa using HB c v h0
    · subst h1
      cases h2
      rw [hcnt m.length, hzero, aliases_some_iff.mpr rfl]
      simp
  · rcases lookup_push_cases hv with h0 | ⟨-, h2⟩
    · exact HC c v h0
    · cases h2

theorem counted_swap {m : Memory} {l : List (Option SharedPtr)} {a b : Nat}
    {pa pb : SharedPtr} (H : Counted m l)
    (ha : l[a]? = some (some pa)) (hb : l[b]? = some (some pb)) :
    Counted m ((l.set a (some pb)).set b (some pa)) := by
  obtain ⟨HA, HB, HC⟩ := H
  have hsame : ∀ c, ((l.set a (some pb)).set b (some pa)).countP (aliases c) =
      l.countP (aliases c) := by
    intro c
    by_cases hab : a = b
    · subst hab
      rw [ha] at hb
      cases hb
      rw [List.set_set, list_set_same ha]
    · have hb1 : (l.set a (some pb))[b]? = some (some pb) := by
        rw [lookup_set_other _ _ hab]; exact hb
      have h1 := countP_set_add (aliases c) (some pb) ha
      have h2 := countP_set_add (aliases c) (some pa) hb1
      omega
  refine ⟨fun h t c ht htc => ?_, fun c v hv => ?_, HC⟩
  · rcases lookup_set_cases ht with ⟨-, h0⟩ | ⟨-, h1⟩
    · rcases lookup_set_cases h0 with ⟨-, h2⟩ | ⟨-, h3⟩
      · exact HA h t c h2 htc
      · cases h3
        exact HA b _ c hb htc
    · cases h1
      exact HA a _ c ha htc
  · rw [hsame c]
    exact HB c v hv

/-! ## Every public operation as a composition of elementary changes -/

theorem vacant_none : vacant none := Or.inl rfl

theorem vacant_empty : vacant (some ⟨none, none⟩) := Or.inr rfl

theorem vacant_aliases {o : Option SharedPtr} (ho : vacant o) (c : Nat) :
    aliases c o = false := by
  rcases ho with rfl | rfl <;> rfl

theorem Prim.identity (s : State) : Prim s s :=
  Prim.resources rfl rfl rfl (fun _ c hc => ⟨c.value, hc, fun _ => rfl⟩)
    (fun _ _ hc => Or.inl ⟨_, hc⟩)

/-- What a successful decrement did, resources included. -/
theorem SharedPtr.decrement_effect {s s1 : State} {h : Nat}
    (hs : DecrementReferenceCount h s = .ok s1) :
    ∃ p, s.shared[h]? = some (some p) ∧ s1.shared = s.shared ∧ s1.weak = s.weak ∧
      Decremented p.referenceCount s.counters s1.counters ∧ ResourceEffect p s s1 := by
  have hs0 := hs
  unfold DecrementReferenceCount at hs
  obtain ⟨p, hp, hs⟩ := bind_ok_inv hs
  have hp := State.getShared_ok_inv hp
  cases hc : p.referenceCount with
  | none =>
    rw [decrement_none hp hc] at hs0
    cases hs0
    refine ⟨p, hp, rfl, rfl, ?_, ?_⟩
    · rw [hc]; exact rfl
    · simp only [ResourceEffect, hc]
  | some c =>
    rw [hc] at hs
    obtain ⟨v, hv, hs⟩ := bind_ok_inv hs
    have hv := Memory.read_ok_inv hv
    by_cases h1 : v = 1
    · subst h1
      cases hr : p.resource with
      | none =>
        rw [decrement_release_null hp hc hv hr] at hs0
        cases hs0
        refine ⟨p, hp, rfl, rfl, ?_, ?_⟩
        · rw [hc]; exact ⟨1, hv, by simp⟩
        · simp only [ResourceEffect, hc]
          exact ⟨1, hv, by simp [ResourceDeleted, hr]⟩
      | some r =>
        obtain ⟨m, hm, hs⟩ := bind_ok_inv hs
        rw [Memory.write_eq_ok _ hv] at hm
        cases hm
        obtain ⟨v1, hv1, hs⟩ := bind_ok_inv hs
        have hv1 := Memory.read_ok_inv hv1
        rw [lookup_set_self _ hv] at hv1
        cases hv1
        rw [hr] at hs
        simp only [sub_self, if_true] at hs
        obtain ⟨rs, hrs, -⟩ := bind_ok_inv hs
        obtain ⟨x, hx⟩ := Memory.delete_ok_inv hrs
        rw [decrement_release hp hc hv hr hx] at hs0
        cases hs0
        refine ⟨p, hp, rfl, rfl, ?_, ?_⟩
        · rw [hc]; exact ⟨1, hv, by simp⟩
        · simp only [ResourceEffect, hc]
          refine ⟨1, hv, ?_⟩
          simp only [ResourceDeleted, if_true, hr]
          exact ⟨x, hx, rfl⟩
    · rw [decrement_keep hp hc hv h1] at hs0
      cases hs0
      refine ⟨p, hp, rfl, rfl, ?_, ?_⟩
      · rw [hc]; exact ⟨v, hv, by simp [h1]⟩
      · simp only [ResourceEffect, hc]
        exact ⟨v, hv, by simp [ResourceDeleted, h1]⟩

theorem SharedPtr.constructFromWeak_inv {s s1 : State} {w : Nat}
    (hs : constructFromWeak w s = .ok s1) :
    ∃ q, s.weak[w]? = some (some q) ∧
      s1.shared = s.shared ++ [some ⟨q.resource, q.referenceCount⟩] ∧
      s1.weak = s.weak ∧ s1.resources = s.resources ∧
      Incremented q.referenceCount s.counters s1.counters := by
  unfold constructFromWeak at hs
  obtain ⟨q, hq, hs⟩ := bind_ok_inv hs
  obtain ⟨p1, hp1, h1, h2, h3, h4⟩ := increment_inv hs
  have hp1 : p1 = ⟨q.resource, q.referenceCount⟩ := by
    simp only [lookup_push_last] at hp1
    cases hp1
    rfl
  subst hp1
  exact ⟨_, State.getWeak_ok_inv hq, h1, h2, h3, h4⟩

theorem SharedPtr.Swap_live {s : State} {a b : Nat} {pa pb : SharedPtr}
    (ha : s.shared[a]? = some (some pa)) (hb : s.shared[b]? = some (some pb)) :
    Swap a b s = .ok { s with shared := (s.shared.set a (some pb)).set b (some pa) } := by
  by_cases hab : a = b
  · subst hab
    rw [ha] at hb
    cases hb
    have hla := lookup_lt ha
    simp [Swap, State.getShared, State.setShared, ha, hla, bind, Except.bind, pure,
      Except.pure]
  · have hba : b ≠ a := fun e => hab e.symm
    have a1 : (s.setShared a ⟨pb.resource, pa.referenceCount⟩).shared[a]? =
        some (some ⟨pb.resource, pa.referenceCount⟩) := lookup_set_self _ ha
    have b1 : (s.setShared a ⟨pb.resource, pa.referenceCount⟩).shared[b]? = some (some pb) := by
      simp only [State.setShared]
      rw [lookup_set_other _ _ hab]; exact hb
    have a2 : ((s.setShared a ⟨pb.resource, pa.referenceCount⟩).setShared b
        ⟨pa.resource, pb.referenceCount⟩).shared[a]? =
        some (some ⟨pb.resource, pa.referenceCount⟩) := by
      simp only [State.setShared]
      rw [lookup_set_other _ _ hba]; exact a1
    have b2 : ((s.setShared a ⟨pb.resource, pa.referenceCount⟩).setShared b
        ⟨pa.resource, pb.referenceCount⟩).shared[b]? =
        some (some ⟨pa.resource, pb.referenceCount⟩) := lookup_set_self _ b1
    have b3 : (((s.setShared a ⟨pb.resource, pa.referenceCount⟩).setShared b
        ⟨pa.resource, pb.referenceCount⟩).setShared a
        ⟨pb.resource, pb.referenceCount⟩).shared[b]? =
        some (some ⟨pa.resource, pb.referenceCount⟩) := by
      simp only [State.setShared]
      rw [lookup_set_other _ _ hab]; exact b2
    simp only [Swap, bind, Except.bind, State.getShared_eq_ok ha, State.getShared_eq_ok hb,
      State.getShared_eq_ok b1, State.getShared_eq_ok a2, State.getShared_eq_ok b2,
      State.getShared_eq_ok b3, pure, Except.pure]
    simp only [State.setShared, List.set_set, Except.ok.injEq, State.mk.injEq, true_and,
      and_true]
    exact set_four_times _

theorem SharedPtr.Swap_inv {s s1 : State} {a b : Nat} (hs : Swap a b s = .ok s1) :
    ∃ pa pb, s.shared[a]? = some (some pa) ∧ s.shared[b]? = some (some pb) ∧
      s1 = { s with shared := (s.shared.set a (some pb)).set b (some pa) } := by
  rcases State.getShared_live_or_dead s a with ⟨pa, ha⟩ | hd
  · rcases State.getShared_live_or_dead s b with ⟨pb, hb⟩ | hd
    · rw [Swap_live ha hb] at hs
      cases hs
      exact ⟨pa, pb, ha, hb, rfl⟩
    · simp [Swap, State.getShared_eq_ok ha, hd, bind, Except.bind] at hs
  · simp [Swap, hd, bind, Except.bind] at hs

theorem SharedPtr.derefAssign_inv {s s1 : State} {h : Nat} {v : Int}
    (hs : derefAssign h v s = .ok s1) :
    ∃ (p : SharedPtr) (r : Nat) (u : Int), s.shared[h]? = some (some p) ∧
      p.resource = some r ∧ s.resources[r]? = some ⟨u, false⟩ ∧
      s1 = { s with resources := s.resources.set r ⟨v, false⟩ } := by
  unfold derefAssign at hs
  obtain ⟨p, hp, hs⟩ := bind_ok_inv hs
  have hp := State.getShared_ok_inv hp
  cases hr : p.resource with
  | none =>
    rw [hr] at hs
    cases hs
  | some r =>
    rw [hr] at hs
    obtain ⟨m, hm, hs⟩ := bind_ok_inv hs
    cases hs
    unfold Memory.write at hm
    split at hm
    · cases hm
    · rename_i c hc
      split at hm
      · cases hm
      · rename_i hf
        cases hm
        refine ⟨p, r, c.value, hp, hr, ?_, rfl⟩
        rw [hc]
        cases c
        simp_all

theorem observer_inv {α : Type} {x : Except Fault α} {s s1 : State}
    (h : (do let _ ← x; pure s : Except Fault State) = .ok s1) : s1 = s := by
  obtain ⟨_, -, h⟩ := bind_ok_inv h
  cases h
  rfl

theorem steps_weak {s s1 : State} (op : Op) (hop : op.weakOnly = true)
    (hs : op.apply s = .ok s1) : Steps op.raw s s1 := by
  obtain ⟨hu, hw⟩ := WeakPtr.weakOnly_inv op hop hs
  exact Or.inl (Prim.weakOnly hu hw)

/-- Every public operation that returns is one elementary change, two of them,
or one followed by the adoption of the raw pointer argument. -/
theorem steps_of_apply {s s1 : State} (op : Op) (hs : op.apply s = .ok s1) :
    Steps op.raw s s1 := by
  cases op <;> try (exact steps_weak _ rfl hs)
  case newResource v =>
    cases hs
    refine Or.inl (Prim.resources rfl rfl rfl ?_ ?_)
    · intro x c hc
      exact ⟨c.value, lookup_push_old _ hc, fun _ => rfl⟩
    · intro x c1 hc
      rcases lookup_push_cases hc with h | ⟨-, h⟩
      · exact Or.inl ⟨_, h⟩
      · right; rw [h]
  case sharedConstruct =>
    cases hs
    exact Or.inl (Prim.pushVacant _ vacant_empty rfl)
  case sharedConstructFrom res =>
    cases hs
    refine Or.inr (Or.inr ⟨{ s with shared := s.shared ++ [none] }, s.shared.length,
      Prim.pushVacant _ vacant_none rfl, ⟨none, lookup_push_last _ _, vacant_none⟩, ?_⟩)
    simp [constructFrom, Memory.alloc, push_then_set_last, Op.raw]
  case sharedCopyConstruct g =>
    obtain ⟨q, hq, h1, h2, h3, h4⟩ := copyConstruct_inv hs
    refine Or.inr (Or.inl ⟨{ s with shared := s.shared ++ [none] }, s.shared.length, q,
      Prim.pushVacant _ vacant_none rfl, ⟨none, lookup_push_last _ _, vacant_none⟩,
      Or.inl ⟨g, Nat.ne_of_lt (lookup_lt hq), lookup_push_old _ hq⟩, ?_, h2, h3, h4⟩)
    simp [h1, push_then_set_last]
  case sharedConstructFromWeak w =>
    obtain ⟨q, hq, h1, h2, h3, h4⟩ := constructFromWeak_inv hs
    refine Or.inr (Or.inl ⟨{ s with shared := s.shared ++ [none] }, s.shared.length,
      ⟨q.resource, q.referenceCount⟩, Prim.pushVacant _ vacant_none rfl,
      ⟨none, lookup_push_last _ _, vacant_none⟩, Or.inr ⟨w, q, hq, rfl⟩, ?_, h2, h3, h4⟩)
    simp [h1, push_then_set_last]
  case weakLock w =>
    obtain ⟨r, hr, hs⟩ := bind_ok_inv hs
    cases hs
    obtain ⟨s2, hs2, hr⟩ := bind_ok_inv hr
    cases hr
    obtain ⟨q, hq, h1, h2, h3, h4⟩ := constructFromWeak_inv hs2
    refine Or.inr (Or.inl ⟨{ s with shared := s.shared ++ [none] }, s.shared.length,
      ⟨q.resource, q.referenceCount⟩, Prim.pushVacant _ vacant_none rfl,
      ⟨none, lookup_push_last _ _, vacant_none⟩, Or.inr ⟨w, q, hq, rfl⟩, ?_, h2, h3, h4⟩)
    simp [h1, push_then_set_last]
  case sharedAssign h g =>
    by_cases hne : h = g
    · subst hne
      simp only [Op.apply, assign, ne_eq, not_true_eq_false, if_false] at hs
      cases hs
      exact Or.inl (Prim.identity _)
    · have hs0 : assign h g s = .ok s1 := hs
      unfold assign at hs0
      rw [if_pos hne] at hs0
      obtain ⟨s2, hd, hs0⟩ := bind_ok_inv hs0
      obtain ⟨p, hp, hsh, hw, -⟩ := decrement_inv hd
      obtain ⟨p2, -, hs0⟩ := bind_ok_inv hs0
      obtain ⟨q, hq, -⟩ := bind_ok_inv hs0
      have hq := State.getShared_ok_inv hq
      rw [hsh] at hq
      have hs2 : assign h g s = .ok s1 := hs
      rw [assign_of_decrement hne hd hq] at hs2
      obtain ⟨p1, hp1, h1, h2, h3, h4⟩ := increment_inv hs2
      have hp1 : p1 = q := by
        simp only [lookup_set_self _ hp] at hp1
        cases hp1
        rfl
      subst hp1
      refine Or.inr (Or.inl ⟨{ s2 with shared := s.shared.set h (some ⟨none, none⟩) }, h, p1,
        Prim.release h p _ s2 hp vacant_empty hd rfl,
        ⟨_, lookup_set_self _ hp, vacant_empty⟩,
        Or.inl ⟨g, fun e => hne e.symm, ?_⟩, ?_, h2, h3, h4⟩)
      · simp only []
        rw [lookup_set_other _ _ hne]; exact hq
      · simp only [List.set_set]
        exact h1
  case sharedDestroy h =>
    have hs0 : destroy h s = .ok s1 := hs
    unfold destroy at hs0
    obtain ⟨s2, hd, -⟩ := bind_ok_inv hs0
    have hs2 : destroy h s = .ok s1 := hs
    rw [destroy_of_decrement hd] at hs2
    cases hs2
    obtain ⟨p, hp, -⟩ := decrement_inv hd
    exact Or.inl (Prim.release h p none s2 hp vacant_none hd rfl)
  case sharedReset h =>
    have hs0 : Reset h s = .ok s1 := hs
    unfold Reset at hs0
    obtain ⟨s2, hd, -⟩ := bind_ok_inv hs0
    have hs2 : Reset h s = .ok s1 := hs
    rw [Reset_of_decrement hd] at hs2
    cases hs2
    obtain ⟨p, hp, -⟩ := decrement_inv hd
    exact Or.inl (Prim.release h p _ s2 hp vacant_empty hd rfl)
  case sharedResetTo h res =>
    have hs0 : ResetTo h res s = .ok s1 := hs
    unfold ResetTo at hs0
    obtain ⟨s2, hd, -⟩ := bind_ok_inv hs0
    have hs2 : ResetTo h res s = .ok s1 := hs
    rw [ResetTo_of_decrement res hd] at hs2
    cases hs2
    obtain ⟨p, hp, -⟩ := decrement_inv hd
    refine Or.inr (Or.inr ⟨{ s2 with shared := s.shared.set h (some ⟨none, none⟩) }, h,
      Prim.release h p _ s2 hp vacant_empty hd rfl,
      ⟨_, lookup_set_self _ hp, vacant_empty⟩, ?_⟩)
    simp [List.set_set, Op.raw]
  case sharedSwap a b =>
    obtain ⟨pa, pb, ha, hb, h⟩ := Swap_inv hs
    exact Or.inl (Prim.swap a b pa pb ha hb h)
  case sharedGet h =>
    rw [observer_inv hs]
    exact Or.inl (Prim.identity _)
  case sharedDeref h =>
    rw [observer_inv hs]
    exact Or.inl (Prim.identity _)
  case sharedUseCount h =>
    rw [observer_inv hs]
    exact Or.inl (Prim.identity _)
  case sharedDerefAssign h v =>
    obtain ⟨p, r, u, hp, hr, hu, h⟩ := derefAssign_inv hs
    subst h
    refine Or.inl (Prim.resources rfl rfl rfl ?_ ?_)
    · intro x c hc
      by_cases hx : r = x
      · subst hx
        rw [hu] at hc
        cases hc
        exact ⟨v, lookup_set_self _ hu, fun h => by cases h⟩
      · exact ⟨c.value, by simp only []; rw [lookup_set_other _ _ hx]; exact hc,
          fun _ => rfl⟩
    · intro x c1 hc
      rcases lookup_set_cases hc with ⟨-, h⟩ | ⟨-, h⟩
      · exact Or.inl ⟨_, h⟩
      · right; rw [h]

/-! ## The counting discipline is kept by every public operation -/

theorem vacant_entry {o : Option SharedPtr} {p : SharedPtr} (ho : vacant o)
    (h : o = some p) : p = ⟨none, none⟩ := by
  rcases ho with rfl | rfl
  · cases h
  · cases h; rfl

theorem Sound_empty : Sound State.empty := by
  refine ⟨⟨fun h p hp => ?_, fun w q hq => ?_⟩, fun h p c hp => ?_, fun c v hv => ?_,
    fun c v hv => ?_⟩ <;> simp [State.empty] at *

theorem Sound_prim {s s1 : State} (H : Sound s) (hp : Prim s s1) : Sound s1 := by
  obtain ⟨⟨NS, NW⟩, HC⟩ := H
  cases hp with
  | weakOnly hu hw =>
    obtain ⟨h1, -, h3⟩ := hu
    refine ⟨⟨fun h p hp => ?_, fun w q hq hn => ?_⟩, ?_⟩
    · rw [h3] at hp; exact NS h p hp
    · rcases hw w q hq with rfl | ⟨j, hj⟩ | ⟨j, p, hj, rfl⟩
      · rfl
      · exact NW j q hj hn
      · exact NS j p hj hn
    · rw [h1, h3]; exact HC
  | resources hc hs hw hr hn =>
    refine ⟨⟨fun h p hp => ?_, fun w q hq => ?_⟩, ?_⟩
    · rw [hs] at hp; exact NS h p hp
    · rw [hw] at hq; exact NW w q hq
    · rw [hc, hs]; exact HC
  | pushVacant o ho h =>
    subst h
    refine ⟨⟨fun h p hp hn => ?_, NW⟩, counted_push_dead HC (vacant_aliases ho)⟩
    rcases lookup_push_cases hp with h1 | ⟨-, h1⟩
    · exact NS h p h1 hn
    · rw [vacant_entry ho h1.symm]
  | release a p o s2 ha ho hd h =>
    subst h
    obtain ⟨p1, hp1, -, hw, hdec⟩ := decrement_inv hd
    rw [ha] at hp1
    cases hp1
    refine ⟨⟨fun h t ht hn => ?_, fun w q hq => ?_⟩,
      counted_release HC ha (vacant_aliases ho) hdec⟩
    · rcases lookup_set_cases ht with ⟨-, h1⟩ | ⟨-, h1⟩
      · exact NS h t h1 hn
      · rw [vacant_entry ho h1.symm]
    · simp only [] at hq
      rw [hw] at hq; exact NW w q hq
  | swap a b pa pb ha hb h =>
    subst h
    refine ⟨⟨fun h t ht hn => ?_, NW⟩, counted_swap HC ha hb⟩
    rcases lookup_set_cases ht with ⟨-, h1⟩ | ⟨-, h1⟩
    · rcases lookup_set_cases h1 with ⟨-, h2⟩ | ⟨-, h2⟩
      · exact NS h t h2 hn
      · cases h2; exact NS b _ hb hn
    · cases h1; exact NS a _ ha hn

theorem Sound_acquire {s s1 : State} {a : Nat} {q : SharedPtr} (H : Sound s)
    (hp : Acquire a q s s1) : Sound s1 := by
  obtain ⟨⟨NS, NW⟩, HC⟩ := H
  obtain ⟨⟨o, ha, ho⟩, hq, hs, hw, hr, hi⟩ := hp
  refine ⟨⟨fun h t ht hn => ?_, fun w t ht => ?_⟩, ?_⟩
  · rw [hs] at ht
    rcases lookup_set_cases ht with ⟨-, h1⟩ | ⟨-, h1⟩
    · exact NS h t h1 hn
    · cases h1
      rcases hq with ⟨g, -, hg⟩ | ⟨w, wq, hwq, rfl⟩
      · exact NS g _ hg hn
      · exact NW w wq hwq hn
  · rw [hw] at ht; exact NW w t ht
  · rw [hs]; exact counted_acquire HC ha (vacant_aliases ho) hi

theorem Sound_adopt {s s1 : State} {r : Option Nat} {a : Nat} (H : Sound s)
    (hp : Adopt r a s s1) : Sound s1 := by
  obtain ⟨⟨NS, NW⟩, HC⟩ := H
  obtain ⟨⟨o, ha, ho⟩, rfl⟩ := hp
  refine ⟨⟨fun h t ht hn => ?_, NW⟩, counted_alloc r HC ha (vacant_aliases ho)⟩
  rcases lookup_set_cases ht with ⟨-, h1⟩ | ⟨-, h1⟩
  · exact NS h t h1 hn
  · cases h1; cases hn

theorem Sound_steps {s s1 : State} {r : Option Nat} (H : Sound s) (hp : Steps r s s1) :
    Sound s1 := by
  rcases hp with h | ⟨t, a, q, h1, h2⟩ | ⟨t, a, h1, h2⟩
  · exact Sound_prim H h
  · exact Sound_acquire (Sound_prim H h1) h2
  · exact Sound_adopt (Sound_prim H h1) h2

theorem Sound_apply {s s1 : State} (op : Op) (H : Sound s) (hs : op.apply s = .ok s1) :
    Sound s1 := Sound_steps H (steps_of_apply op hs)

theorem runOps_cons_inv {op : Op} {ops : List Op} {s s2 : State}
    (h : runOps (op :: ops) s = .ok s2) : ∃ s1, op.apply s = .ok s1 ∧ runOps ops s1 = .ok s2 := by
  simp only [runOps] at h
  cases h1 : op.apply s with
  | error e => rw [h1] at h; cases h
  | ok t => rw [h1] at h; exact ⟨t, rfl, h⟩

theorem Sound_runOps {s s1 : State} (ops : List Op) (H : Sound s)
    (hs : runOps ops s = .ok s1) : Sound s1 := by
  induction ops generalizing s with
  | nil =>
    cases hs
    exact H
  | cons op ops ih =>
    obtain ⟨t, h1, h2⟩ := runOps_cons_inv hs
    exact ih (Sound_apply op H h1) h2

/-! ## Released control blocks are never touched by an operation that returns -/

theorem incremented_keeps_released {rc : Option Nat} {m m1 : Memory} {c : Nat} {v : Int}
    (h : Incremented rc m m1) (hc : m[c]? = some ⟨v, true⟩) : m1[c]? = some ⟨v, true⟩ := by
  cases rc with
  | none => rw [show m1 = m from h]; exact hc
  | some d =>
    obtain ⟨u, hu, rfl⟩ := h
    have hne : d ≠ c := by
      rintro rfl
      rw [hu] at hc
      cases hc
    rw [lookup_set_other _ _ hne]; exact hc

theorem decremented_keeps_released {rc : Option Nat} {m m1 : Memory} {c : Nat} {v : Int}
    (h : Decremented rc m m1) (hc : m[c]? = some ⟨v, true⟩) : m1[c]? = some ⟨v, true⟩ := by
  cases rc with
  | none => rw [show m1 = m from h]; exact hc
  | some d =>
    obtain ⟨u, hu, rfl⟩ := h
    have hne : d ≠ c := by
      rintro rfl
      rw [hu] at hc
      cases hc
    rw [lookup_set_other _ _ hne]; exact hc

theorem released_kept_prim {s s1 : State} {c : Nat} {v : Int} (hp : Prim s s1)
    (hc : s.counters[c]? = some ⟨v, true⟩) : s1.counters[c]? = some ⟨v, true⟩ := by
  cases hp with
  | weakOnly hu hw => rw [hu.1]; exact hc
  | resources h1 h2 h3 h4 h5 => rw [h1]; exact hc
  | pushVacant o ho h => subst h; exact hc
  | release a p o s2 ha ho hd h =>
    subst h
    obtain ⟨p1, hp1, -, -, hdec⟩ := decrement_inv hd
    exact decremented_keeps_released hdec hc
  | swap a b pa pb ha hb h => subst h; exact hc

theorem released_kept_steps {s s1 : State} {r : Option Nat} {c : Nat} {v : Int}
    (hp : Steps r s s1) (hc : s.counters[c]? = some ⟨v, true⟩) :
    s1.counters[c]? = some ⟨v, true⟩ := by
  rcases hp with h | ⟨t, a, q, h1, h2⟩ | ⟨t, a, h1, h2⟩
  · exact released_kept_prim h hc
  · exact incremented_keeps_released h2.2.2.2.2.2 (released_kept_prim h1 hc)
  · obtain ⟨-, rfl⟩ := h2
    exact lookup_push_old _ (released_kept_prim h1 hc)

theorem released_kept_runOps {s s1 : State} {c : Nat} {v : Int} (ops : List Op)
    (hs : runOps ops s = .ok s1) (hc : s.counters[c]? = some ⟨v, true⟩) :
    s1.counters[c]? = some ⟨v, true⟩ := by
  induction ops generalizing s with
  | nil =>
    cases hs
    exact hc
  | cons op ops ih =>
    obtain ⟨t, h1, h2⟩ := runOps_cons_inv hs
    exact ih h2 (released_kept_steps (steps_of_apply op h1) hc)

theorem runOps_append (ops1 ops2 : List Op) (s : State) :
    runOps (ops1 ++ ops2) s = (runOps ops1 s >>= runOps ops2) := by
  induction ops1 generalizing s with
  | nil => rfl
  | cons op ops ih =>
    simp only [List.cons_append, runOps]
    cases op.apply s with
    | error e => rfl
    | ok t => exact ih t

/-- `SharedPtr(const WeakPtr&)` on a weak handle whose control block is released. -/
theorem SharedPtr.constructFromWeak_stale {s : State} {w c : Nat} {q : WeakPtr} {v : Int}
    (hw : s.weak[w]? = some (some q)) (hc : q.referenceCount = some c)
    (hv : s.counters[c]? = some ⟨v, true⟩) :
    constructFromWeak w s = .error .useAfterFree := by
  have hp : ({ s with shared := s.shared ++ [some ⟨q.resource, q.referenceCount⟩] } :
      State).shared[s.shared.length]? = some (some ⟨q.resource, q.referenceCount⟩) :=
    lookup_push_last _ _
  simp [constructFromWeak, State.getWeak, hw, bind, Except.bind, IncrementReferenceCount,
    State.getShared, hc, Memory.read, hv]

theorem Sound.block {s : State} (H : Sound s) {h : Nat} {p : SharedPtr}
    (hp : s.shared[h]? = some (some p)) :
    (p.referenceCount = none → p.resource = none) ∧
    ∀ c, p.referenceCount = some c →
      ∃ v : Int, s.counters[c]? = some ⟨v, false⟩ ∧ 1 ≤ v := by
  obtain ⟨⟨NS, -⟩, HA, HB, -⟩ := H
  refine ⟨NS h p hp, fun c hc => ?_⟩
  obtain ⟨v, hv⟩ := HA h p c hp hc
  obtain ⟨h1, h2⟩ := HB c v hv
  exact ⟨v, hv, by omega⟩

theorem Memory.released_inv {m : Memory} {c : Nat} (h : m.released c = true) :
    ∃ v : Int, m[c]? = some ⟨v, true⟩ := by
  unfold Memory.released at h
  split at h
  · rename_i x hx
    refine ⟨x.value, ?_⟩
    rw [hx]
    cases x
    simp_all
  · cases h

theorem Memory.released_of_lookup {m : Memory} {c : Nat} {v : Int}
    (h : m[c]? = some ⟨v, true⟩) : m.released c = true := by
  simp [Memory.released, h]

/-- `UseCount()` on a weak handle whose control block is released. -/
theorem WeakPtr.useCount_stale {s : State} {w c : Nat} {q : WeakPtr} {v : Int}
    (hw : s.weak[w]? = some (some q)) (hc : q.referenceCount = some c)
    (hv : s.counters[c]? = some ⟨v, true⟩) :
    WeakPtr.UseCount w s = .error .useAfterFree := by
  simp [WeakPtr.UseCount, State.getWeak, hw, hc, Memory.read, hv, bind, Except.bind]

/-- `Expired()` on a weak handle whose control block is released. -/
theorem WeakPtr.expired_stale {s : State} {w c : Nat} {q : WeakPtr} {v : Int}
    (hw : s.weak[w]? = some (some q)) (hc : q.referenceCount = some c)
    (hv : s.counters[c]? = some ⟨v, true⟩) :
    WeakPtr.Expired w s = .error .useAfterFree := by
  simp [WeakPtr.Expired, State.getWeak, hw, hc, Memory.read, hv, bind, Except.bind]

/-! ## Nothing is released twice by an operation that returns -/

theorem ReleasedOnce.nothing (s : State) : ReleasedOnce s s :=
  ⟨fun _ _ h => h, fun _ _ h => h, fun c v v1 h h1 => (by rw [h] at h1; cases h1),
    fun r x x1 h h1 => (by rw [h] at h1; cases h1)⟩

theorem ReleasedOnce.of_eq {s s1 : State} (hc : s1.counters = s.counters)
    (hr : s1.resources = s.resources) : ReleasedOnce s s1 := by
  refine ⟨fun c v h => (by rw [hc]; exact h), fun r x h => (by rw [hr]; exact h),
    fun c v v1 h h1 => ?_, fun r x x1 h h1 => ?_⟩
  · rw [hc, h] at h1; cases h1
  · rw [hr, h] at h1; cases h1

theorem releasedOnce_decrement {s s2 : State} {a : Nat}
    (hd : DecrementReferenceCount a s = .ok s2) : ReleasedOnce s s2 := by
  obtain ⟨p, hp, -, -, hdec, heff⟩ := decrement_effect hd
  cases hc : p.referenceCount with
  | none =>
    rw [hc] at hdec
    simp only [ResourceEffect, hc] at heff
    exact ReleasedOnce.of_eq hdec heff
  | some c =>
    rw [hc] at hdec
    simp only [ResourceEffect, hc] at heff
    obtain ⟨v, hv, hm⟩ := hdec
    obtain ⟨v', hv', hres⟩ := heff
    rw [hv] at hv'
    cases hv'
    have hcell : s2.counters[c]? = some ⟨v - 1, decide (v = 1)⟩ := by
      rw [hm]; exact lookup_set_self _ hv
    have hother : ∀ d, d ≠ c → s2.counters[d]? = s.counters[d]? := by
      intro d hd
      rw [hm]; exact lookup_set_other _ _ (fun e => hd e.symm)
    have hkeepres : ∀ (r : Nat) (x : Int), s.resources[r]? = some ⟨x, true⟩ →
        s2.resources[r]? = some ⟨x, true⟩ := by
      intro r x hx
      unfold ResourceDeleted at hres
      split at hres
      · cases hpr : p.resource with
        | none =>
          rw [hpr] at hres
          rw [show s2.resources = s.resources from hres]; exact hx
        | some r1 =>
          rw [hpr] at hres
          obtain ⟨y, hy, hm2⟩ := hres
          have hne : r1 ≠ r := by
            rintro rfl
            rw [hy] at hx
            cases hx
          rw [hm2, lookup_set_other _ _ hne]; exact hx
      · rw [hres]; exact hx
    refine ⟨fun d u hu => ?_, hkeepres, fun d u u1 hu hu1 => ?_, fun r x x1 hx hx1 => ?_⟩
    · have hne : d ≠ c := by
        rintro rfl
        rw [hv] at hu
        cases hu
      rw [hother d hne]; exact hu
    · by_cases hdc : d = c
      · subst hdc
        rw [hv] at hu
        cases hu
        rw [hcell] at hu1
        simp only [Option.some.injEq, Cell.mk.injEq, decide_eq_true_eq] at hu1
        obtain ⟨h1, h2⟩ := hu1
        exact ⟨h2, by omega⟩
      · rw [hother d hdc, hu] at hu1
        cases hu1
    · unfold ResourceDeleted at hres
      split at hres
      · rename_i hv1
        subst hv1
        cases hpr : p.resource with
        | none =>
          rw [hpr] at hres
          rw [show s2.resources = s.resources from hres, hx] at hx1
          cases hx1
        | some r1 =>
          rw [hpr] at hres
          obtain ⟨y, hy, hm2⟩ := hres
          by_cases hr : r1 = r
          · subst hr
            exact ⟨a, p, c, hp, hpr, hc, hv, by simpa using hcell⟩
          · rw [hm2, lookup_set_other _ _ hr, hx] at hx1
            cases hx1
      · rw [hres, hx] at hx1
        cases hx1

theorem releasedOnce_prim {s s1 : State} (hp : Prim s s1) : ReleasedOnce s s1 := by
  cases hp with
  | weakOnly hu hw => exact ReleasedOnce.of_eq hu.1 hu.2.1
  | resources h1 h2 h3 hr hn =>
    refine ⟨fun c v h => (by rw [h1]; exact h), fun r x hx => ?_, fun c v v1 h h' => ?_,
      fun r x x1 hx hx1 => ?_⟩
    · obtain ⟨v, hv, hval⟩ := hr r _ hx
      rw [hv, hval rfl]
    · rw [h1, h] at h'; cases h'
    · obtain ⟨v, hv, -⟩ := hr r _ hx
      rw [hv] at hx1
      cases hx1
  | pushVacant o ho h => subst h; exact ReleasedOnce.nothing _
  | release a p o s2 ha ho hd h =>
    subst h
    have h0 : ReleasedOnce s s2 := releasedOnce_decrement hd
    exact h0
  | swap a b pa pb ha hb h => subst h; exact ReleasedOnce.nothing _

theorem incremented_released_inv {rc : Option Nat} {m m1 : Memory} {c : Nat} {v : Int}
    (h : Incremented rc m m1) (hc : m1[c]? = some ⟨v, true⟩) : m[c]? = some ⟨v, true⟩ := by
  cases rc with
  | none => rw [show m1 = m from h] at hc; exact hc
  | some d =>
    obtain ⟨u, hu, rfl⟩ := h
    by_cases hdc : d = c
    · subst hdc
      rw [lookup_set_self _ hu] at hc
      cases hc
    · rw [lookup_set_other _ _ hdc] at hc; exact hc

theorem releasedOnce_steps {s s1 : State} {r : Option Nat} (hp : Steps r s s1) :
    ReleasedOnce s s1 := by
  rcases hp with h | ⟨t, a, q, h1, h2⟩ | ⟨t, a, h1, h2⟩
  · exact releasedOnce_prim h
  · obtain ⟨k1, k2, k3, k4⟩ := releasedOnce_prim h1
    obtain ⟨-, -, -, -, hres, hinc⟩ := h2
    refine ⟨fun c v h => incremented_keeps_released hinc (k1 c v h),
      fun r x h => (by rw [hres]; exact k2 r x h),
      fun c v v1 h h' => k3 c v v1 h (incremented_released_inv hinc h'),
      fun r x x1 h h' => ?_⟩
    rw [hres] at h'
    obtain ⟨a1, p, c, ha1, hpr, hpc, hc0, hc1⟩ := k4 r x x1 h h'
    exact ⟨a1, p, c, ha1, hpr, hpc, hc0, incremented_keeps_released hinc hc1⟩
  · obtain ⟨k1, k2, k3, k4⟩ := releasedOnce_prim h1
    obtain ⟨-, rfl⟩ := h2
    have hback : ∀ (c : Nat) (v : Int),
        (t.counters ++ [(⟨1, false⟩ : Cell)])[c]? = some ⟨v, true⟩ →
        t.counters[c]? = some ⟨v, true⟩ := by
      intro c v hv
      rcases lookup_push_cases hv with h0 | ⟨-, h0⟩
      · exact h0
      · cases h0
    refine ⟨fun c v h => lookup_push_old _ (k1 c v h), k2,
      fun c v v1 h h' => k3 c v v1 h (hback c v1 h'), fun r x x1 h h' => ?_⟩
    obtain ⟨a1, p, c, ha1, hpr, hpc, hc0, hc1⟩ := k4 r x x1 h h'
    exact ⟨a1, p, c, ha1, hpr, hpc, hc0, lookup_push_old _ hc1⟩

/-! ## The safe states are kept by every public operation -/

theorem Sound.countInv {s : State} (H : Sound s) : CountInv s := by
  apply CountInv.of_cells
  intro h p c hp hc
  obtain ⟨v, hv⟩ := H.2.1 h p c hp hc
  obtain ⟨h1, -⟩ := H.2.2.1 c v hv
  simp only [liveCount]
  rw [hv, h1]

theorem Safe.valid {s : State} (H : Safe s) : Valid s :=
  ⟨⟨H.1.countInv, H.2.1⟩, H.2.2.1⟩

theorem Safe_empty : Safe State.empty := by
  refine ⟨Sound_empty, by decide, by decide, fun h p c hp => ?_, fun w q c hq => ?_⟩ <;>
    simp [State.empty] at *

theorem exists_alias {l : List (Option SharedPtr)} {c : Nat} (h : 1 ≤ l.countP (aliases c)) :
    ∃ (j : Nat) (p : SharedPtr), l[j]? = some (some p) ∧ p.referenceCount = some c := by
  have hpos : 0 < l.countP (aliases c) := by omega
  obtain ⟨o, ho, ha⟩ := List.countP_pos_iff.mp hpos
  obtain ⟨j, hj⟩ := List.getElem?_of_mem ho
  cases o with
  | none => cases ha
  | some p => exact ⟨j, p, hj, aliases_some_iff.mp ha⟩

theorem Sound.bound {s : State} (H : Sound s) {h c : Nat} {p : SharedPtr}
    (hp : s.shared[h]? = some (some p)) (hc : p.referenceCount = some c) :
    c < s.counters.length := by
  obtain ⟨v, hv⟩ := H.2.1 h p c hp hc
  exact lookup_lt hv

theorem ResourceInv_of_sub {s s1 : State} (hi : ResourceInv s)
    (hres : ∀ (r : Nat) (x : Int), s.resources[r]? = some ⟨x, false⟩ →
      ∃ y : Int, s1.resources[r]? = some ⟨y, false⟩)
    (hsub : ∀ (h : Nat) (p : SharedPtr) (c : Nat), s1.shared[h]? = some (some p) →
      p.referenceCount = some c → ∃ j : Nat, s.shared[j]? = some (some p)) :
    ResourceInv s1 := by
  apply ResourceInv.of_entries
  intro h c r p hp hc hr
  obtain ⟨j, hp0⟩ := hsub _ _ _ hp hc
  obtain ⟨x, hx⟩ := hi.live hp0 hc hr
  obtain ⟨y, hy⟩ := hres r x hx
  exact Memory.live_of_lookup hy

theorem Exclusive_of_sub {s s1 : State} (he : Exclusive s)
    (hsub : ∀ (h : Nat) (p : SharedPtr) (c : Nat), s1.shared[h]? = some (some p) →
      p.referenceCount = some c → ∃ j : Nat, s.shared[j]? = some (some p)) :
    Exclusive s1 := by
  apply Exclusive.of_pairs
  intro i j r c1 c2 p q hp hq hpr hqr hpc hqc
  obtain ⟨i0, hp0⟩ := hsub _ _ _ hp hpc
  obtain ⟨j0, hq0⟩ := hsub _ _ _ hq hqc
  exact he.same hp0 hq0 hpr hqr hpc hqc

theorem Coherent_of_sub {s s1 : State} (hc : Coherent s)
    (hsub : ∀ (h : Nat) (p : SharedPtr) (c : Nat), s1.shared[h]? = some (some p) →
      p.referenceCount = some c → ∃ j : Nat, s.shared[j]? = some (some p))
    (hw : ∀ (w : Nat) (q : WeakPtr) (c : Nat), s1.weak[w]? = some (some q) →
      q.referenceCount = some c → (∃ j : Nat, s.weak[j]? = some (some q)) ∨
      ∃ (j : Nat) (p : SharedPtr), s.shared[j]? = some (some p) ∧
        q = ⟨p.resource, p.referenceCount⟩) : Coherent s1 := by
  intro h p c hp hpc
  obtain ⟨j, hj⟩ := hsub _ _ _ hp hpc
  obtain ⟨k1, k2⟩ := hc j p c hj hpc
  refine ⟨fun g q hq hqc => ?_, fun w q hq hqc => ?_⟩
  · obtain ⟨g0, hg0⟩ := hsub _ _ _ hq hqc
    exact k1 g0 q hg0 hqc
  · rcases hw w q c hq hqc with ⟨j0, hj0⟩ | ⟨j0, p0, hj0, rfl⟩
    · exact k2 j0 q hj0 hqc
    · exact k1 j0 p0 hj0 hqc

theorem WeakBound_of_sub {s s1 : State} (hb : WeakBound s) (hS : Sound s)
    (hlen : s.counters.length ≤ s1.counters.length)
    (hw : ∀ (w : Nat) (q : WeakPtr) (c : Nat), s1.weak[w]? = some (some q) →
      q.referenceCount = some c → (∃ j : Nat, s.weak[j]? = some (some q)) ∨
      ∃ (j : Nat) (p : SharedPtr), s.shared[j]? = some (some p) ∧
        q = ⟨p.resource, p.referenceCount⟩) : WeakBound s1 := by
  intro w q c hq hqc
  rcases hw w q c hq hqc with ⟨j0, hj0⟩ | ⟨j0, p0, hj0, rfl⟩
  · exact Nat.lt_of_lt_of_le (hb j0 q c hj0 hqc) hlen
  · exact Nat.lt_of_lt_of_le (hS.bound hj0 hqc) hlen

/-- Entries of the `SharedPtr` table after an elementary change: empty, or an
entry of the table before. -/
theorem prim_entries {s s1 : State} (hp : Prim s s1) (h : Nat) (p : SharedPtr)
    (hs : s1.shared[h]? = some (some p)) :
    p = ⟨none, none⟩ ∨ ∃ j : Nat, s.shared[j]? = some (some p) := by
  cases hp with
  | weakOnly hu hw => rw [hu.2.2] at hs; exact Or.inr ⟨h, hs⟩
  | resources h1 h2 h3 hr hn => rw [h2] at hs; exact Or.inr ⟨h, hs⟩
  | pushVacant o ho e =>
    subst e
    rcases lookup_push_cases hs with h0 | ⟨-, h0⟩
    · exact Or.inr ⟨h, h0⟩
    · exact Or.inl (vacant_entry ho h0.symm)
  | release a pa o s2 ha ho hd e =>
    subst e
    rcases lookup_set_cases hs with ⟨-, h0⟩ | ⟨-, h0⟩
    · exact Or.inr ⟨h, h0⟩
    · exact Or.inl (vacant_entry ho h0.symm)
  | swap a b pa pb ha hb e =>
    subst e
    rcases lookup_set_cases hs with ⟨-, h0⟩ | ⟨-, h0⟩
    · rcases lookup_set_cases h0 with ⟨-, h1⟩ | ⟨-, h1⟩
      · exact Or.inr ⟨h, h1⟩
      · cases h1; exact Or.inr ⟨b, hb⟩
    · cases h0; exact Or.inr ⟨a, ha⟩

theorem prim_sub {s s1 : State} (hp : Prim s s1) (h : Nat) (p : SharedPtr) (c : Nat)
    (hs : s1.shared[h]? = some (some p)) (hc : p.referenceCount = some c) :
    ∃ j : Nat, s.shared[j]? = some (some p) := by
  rcases prim_entries hp h p hs with rfl | hj
  · cases hc
  · exact hj

theorem prim_weak {s s1 : State} (hp : Prim s s1) (w : Nat) (q : WeakPtr) (c : Nat)
    (hs : s1.weak[w]? = some (some q)) (hc : q.referenceCount = some c) :
    (∃ j : Nat, s.weak[j]? = some (some q)) ∨
    ∃ (j : Nat) (p : SharedPtr), s.shared[j]? = some (some p) ∧
      q = ⟨p.resource, p.referenceCount⟩ := by
  cases hp with
  | weakOnly hu hw =>
    rcases hw w q hs with rfl | h1 | h2
    · cases hc
    · exact Or.inl h1
    · exact Or.inr h2
  | resources h1 h2 h3 hr hn => rw [h3] at hs; exact Or.inl ⟨w, hs⟩
  | pushVacant o ho e => subst e; exact Or.inl ⟨w, hs⟩
  | release a pa o s2 ha ho hd e =>
    subst e
    obtain ⟨-, -, -, hw, -⟩ := decrement_inv hd
    simp only [] at hs
    rw [hw] at hs
    exact Or.inl ⟨w, hs⟩
  | swap a b pa pb ha hb e => subst e; exact Or.inl ⟨w, hs⟩

theorem prim_length {s s1 : State} (hp : Prim s s1) :
    s.counters.length ≤ s1.counters.length := by
  cases hp with
  | weakOnly hu hw => rw [hu.1]
  | resources h1 h2 h3 hr hn => rw [h1]
  | pushVacant o ho e => subst e; exact Nat.le_refl _
  | release a pa o s2 ha ho hd e =>
    subst e
    exact Nat.le_of_eq (decrement_length hd).symm
  | swap a b pa pb ha hb e => subst e; exact Nat.le_refl _

theorem ResourceInv_prim {s s1 : State} (H : Safe s) (hp : Prim s s1) : ResourceInv s1 := by
  have hsub := prim_sub hp
  cases hp with
  | weakOnly hu hw =>
    exact ResourceInv_of_sub H.2.1 (fun r x hx => ⟨x, by rw [hu.2.1]; exact hx⟩) hsub
  | resources h1 h2 h3 hr hn =>
    refine ResourceInv_of_sub H.2.1 (fun r x hx => ?_) hsub
    obtain ⟨v, hv, -⟩ := hr r _ hx
    exact ⟨v, hv⟩
  | pushVacant o ho e =>
    subst e
    exact ResourceInv_of_sub H.2.1 (fun r x hx => ⟨x, hx⟩) hsub
  | swap a b pa pb ha hb e =>
    subst e
    exact ResourceInv_of_sub H.2.1 (fun r x hx => ⟨x, hx⟩) hsub
  | release a pa o s2 ha ho hd e =>
    subst e
    have hdes := destroy_of_decrement hd
    rcases Valid_destroy a H.valid with he | ⟨t, ht, hvt⟩
    · rw [hdes] at he
      cases he
    · rw [hdes] at ht
      cases ht
      refine ResourceInv_of_sub hvt.1.2 (fun r x hx => ⟨x, hx⟩) ?_
      intro h p c hs hc
      rcases lookup_set_cases hs with ⟨hne, h0⟩ | ⟨-, h0⟩
      · exact ⟨h, by simp only []; rw [lookup_set_other _ _ (fun e => hne e.symm)]; exact h0⟩
      · rw [vacant_entry ho h0.symm] at hc
        cases hc

theorem Safe_prim {s s1 : State} (H : Safe s) (hp : Prim s s1) : Safe s1 :=
  ⟨Sound_prim H.1 hp, ResourceInv_prim H hp, Exclusive_of_sub H.2.2.1 (prim_sub hp),
    Coherent_of_sub H.2.2.2.1 (prim_sub hp) (prim_weak hp),
    WeakBound_of_sub H.2.2.2.2 H.1 (prim_length hp) (prim_weak hp)⟩

theorem incremented_length {rc : Option Nat} {m m1 : Memory} (h : Incremented rc m m1) :
    m1.length = m.length := by
  cases rc with
  | none => rw [show m1 = m from h]
  | some c =>
    obtain ⟨v, -, rfl⟩ := h
    simp

theorem acquire_sub {s s1 : State} {a : Nat} {q : SharedPtr} (H : Safe s)
    (hp : Acquire a q s s1) (h : Nat) (p : SharedPtr) (c : Nat)
    (hs : s1.shared[h]? = some (some p)) (hc : p.referenceCount = some c) :
    ∃ j : Nat, s.shared[j]? = some (some p) := by
  obtain ⟨-, hq, hsh, -, -, hinc⟩ := hp
  rw [hsh] at hs
  rcases lookup_set_cases hs with ⟨-, h0⟩ | ⟨-, h0⟩
  · exact ⟨h, h0⟩
  · cases h0
    rcases hq with ⟨g, -, hg⟩ | ⟨w, wq, hw, rfl⟩
    · exact ⟨g, hg⟩
    · simp only [] at hc hinc
      rw [hc] at hinc
      obtain ⟨v, hv, -⟩ := hinc
      obtain ⟨-, h1⟩ := H.1.2.2.1 c v hv
      obtain ⟨j, pj, hj, hjc⟩ := exists_alias h1
      have hres := (H.2.2.2.1 j pj c hj hjc).2 w wq hw hc
      refine ⟨j, ?_⟩
      rw [hj]
      cases pj
      simp only [] at hres hjc
      simp [hres, hjc, hc]

theorem Safe_acquire {s s1 : State} {a : Nat} {q : SharedPtr} (H : Safe s)
    (hp : Acquire a q s s1) : Safe s1 := by
  have hsub := acquire_sub H hp
  have hS := Sound_acquire H.1 hp
  obtain ⟨-, -, -, hw, hres, hinc⟩ := hp
  have hweak : ∀ (w : Nat) (q : WeakPtr) (c : Nat), s1.weak[w]? = some (some q) →
      q.referenceCount = some c → (∃ j : Nat, s.weak[j]? = some (some q)) ∨
      ∃ (j : Nat) (p : SharedPtr), s.shared[j]? = some (some p) ∧
        q = ⟨p.resource, p.referenceCount⟩ := by
    intro w q c hq _
    rw [hw] at hq
    exact Or.inl ⟨w, hq⟩
  exact ⟨hS, ResourceInv_of_sub H.2.1 (fun r x hx => ⟨x, by rw [hres]; exact hx⟩) hsub,
    Exclusive_of_sub H.2.2.1 hsub, Coherent_of_sub H.2.2.2.1 hsub hweak,
    WeakBound_of_sub H.2.2.2.2 H.1 (Nat.le_of_eq (incremented_length hinc).symm) hweak⟩

theorem transferable_some_iff {s : State} {x : Nat} :
    transferable (some x) s = true ↔
      s.resources.live x = true ∧
      ∀ (h : Nat) (p : SharedPtr), s.shared[h]? = some (some p) → p.resource ≠ some x := by
  simp only [transferable, Bool.and_eq_true, List.all_eq_true, Bool.not_eq_true']
  constructor
  · rintro ⟨h1, h2⟩
    refine ⟨h1, fun h p hp hx => ?_⟩
    have := h2 _ (List.getElem?_mem hp)
    simp [holds, hx] at this
  · rintro ⟨h1, h2⟩
    refine ⟨h1, fun o ho => ?_⟩
    obtain ⟨j, hj⟩ := List.getElem?_of_mem ho
    cases o with
    | none => rfl
    | some p =>
      have := h2 j p hj
      simp [holds, this]

/-- A resource that no handle holds stays allocated and stays unheld. -/
theorem transferable_prim {s t : State} {r : Option Nat} (hr : transferable r s = true)
    (hp : Prim s t) : transferable r t = true := by
  cases r with
  | none => rfl
  | some x =>
    obtain ⟨hlive, hfree⟩ := transferable_some_iff.mp hr
    obtain ⟨v, hv⟩ := Memory.live_inv hlive
    refine transferable_some_iff.mpr ⟨?_, fun h p hs hx => ?_⟩
    · have hro := releasedOnce_prim hp
      cases hp with
      | weakOnly hu hw => rw [hu.2.1]; exact hlive
      | resources h1 h2 h3 hres hn =>
        obtain ⟨y, hy, -⟩ := hres x _ hv
        exact Memory.live_of_lookup hy
      | pushVacant o ho e => subst e; exact hlive
      | swap a b pa pb ha hb e => subst e; exact hlive
      | release a pa o s2 ha ho hd e =>
        subst e
        obtain ⟨p, hp0, -, -, -, heff⟩ := decrement_effect hd
        show s2.resources.live x = true
        have hsame : s2.resources[x]? = some ⟨v, false⟩ := by
          cases hc : p.referenceCount with
          | none =>
            simp only [ResourceEffect, hc] at heff
            rw [heff]; exact hv
          | some c =>
            simp only [ResourceEffect, hc] at heff
            obtain ⟨u, -, hdel⟩ := heff
            unfold ResourceDeleted at hdel
            split at hdel
            · cases hpr : p.resource with
              | none =>
                rw [hpr] at hdel
                rw [show s2.resources = s.resources from hdel]; exact hv
              | some r1 =>
                rw [hpr] at hdel
                obtain ⟨y, hy, hm⟩ := hdel
                have hne : r1 ≠ x := by
                  rintro rfl
                  exact hfree a p hp0 hpr
                rw [hm, lookup_set_other _ _ hne]; exact hv
            · rw [hdel]; exact hv
        exact Memory.live_of_lookup hsame
    · rcases prim_entries hp h p hs with rfl | ⟨j, hj⟩
      · cases hx
      · exact hfree j p hj hx

theorem Safe_adopt {s s1 : State} {r : Option Nat} {a : Nat} (H : Safe s)
    (hr : transferable r s = true) (hp : Adopt r a s s1) : Safe s1 := by
  have hS := Sound_adopt H.1 hp
  obtain ⟨⟨o, ha, ho⟩, rfl⟩ := hp
  have hentry : ∀ (h : Nat) (p : SharedPtr),
      (s.shared.set a (some ⟨r, some s.counters.length⟩))[h]? = some (some p) →
      (h ≠ a ∧ s.shared[h]? = some (some p)) ∨ p = ⟨r, some s.counters.length⟩ := by
    intro h p hs
    rcases lookup_set_cases hs with h0 | ⟨-, h0⟩
    · exact Or.inl h0
    · cases h0; exact Or.inr rfl
  refine ⟨hS, ?_, ?_, ?_, ?_⟩
  · apply ResourceInv.of_entries
    intro h c x p hs hc hx
    rcases hentry h p hs with ⟨-, h0⟩ | rfl
    · obtain ⟨y, hy⟩ := H.2.1.live h0 hc hx
      exact Memory.live_of_lookup hy
    · simp only [] at hx
      subst hx
      exact (transferable_some_iff.mp hr).1
  · apply Exclusive.of_pairs
    intro i j x c1 c2 p q hp hq hpx hqx hpc hqc
    rcases hentry i p hp with ⟨-, h0⟩ | rfl
    · rcases hentry j q hq with ⟨-, h1⟩ | rfl
      · exact H.2.2.1.same h0 h1 hpx hqx hpc hqc
      · simp only [] at hqx
        subst hqx
        exact absurd hpx ((transferable_some_iff.mp hr).2 i p h0)
    · rcases hentry j q hq with ⟨-, h1⟩ | rfl
      · simp only [] at hpx
        subst hpx
        exact absurd hqx ((transferable_some_iff.mp hr).2 j q h1)
      · simp only [] at hpc hqc
        cases hpc
        cases hqc
        rfl
  · intro h p c hs hc
    rcases hentry h p hs with ⟨-, h0⟩ | rfl
    · obtain ⟨k1, k2⟩ := H.2.2.2.1 h p c h0 hc
      have hlt := H.1.bound h0 hc
      refine ⟨fun g q hq hqc => ?_, k2⟩
      rcases hentry g q hq with ⟨-, h1⟩ | rfl
      · exact k1 g q h1 hqc
      · simp only [] at hqc
        cases hqc
        omega
    · simp only [] at hc
      cases hc
      refine ⟨fun g q hq hqc => ?_, fun w q hq hqc => ?_⟩
      · rcases hentry g q hq with ⟨-, h1⟩ | rfl
        · have := H.1.bound h1 hqc
          omega
        · rfl
      · have := H.2.2.2.2 w q _ hq hqc
        omega
  · intro w q c hq hqc
    have := H.2.2.2.2 w q c hq hqc
    simp only [List.length_append, List.length_singleton]
    omega

theorem Safe_steps {s s1 : State} {r : Option Nat} (H : Safe s)
    (hr : transferable r s = true) (hp : Steps r s s1) : Safe s1 := by
  rcases hp with h | ⟨t, a, q, h1, h2⟩ | ⟨t, a, h1, h2⟩
  · exact Safe_prim H h
  · exact Safe_acquire (Safe_prim H h1) h2
  · exact Safe_adopt (Safe_prim H h1) (transferable_prim hr h1) h2

theorem Safe_runOps {s s1 : State} (ops : List Op) (H : Safe s)
    (hr : respects ops s = true) (hs : runOps ops s = .ok s1) : Safe s1 := by
  induction ops generalizing s with
  | nil =>
    cases hs
    exact H
  | cons op ops ih =>
    obtain ⟨t, h1, h2⟩ := runOps_cons_inv hs
    simp only [respects, h1, Bool.and_eq_true] at hr
    exact ih (Safe_steps H hr.1 (steps_of_apply op h1)) hr.2 h2

/-! ## No operation deletes a deleted object -/

theorem nodf_bind {α β : Type} {x : Except Fault α} {f : α → Except Fault β}
    (hx : x ≠ .error .doubleFree) (hf : ∀ a, x = .ok a → f a ≠ .error .doubleFree) :
    (x >>= f) ≠ .error .doubleFree := by
  cases x with
  | error e =>
    intro h
    apply hx
    cases h
    rfl
  | ok a => exact hf a rfl

theorem nodf_ok {α : Type} (a : α) : (Except.ok a : Except Fault α) ≠ .error .doubleFree :=
  fun h => by cases h

theorem nodf_pure {α : Type} (a : α) : (pure a : Except Fault α) ≠ .error .doubleFree :=
  fun h => by cases h

theorem nodf_getShared (s : State) (h : Nat) : s.getShared h ≠ .error .doubleFree := by
  unfold State.getShared
  split <;> exact fun h => by cases h

theorem nodf_getWeak (s : State) (h : Nat) : s.getWeak h ≠ .error .doubleFree := by
  unfold State.getWeak
  split <;> exact fun h => by cases h

theorem nodf_read (m : Memory) (p : Nat) : m.read p ≠ .error .doubleFree := by
  unfold Memory.read
  split
  · exact fun h => by cases h
  · split <;> exact fun h => by cases h

theorem nodf_write (m : Memory) (p : Nat) (v : Int) : m.write p v ≠ .error .doubleFree := by
  unfold Memory.write
  split
  · exact fun h => by cases h
  · split <;> exact fun h => by cases h

theorem nodf_increment (s : State) (h : Nat) :
    IncrementReferenceCount h s ≠ .error .doubleFree := by
  unfold IncrementReferenceCount
  refine nodf_bind (nodf_getShared _ _) (fun p _ => ?_)
  split
  · exact nodf_pure _
  · exact nodf_bind (nodf_read _ _) (fun _ _ => nodf_bind (nodf_write _ _ _)
      (fun _ _ => nodf_pure _))

theorem nodf_constructFromWeak (s : State) (w : Nat) :
    constructFromWeak w s ≠ .error .doubleFree :=
  nodf_bind (nodf_getWeak _ _) (fun _ _ => nodf_increment _ _)

theorem nodf_get (s : State) (h : Nat) : Get h s ≠ .error .doubleFree :=
  nodf_bind (nodf_getShared _ _) (fun _ _ => nodf_pure _)

theorem nodf_weak {s : State} (op : Op) (hop : op.weakOnly = true) :
    op.apply s ≠ .error .doubleFree := by
  cases op <;> simp only [Op.weakOnly] at hop <;> try (exact absurd hop (by decide))
  case weakConstruct => exact nodf_pure _
  case weakCopyConstruct g =>
    exact nodf_bind (nodf_getWeak _ _) (fun _ _ => nodf_pure _)
  case weakConstructFromShared g =>
    exact nodf_bind (nodf_get _ _) (fun _ _ => nodf_bind (nodf_getShared _ _)
      (fun _ _ => nodf_pure _))
  case weakAssign a b =>
    show WeakPtr.assign a b s ≠ _
    unfold WeakPtr.assign
    split
    · exact nodf_bind (nodf_getWeak _ _) (fun _ _ => nodf_bind (nodf_getWeak _ _)
        (fun _ _ => nodf_bind (nodf_getWeak _ _) (fun _ _ => nodf_bind (nodf_getWeak _ _)
          (fun _ _ => nodf_pure _))))
    · exact nodf_pure _
  case weakAssignShared a b =>
    exact nodf_bind (nodf_getWeak _ _) (fun _ _ => nodf_bind (nodf_get _ _)
      (fun _ _ => nodf_bind (nodf_getWeak _ _) (fun _ _ => nodf_bind (nodf_getShared _ _)
        (fun _ _ => nodf_pure _))))
  case weakDestroy a =>
    exact nodf_bind (nodf_getWeak _ _) (fun _ _ => nodf_pure _)
  case weakReset a =>
    exact nodf_bind (nodf_getWeak _ _) (fun _ _ => nodf_bind (nodf_getWeak _ _)
      (fun _ _ => nodf_pure _))
  case weakSwap a b =>
    exact nodf_bind (nodf_getWeak _ _) (fun _ _ => nodf_bind (nodf_getWeak _ _)
      (fun _ _ => nodf_bind (nodf_getWeak _ _) (fun _ _ => nodf_bind (nodf_getWeak _ _)
        (fun _ _ => nodf_bind (nodf_getWeak _ _) (fun _ _ => nodf_bind (nodf_getWeak _ _)
          (fun _ _ => nodf_pure _))))))
  case weakUseCount a =>
    refine nodf_bind (nodf_bind (nodf_getWeak _ _) (fun p _ => ?_)) (fun _ _ => nodf_pure _)
    split
    · exact nodf_read _ _
    · exact nodf_pure _
  case weakExpired a =>
    refine nodf_bind (nodf_bind (nodf_getWeak _ _) (fun p _ => ?_)) (fun _ _ => nodf_pure _)
    split
    · exact nodf_pure _
    · exact nodf_bind (nodf_read _ _) (fun _ _ => nodf_pure _)

/-- In a safe state no public operation deletes a deleted counter or resource. -/
theorem no_double_free {s : State} (H : Safe s) (op : Op) :
    op.apply s ≠ .error .doubleFree := by
  cases op <;> try (exact nodf_weak _ rfl)
  case newResource v => exact nodf_pure _
  case sharedConstruct => exact nodf_pure _
  case sharedConstructFrom r => exact nodf_pure _
  case sharedCopyConstruct g =>
    exact nodf_bind (nodf_getShared _ _) (fun _ _ => nodf_increment _ _)
  case sharedConstructFromWeak w => exact nodf_constructFromWeak _ _
  case weakLock w =>
    exact nodf_bind (nodf_bind (nodf_constructFromWeak _ _) (fun _ _ => nodf_pure _))
      (fun _ _ => nodf_pure _)
  case sharedAssign a b =>
    rcases Valid_assign a b H.valid with he | ⟨s1, hs, -⟩
    · intro h
      rw [show (Op.sharedAssign a b).apply s = assign a b s from rfl, he] at h
      cases h
    · intro h
      rw [show (Op.sharedAssign a b).apply s = assign a b s from rfl, hs] at h
      cases h
  case sharedDestroy a =>
    rcases Valid_destroy a H.valid with he | ⟨s1, hs, -⟩
    · intro h
      rw [show (Op.sharedDestroy a).apply s = destroy a s from rfl, he] at h
      cases h
    · intro h
      rw [show (Op.sharedDestroy a).apply s = destroy a s from rfl, hs] at h
      cases h
  case sharedReset a =>
    show Reset a s ≠ _
    rcases lookup_live_or_dead s.shared a with ⟨p, hp⟩ | hdead
    · obtain ⟨s2, hd, -⟩ := decrement_of_WF H.valid.1 hp
      rw [Reset_of_decrement hd]
      exact nodf_ok _
    · simp [Reset, decrement_dead hdead, bind, Except.bind]
  case sharedResetTo a r =>
    show ResetTo a r s ≠ _
    rcases lookup_live_or_dead s.shared a with ⟨p, hp⟩ | hdead
    · obtain ⟨s2, hd, -⟩ := decrement_of_WF H.valid.1 hp
      rw [ResetTo_of_decrement r hd]
      exact nodf_ok _
    · simp [ResetTo, decrement_dead hdead, bind, Except.bind]
  case sharedSwap a b =>
    exact nodf_bind (nodf_getShared _ _) (fun _ _ => nodf_bind (nodf_getShared _ _)
      (fun _ _ => nodf_bind (nodf_getShared _ _) (fun _ _ => nodf_bind (nodf_getShared _ _)
        (fun _ _ => nodf_bind (nodf_getShared _ _) (fun _ _ => nodf_bind (nodf_getShared _ _)
          (fun _ _ => nodf_pure _))))))
  case sharedGet a => exact nodf_bind (nodf_get _ _) (fun _ _ => nodf_pure _)
  case sharedDeref a =>
    refine nodf_bind (nodf_bind (nodf_getShared _ _) (fun p _ => ?_)) (fun _ _ => nodf_pure _)
    split
    · exact fun h => by cases h
    · exact nodf_read _ _
  case sharedDerefAssign a v =>
    refine nodf_bind (nodf_getShared _ _) (fun p _ => ?_)
    split
    · exact fun h => by cases h
    · exact nodf_bind (nodf_write _ _ _) (fun _ _ => nodf_pure _)
  case sharedUseCount a =>
    refine nodf_bind (nodf_bind (nodf_getShared _ _) (fun p _ => ?_)) (fun _ _ => nodf_pure _)
    split
    · exact nodf_read _ _
    · exact nodf_pure _

theorem released_kept_sequence {s s1 : State} (ops : List Op) (hs : runOps ops s = .ok s1) :
    (∀ (c : Nat) (v : Int), s.counters[c]? = some ⟨v, true⟩ →
      s1.counters[c]? = some ⟨v, true⟩) ∧
    (∀ (r : Nat) (x : Int), s.resources[r]? = some ⟨x, true⟩ →
      s1.resources[r]? = some ⟨x, true⟩) := by
  induction ops generalizing s with
  | nil =>
    cases hs
    exact ⟨fun _ _ h => h, fun _ _ h => h⟩
  | cons op ops ih =>
    obtain ⟨t, h1, h2⟩ := runOps_cons_inv hs
    obtain ⟨k1, k2, -, -⟩ := releasedOnce_steps (steps_of_apply op h1)
    obtain ⟨j1, j2⟩ := ih h2
    exact ⟨fun c v h => j1 c v (k1 c v h), fun r x h => j2 r x (k2 r x h)⟩

/-- Handing the same raw pointer to two `SharedPtr(Resource*)` constructions is
outside the precondition: the second destructor deletes the deleted resource. -/
theorem double_ownership_misuse :
    respects [.newResource 5, .sharedConstructFrom (some 0), .sharedConstructFrom (some 0),
      .sharedDestroy 0, .sharedDestroy 1] State.empty = false ∧
    runOps [.newResource 5, .sharedConstructFrom (some 0), .sharedConstructFrom (some 0),
      .sharedDestroy 0, .sharedDestroy 1] State.empty = .error .doubleFree := by
  decide

/-! ## The order of the two `delete` statements -/

/-- Forgetting the record of `delete` expressions gives `DecrementReferenceCount`. -/
theorem SharedPtr.traced_forget (a : Nat) (t : Traced) :
    Except.map Traced.state (DecrementReferenceCountTraced a t) =
      DecrementReferenceCount a t.state := by
  unfold DecrementReferenceCountTraced DecrementReferenceCount
  cases hp : t.state.getShared a with
  | error e => rfl
  | ok p =>
    simp only [bind, Except.bind]
    cases hc : p.referenceCount with
    | none => rfl
    | some c =>
      simp only []
      cases hv : t.state.counters.read c with
      | error e => rfl
      | ok v =>
        simp only []
        cases hm : t.state.counters.write c (v - 1) with
        | error e => rfl
        | ok m =>
          simp only []
          cases hv1 : m.read c with
          | error e => rfl
          | ok v1 =>
            simp only []
            by_cases h0 : v1 = 0
            · simp only [h0, if_true]
              cases hr : p.resource with
              | none =>
                simp only [Traced.deleteResource, Traced.deleteCounter, pure, Except.pure,
                  bind, Except.bind]
                cases hd : m.delete c with
                | error e => rfl
                | ok m2 => rfl
              | some r =>
                simp only [Traced.deleteResource, Traced.deleteCounter, pure, Except.pure,
                  bind, Except.bind]
                cases hx : t.state.resources.delete r with
                | error e => rfl
                | ok rs =>
                  simp only []
                  cases hd : m.delete c with
                  | error e => rfl
                  | ok m2 => rfl
            · simp only [h0, if_false]
              rfl

theorem SharedPtr.traced_none {t : Traced} {a : Nat} {p : SharedPtr}
    (hp : t.state.shared[a]? = some (some p)) (hc : p.referenceCount = none) :
    DecrementReferenceCountTraced a t = .ok t := by
  simp [DecrementReferenceCountTraced, State.getShared_eq_ok hp, hc, bind, Except.bind, pure,
    Except.pure]

theorem SharedPtr.traced_keep {t : Traced} {a c : Nat} {p : SharedPtr} {v : Int}
    (hp : t.state.shared[a]? = some (some p)) (hc : p.referenceCount = some c)
    (hv : t.state.counters[c]? = some ⟨v, false⟩) (hne : v ≠ 1) :
    DecrementReferenceCountTraced a t =
      .ok ⟨{ t.state with counters := t.state.counters.set c ⟨v - 1, false⟩ }, t.deleted⟩ := by
  have hv2 : (t.state.counters.set c ⟨v - 1, false⟩)[c]? = some ⟨v - 1, false⟩ :=
    lookup_set_self _ hv
  have hz : ¬ (v - 1 = 0) := by omega
  simp [DecrementReferenceCountTraced, State.getShared_eq_ok hp, hc, Memory.read_eq_ok hv,
    Memory.write_eq_ok _ hv, Memory.read_eq_ok hv2, hz, bind, Except.bind, pure, Except.pure]

/-- The decrement from 1 to 0 as its two `delete` statements: first
`delete resource;` in the state with the counter at 0, then
`delete referenceCount;` in the state that leaves. -/
theorem SharedPtr.traced_release {t : Traced} {a c : Nat} {p : SharedPtr}
    (hp : t.state.shared[a]? = some (some p)) (hc : p.referenceCount = some c)
    (hv : t.state.counters[c]? = some ⟨1, false⟩) :
    DecrementReferenceCountTraced a t =
      ((Traced.deleteResource
        ⟨{ t.state with counters := t.state.counters.set c ⟨0, false⟩ }, t.deleted⟩
        p.resource) >>= fun t2 => t2.deleteCounter c) := by
  have hv2 : (t.state.counters.set c ⟨0, false⟩)[c]? = some ⟨0, false⟩ :=
    lookup_set_self _ hv
  simp [DecrementReferenceCountTraced, State.getShared_eq_ok hp, hc, Memory.read_eq_ok hv,
    Memory.write_eq_ok _ hv, Memory.read_eq_ok hv2, bind, Except.bind]

theorem Traced.deleteResource_ok {t : Traced} {r : Nat} {x : Int}
    (hx : t.state.resources[r]? = some ⟨x, false⟩) :
    t.deleteResource (some r) =
      .ok ⟨{ t.state with resources := t.state.resources.set r ⟨x, true⟩ },
        t.deleted ++ [.resource r]⟩ := by
  simp [Traced.deleteResource, Memory.delete_eq_ok hx, bind, Except.bind, pure, Except.pure]

theorem Traced.deleteCounter_ok {t : Traced} {c : Nat} {v : Int}
    (hv : t.state.counters[c]? = some ⟨v, false⟩) :
    t.deleteCounter c =
      .ok ⟨{ t.state with counters := t.state.counters.set c ⟨v, true⟩ },
        t.deleted ++ [.counter c]⟩ := by
  simp [Traced.deleteCounter, Memory.delete_eq_ok hv, bind, Except.bind, pure, Except.pure]

/-- In a safe state the decrement through an existing handle evaluates its
`delete` statements in the order resource, control block. -/
theorem SharedPtr.traced_of_safe {s : State} (H : Safe s) {a : Nat} {p : SharedPtr}
    (hp : s.shared[a]? = some (some p)) :
    ∃ (s1 : State) (log : List Deletion),
      DecrementReferenceCountTraced a ⟨s, []⟩ = .ok ⟨s1, log⟩ ∧
      DecrementReferenceCount a s = .ok s1 ∧
      (p.referenceCount = none → log = []) ∧
      (∀ (c : Nat) (v : Int), p.referenceCount = some c →
        s.counters[c]? = some ⟨v, false⟩ → v ≠ 1 → log = []) ∧
      (∀ c : Nat, p.referenceCount = some c → s.counters[c]? = some ⟨1, false⟩ →
        p.resource = none → log = [.counter c]) ∧
      (∀ c r : Nat, p.referenceCount = some c → s.counters[c]? = some ⟨1, false⟩ →
        p.resource = some r →
        log = [.resource r, .counter c] ∧
        ∃ t2 : Traced,
          Traced.deleteResource
            ⟨{ s with counters := s.counters.set c ⟨0, false⟩ }, []⟩ (some r) = .ok t2 ∧
          t2.state.resources.released r = true ∧ t2.state.counters.live c = true ∧
          t2.deleteCounter c = .ok ⟨s1, log⟩) := by
  have hforget := traced_forget a ⟨s, []⟩
  have key : ∀ (s1 : State) (log : List Deletion),
      DecrementReferenceCountTraced a ⟨s, []⟩ = .ok ⟨s1, log⟩ →
      DecrementReferenceCount a s = .ok s1 := by
    intro s1 log h
    rw [h] at hforget
    exact hforget.symm
  cases hc : p.referenceCount with
  | none =>
    have ht := traced_none (t := ⟨s, []⟩) hp hc
    exact ⟨s, [], ht, key _ _ ht, fun _ => rfl, fun c v h => (by cases h),
      fun c h => (by cases h), fun c r h => (by cases h)⟩
  | some c =>
    obtain ⟨v, hv, hv1⟩ := (H.1.block hp).2 c hc
    by_cases h1 : v = 1
    · subst h1
      have hcell : ({ s with counters := s.counters.set c ⟨0, false⟩ } : State).counters[c]? =
          some ⟨0, false⟩ := lookup_set_self _ hv
      have hrel := traced_release (t := ⟨s, []⟩) hp hc hv
      cases hr : p.resource with
      | none =>
        rw [hr] at hrel
        have hdc := Traced.deleteCounter_ok
          (t := ⟨{ s with counters := s.counters.set c ⟨0, false⟩ }, []⟩) hcell
        have ht : DecrementReferenceCountTraced a ⟨s, []⟩ =
            .ok ⟨{ s with counters := (s.counters.set c ⟨0, false⟩).set c ⟨0, true⟩ },
              [.counter c]⟩ := by
          rw [hrel]
          simpa [Traced.deleteResource, bind, Except.bind, pure, Except.pure] using hdc
        refine ⟨_, _, ht, key _ _ ht, fun h => (by cases h), fun d u hd hu hne => ?_,
          fun d hd _ _ => ?_, fun d r hd _ hr2 => (by cases hr2)⟩
        · cases hd
          rw [hv] at hu
          cases hu
          exact absurd rfl hne
        · cases hd
          rfl
      | some r =>
        rw [hr] at hrel
        obtain ⟨x, hx⟩ := H.2.1.live hp hc hr
        have hdr := Traced.deleteResource_ok
          (t := ⟨{ s with counters := s.counters.set c ⟨0, false⟩ }, []⟩) (r := r) (x := x) hx
        have hcell2 : ({ s with counters := s.counters.set c ⟨0, false⟩,
                                resources := s.resources.set r ⟨x, true⟩ } : State).counters[c]? =
            some ⟨0, false⟩ := lookup_set_self _ hv
        have hdc := Traced.deleteCounter_ok
          (t := ⟨{ s with counters := s.counters.set c ⟨0, false⟩,
                          resources := s.resources.set r ⟨x, true⟩ }, [.resource r]⟩) hcell2
        have ht : DecrementReferenceCountTraced a ⟨s, []⟩ =
            .ok ⟨{ s with counters := (s.counters.set c ⟨0, false⟩).set c ⟨0, true⟩,
                          resources := s.resources.set r ⟨x, true⟩ },
              [.resource r, .counter c]⟩ := by
          rw [hrel, hdr]
          simpa [bind, Except.bind] using hdc
        refine ⟨_, _, ht, key _ _ ht, fun h => (by cases h), fun d u hd hu hne => ?_,
          fun d hd _ hr2 => (by cases hr2), fun d r2 hd _ hr2 => ?_⟩
        · cases hd
          rw [hv] at hu
          cases hu
          exact absurd rfl hne
        · cases hd
          cases hr2
          refine ⟨rfl, _, hdr, ?_, ?_, ?_⟩
          · exact Memory.released_set hx
          · exact Memory.live_of_lookup hcell
          · simpa using hdc
    · have ht := traced_keep (t := ⟨s, []⟩) hp hc hv h1
      refine ⟨_, _, ht, key _ _ ht, fun h => (by cases h), fun d u _ _ _ => rfl,
        fun d hd hu _ => ?_, fun d r hd hu _ => ?_⟩
      · cases hd
        rw [hv] at hu
        cases hu
        exact absurd rfl h1
      · cases hd
        rw [hv] at hu
        cases hu
        exact absurd rfl h1

/-! ## The claims -/

/-- C1: for a resource wrapped by `SharedPtr(Resource*)` in a valid state (the
caller hands over a pointer that is null or allocated and not yet held, spec
section 4.1) and every finite sequence of copy constructions, copy
assignments and destructions whose operands exist, after each step (after the
first `n` operations, for every `n`) the sequence has run without undefined
behaviour and `UseCount()` of every existing `SharedPtr` that aliases the
control block of that resource equals the number of existing `SharedPtr`
objects aliasing it. -/
theorem C1_use_count_equals_live_handles (s : State) (r : Option Nat) (ops : List StrongOp)
    (n : Nat) (hv : Valid s) (hr : transferable r s = true)
    (hlive : run ops (constructFrom r s) ≠ .error .deadObject) :
    ∃ s1, run (ops.take n) (constructFrom r s) = .ok s1 ∧
      ∀ (h : Nat) (p : SharedPtr), s1.shared[h]? = some (some p) →
        p.referenceCount = some s.counters.length →
        UseCount h s1 = .ok (liveCount s.counters.length s1) := by
  rcases Valid_run (ops.take n) (Valid_constructFrom hv hr) with he | ⟨s1, hs, hv1⟩
  · exfalso
    apply hlive
    rw [← List.take_append_drop n ops, run_append, he]
  · exact ⟨s1, hs, fun h p hp hc => UseCount_some hp hc (hv1.1.1.cell hp hc)⟩

/-- Witness of C1: `ptr1(new int(5))`, two copies, an assignment between them
and the destruction of `ptr1`; looked at after three and after four steps. -/
theorem C1_use_count_equals_live_handles_witness :
    Valid (State.empty.newResource 5) ∧
    transferable (some 0) (State.empty.newResource 5) = true ∧
    (∃ s1, run ([StrongOp.copyConstruct 0, .copyConstruct 1, .assign 1 0, .destroy 0].take 4)
        (constructFrom (some 0) (State.empty.newResource 5)) = .ok s1 ∧
      ∀ (h : Nat) (p : SharedPtr), s1.shared[h]? = some (some p) →
        p.referenceCount = some (State.empty.newResource 5).counters.length →
        UseCount h s1 = .ok (liveCount (State.empty.newResource 5).counters.length s1)) ∧
    run [StrongOp.copyConstruct 0, .copyConstruct 1, .assign 1 0, .destroy 0]
        (constructFrom (some 0) (State.empty.newResource 5)) =
      .ok ⟨[⟨5, false⟩], [⟨2, false⟩],
        [none, some ⟨some 0, some 0⟩, some ⟨some 0, some 0⟩], []⟩ :=
  ⟨by decide, by decide,
   C1_use_count_equals_live_handles (State.empty.newResource 5) (some 0)
     [.copyConstruct 0, .copyConstruct 1, .assign 1 0, .destroy 0] 4 (by decide) (by decide)
     (by decide),
   by decide⟩

/-- C2: for every raw resource `r` (in any state), `SharedPtr a(r)` has
`UseCount() == 1`; after copy-constructing `b` from `a` both report 2; after
destroying either of the two the other reports 1, no resource object has
changed and the control block is still allocated. -/
theorem C2_construct_copy_destroy (s : State) (r : Option Nat) :
    UseCount s.shared.length (constructFrom r s) = .ok 1 ∧
    ∃ s2, copyConstruct s.shared.length (constructFrom r s) = .ok s2 ∧
      UseCount s.shared.length s2 = .ok 2 ∧ UseCount (s.shared.length + 1) s2 = .ok 2 ∧
      (∃ s3, destroy s.shared.length s2 = .ok s3 ∧ UseCount (s.shared.length + 1) s3 = .ok 1 ∧
        s3.resources = s.resources ∧ s3.counters[s.counters.length]? = some ⟨1, false⟩) ∧
      (∃ s3, destroy (s.shared.length + 1) s2 = .ok s3 ∧ UseCount s.shared.length s3 = .ok 1 ∧
        s3.resources = s.resources ∧ s3.counters[s.counters.length]? = some ⟨1, false⟩) := by
  have ha : (constructFrom r s).shared[s.shared.length]? = some (some ⟨r, some s.counters.length⟩) :=
    lookup_push_last _ _
  have hc : (constructFrom r s).counters[s.counters.length]? = some ⟨1, false⟩ :=
    lookup_push_last _ _
  have hc2 := lookup_set_self (⟨1 + 1, false⟩ : Cell) hc
  have ha2 := lookup_push_old (some (⟨r, some s.counters.length⟩ : SharedPtr)) ha
  have hb2 : ((constructFrom r s).shared ++ [some (⟨r, some s.counters.length⟩ : SharedPtr)])[
      s.shared.length + 1]? = some (some ⟨r, some s.counters.length⟩) := by
    have := lookup_push_last (constructFrom r s).shared (some (⟨r, some s.counters.length⟩ : SharedPtr))
    simpa [constructFrom] using this
  have hc3 := lookup_set_self (⟨1 + 1 - 1, false⟩ : Cell) hc2
  refine ⟨UseCount_some ha rfl hc, _, copyConstruct_some ha rfl hc,
    UseCount_some ha2 rfl hc2, UseCount_some hb2 rfl hc2,
    ⟨_, destroy_keep ha2 rfl hc2 (by decide), ?_, rfl, hc3⟩,
    ⟨_, destroy_keep hb2 rfl hc2 (by decide), ?_, rfl, hc3⟩⟩
  · exact UseCount_some (p := ⟨r, some s.counters.length⟩)
      (by rw [lookup_set_other _ _ (by omega)]; exact hb2) rfl hc3
  · exact UseCount_some (p := ⟨r, some s.counters.length⟩)
      (by rw [lookup_set_other _ _ (by omega)]; exact ha2) rfl hc3

/-- C3, evaluated on the scenario of `main`: `ptr` over 5, `weakPtr` made from
it, a `Lock()` result created and destroyed, then `ptr.Reset()`.  The `Reset`
takes the counter from 1 to 0 and deletes the resource and the control block;
`weakPtr` keeps both pointers, and `weakPtr.Expired()` evaluates
`*referenceCount` on the deleted control block instead of returning `true`. -/
theorem C3_expired_reads_deleted_block :
    mainAfterReset = .ok stateAfterReset ∧
    stateAfterReset.weak[0]? = some (some ⟨some 0, some 0⟩) ∧
    stateAfterReset.counters.released 0 = true ∧
    WeakPtr.Expired 0 stateAfterReset = .error .useAfterFree := by
  decide

/-- C4: for every `WeakPtr` `w` whose `Expired()` returns `false`, `Lock()`
returns a `SharedPtr` whose `Get()` is the resource pointer of `w` (so that
dereferencing it reads the very resource object the weak handle points to), no
resource object changes, and `w.UseCount()` is exactly one more than before;
the returned handle reports the same count. -/
theorem C4_lock_not_expired (s : State) (w : Nat) (he : WeakPtr.Expired w s = .ok false) :
    ∃ l s1 wp n, WeakPtr.Lock w s = .ok (l, s1) ∧ s.weak[w]? = some (some wp) ∧
      s1.weak = s.weak ∧ s1.resources = s.resources ∧
      SharedPtr.Get l s1 = .ok wp.resource ∧
      (∀ r, wp.resource = some r → SharedPtr.deref l s1 = s.resources.read r) ∧
      WeakPtr.UseCount w s = .ok n ∧ WeakPtr.UseCount w s1 = .ok (n + 1) ∧
      SharedPtr.UseCount l s1 = .ok (n + 1) := by
  obtain ⟨wp, c, v, hw, hc, hv, -⟩ := WeakPtr.Expired_false_inv he
  have hl := constructFromWeak_some hw hc hv
  have hv1 := lookup_set_self (⟨v + 1, false⟩ : Cell) hv
  have hlock : WeakPtr.Lock w s = .ok (s.shared.length,
      { s with counters := s.counters.set c ⟨v + 1, false⟩,
               shared := s.shared ++ [some ⟨wp.resource, some c⟩] }) := by
    simp [WeakPtr.Lock, hl, bind, Except.bind, pure, Except.pure]
  refine ⟨_, _, wp, v, hlock, hw, rfl, rfl, ?_, ?_, WeakPtr.useCount_of_cell hw hc hv,
    WeakPtr.useCount_of_cell hw hc hv1, SharedPtr.UseCount_some (lookup_push_last _ _) rfl hv1⟩
  · simp [SharedPtr.Get, State.getShared, bind, Except.bind, pure, Except.pure]
  · intro r hr
    simp [SharedPtr.deref, State.getShared, bind, Except.bind, hr]

/-- Witness of C4: `weakPtr` made from `ptr` over 5, as in `main`. -/
theorem C4_lock_not_expired_witness :
    WeakPtr.Expired 0 exampleObserved = .ok false ∧
    ∃ l s1 wp n, WeakPtr.Lock 0 exampleObserved = .ok (l, s1) ∧
      exampleObserved.weak[0]? = some (some wp) ∧
      s1.weak = exampleObserved.weak ∧ s1.resources = exampleObserved.resources ∧
      SharedPtr.Get l s1 = .ok wp.resource ∧
      (∀ r, wp.resource = some r → SharedPtr.deref l s1 = exampleObserved.resources.read r) ∧
      WeakPtr.UseCount 0 exampleObserved = .ok n ∧ WeakPtr.UseCount 0 s1 = .ok (n + 1) ∧
      SharedPtr.UseCount l s1 = .ok (n + 1) :=
  ⟨by decide, C4_lock_not_expired exampleObserved 0 (by decide)⟩

/-- C5 as stated fails: after `ptr.Reset()` in the scenario of `main` the
control-block reference of `weakPtr` is present and the referenced counter was
taken to zero and deleted, yet `weakPtr.Lock()` does not return an empty
`SharedPtr`: it copies both pointers and runs `(*referenceCount)++` on the
deleted control block. -/
theorem C5_lock_expired_counterexample :
    mainAfterReset = .ok stateAfterReset ∧
    stateAfterReset.weak[0]? = some (some ⟨some 0, some 0⟩) ∧
    stateAfterReset.counters[0]? = some ⟨0, true⟩ ∧
    WeakPtr.Lock 0 stateAfterReset = .error .useAfterFree ∧
    SharedPtr.constructFromWeak 0 stateAfterReset = .error .useAfterFree := by
  decide

/-- C5 amended: for every `WeakPtr` `w` whose control-block reference is absent
(both of its pointers are null), `Expired()` is `true` and `Lock()` returns an
empty `SharedPtr` (`Get()` null, `UseCount() == 0`) without changing any counter
or resource. -/
theorem C5_lock_without_control_block (s : State) (w : Nat)
    (hw : s.weak[w]? = some (some ⟨none, none⟩)) :
    WeakPtr.Expired w s = .ok true ∧
    ∃ l s1, WeakPtr.Lock w s = .ok (l, s1) ∧ SharedPtr.Get l s1 = .ok none ∧
      SharedPtr.UseCount l s1 = .ok 0 ∧ s1.counters = s.counters ∧
      s1.resources = s.resources := by
  have hl := constructFromWeak_none hw rfl
  have hlock : WeakPtr.Lock w s = .ok (s.shared.length,
      { s with shared := s.shared ++ [some ⟨none, none⟩] }) := by
    simp [WeakPtr.Lock, hl, bind, Except.bind, pure, Except.pure]
  refine ⟨?_, _, _, hlock, ?_, ?_, rfl, rfl⟩
  · simp [WeakPtr.Expired, State.getWeak_eq_ok hw, bind, Except.bind, pure, Except.pure]
  · simp [SharedPtr.Get, State.getShared, bind, Except.bind, pure, Except.pure]
  · simp [SharedPtr.UseCount, State.getShared, bind, Except.bind, pure, Except.pure]

/-- Witness of the amended C5: a default-constructed `WeakPtr` next to a live owner. -/
theorem C5_lock_without_control_block_witness :
    (WeakPtr.construct exampleObserved).weak[1]? = some (some ⟨none, none⟩) ∧
    WeakPtr.Expired 1 (WeakPtr.construct exampleObserved) = .ok true ∧
    ∃ l s1, WeakPtr.Lock 1 (WeakPtr.construct exampleObserved) = .ok (l, s1) ∧
      SharedPtr.Get l s1 = .ok none ∧ SharedPtr.UseCount l s1 = .ok 0 ∧
      s1.counters = (WeakPtr.construct exampleObserved).counters ∧
      s1.resources = (WeakPtr.construct exampleObserved).resources :=
  ⟨by decide, C5_lock_without_control_block (WeakPtr.construct exampleObserved) 1 (by decide)⟩

/-- C6: for every two existing `SharedPtr` handles `a` and `b` (possibly the
same object), `a.Swap(b)` leaves `a` with exactly the resource and control-block
pointers `b` had and `b` with those `a` had, changes no other handle, no counter
and no resource (nothing is released), so that `a.UseCount()` afterwards is
`b.UseCount()` before and vice versa. -/
theorem C6_swap_exchanges_references (s : State) (a b : Nat) (pa pb : SharedPtr)
    (ha : s.shared[a]? = some (some pa)) (hb : s.shared[b]? = some (some pb)) :
    ∃ s1, Swap a b s = .ok s1 ∧
      s1.shared[a]? = some (some pb) ∧ s1.shared[b]? = some (some pa) ∧
      (∀ h, h ≠ a → h ≠ b → s1.shared[h]? = s.shared[h]?) ∧
      s1.counters = s.counters ∧ s1.resources = s.resources ∧ s1.weak = s.weak ∧
      UseCount a s1 = UseCount b s ∧ UseCount b s1 = UseCount a s := by
  have hla := lookup_lt ha
  have hlb := lookup_lt hb
  by_cases hab : a = b
  · subst hab
    rw [ha] at hb
    cases hb
    have hs : Swap a a s = .ok { s with shared := s.shared.set a (some pa) } := by
      simp [Swap, State.getShared, State.setShared, ha, hla, bind, Except.bind, pure,
        Except.pure]
    have h1 : ({ s with shared := s.shared.set a (some pa) } : State).shared[a]? =
        some (some pa) := lookup_set_self _ ha
    refine ⟨_, hs, h1, h1, ?_, rfl, rfl, rfl, UseCount_congr h1 ha rfl, UseCount_congr h1 ha rfl⟩
    intro h hne _
    exact lookup_set_other _ _ (fun e => hne e.symm)
  · have hba : b ≠ a := fun e => hab e.symm
    -- the two handles after each of the four member stores
    have a1 : (s.setShared a ⟨pb.resource, pa.referenceCount⟩).shared[a]? =
        some (some ⟨pb.resource, pa.referenceCount⟩) := lookup_set_self _ ha
    have b1 : (s.setShared a ⟨pb.resource, pa.referenceCount⟩).shared[b]? = some (some pb) := by
      simp only [State.setShared]
      rw [lookup_set_other _ _ hab]; exact hb
    have a2 : ((s.setShared a ⟨pb.resource, pa.referenceCount⟩).setShared b
        ⟨pa.resource, pb.referenceCount⟩).shared[a]? =
        some (some ⟨pb.resource, pa.referenceCount⟩) := by
      simp only [State.setShared]
      rw [lookup_set_other _ _ hba]; exact a1
    have b2 : ((s.setShared a ⟨pb.resource, pa.referenceCount⟩).setShared b
        ⟨pa.resource, pb.referenceCount⟩).shared[b]? =
        some (some ⟨pa.resource, pb.referenceCount⟩) := lookup_set_self _ b1
    have a3 : (((s.setShared a ⟨pb.resource, pa.referenceCount⟩).setShared b
        ⟨pa.resource, pb.referenceCount⟩).setShared a ⟨pb.resource, pb.referenceCount⟩).shared[a]? =
        some (some pb) := lookup_set_self _ a2
    have b3 : (((s.setShared a ⟨pb.resource, pa.referenceCount⟩).setShared b
        ⟨pa.resource, pb.referenceCount⟩).setShared a ⟨pb.resource, pb.referenceCount⟩).shared[b]? =
        some (some ⟨pa.resource, pb.referenceCount⟩) := by
      simp only [State.setShared]
      rw [lookup_set_other _ _ hab]; exact b2
    have hs : Swap a b s = .ok ((((s.setShared a ⟨pb.resource, pa.referenceCount⟩).setShared b
        ⟨pa.resource, pb.referenceCount⟩).setShared a ⟨pb.resource, pb.referenceCount⟩).setShared b
        ⟨pa.resource, pa.referenceCount⟩) := by
      simp only [Swap, bind, Except.bind, State.getShared_eq_ok ha, State.getShared_eq_ok hb,
        State.getShared_eq_ok b1, State.getShared_eq_ok a2, State.getShared_eq_ok b2,
        State.getShared_eq_ok b3, pure, Except.pure]
    have a4 : ((((s.setShared a ⟨pb.resource, pa.referenceCount⟩).setShared b
        ⟨pa.resource, pb.referenceCount⟩).setShared a ⟨pb.resource, pb.referenceCount⟩).setShared b
        ⟨pa.resource, pa.referenceCount⟩).shared[a]? = some (some pb) := by
      simp only [State.setShared]
      rw [lookup_set_other _ _ hba]; exact a3
    have b4 : ((((s.setShared a ⟨pb.resource, pa.referenceCount⟩).setShared b
        ⟨pa.resource, pb.referenceCount⟩).setShared a ⟨pb.resource, pb.referenceCount⟩).setShared b
        ⟨pa.resource, pa.referenceCount⟩).shared[b]? = some (some pa) := lookup_set_self _ b3
    refine ⟨_, hs, a4, b4, ?_, rfl, rfl, rfl, UseCount_congr a4 hb rfl, UseCount_congr b4 ha rfl⟩
    intro h hna hnb
    simp only [State.setShared]
    rw [lookup_set_other _ _ (fun e => hnb e.symm), lookup_set_other _ _ (fun e => hna e.symm),
      lookup_set_other _ _ (fun e => hnb e.symm), lookup_set_other _ _ (fun e => hna e.symm)]

/-- Witness of C6: two owners of two different resources. -/
theorem C6_swap_exchanges_references_witness :
    exampleTwoOwners.shared[0]? = some (some ⟨some 0, some 0⟩) ∧
    exampleTwoOwners.shared[1]? = some (some ⟨some 1, some 1⟩) ∧
    ∃ s1, Swap 0 1 exampleTwoOwners = .ok s1 ∧
      s1.shared[0]? = some (some ⟨some 1, some 1⟩) ∧
      s1.shared[1]? = some (some ⟨some 0, some 0⟩) ∧
      (∀ h, h ≠ 0 → h ≠ 1 → s1.shared[h]? = exampleTwoOwners.shared[h]?) ∧
      s1.counters = exampleTwoOwners.counters ∧ s1.resources = exampleTwoOwners.resources ∧
      s1.weak = exampleTwoOwners.weak ∧
      UseCount 0 s1 = UseCount 1 exampleTwoOwners ∧
      UseCount 1 s1 = UseCount 0 exampleTwoOwners :=
  ⟨by decide, by decide,
   C6_swap_exchanges_references exampleTwoOwners 0 1 ⟨some 0, some 0⟩ ⟨some 1, some 1⟩
     (by decide) (by decide)⟩

/-- C7: in a well-formed state, for every two distinct existing `SharedPtr`
handles `a` and `b`, `a = b` succeeds; afterwards `a.Get() == b.Get()` and
`a.UseCount() == b.UseCount()`, and no other handle has changed.  If `a` and `b`
already aliased the same block (or both had none) no counter and no resource has
changed.  Otherwise the counter of the block `a` held is one lower (`v - 1`) and
that block and its resource are deleted exactly when it was 1, the counter of
the block of `b` is one higher, and every other counter is unchanged. -/
theorem C7_copy_assignment (s : State) (a b : Nat) (pa pb : SharedPtr) (hwf : WF s)
    (hab : a ≠ b) (ha : s.shared[a]? = some (some pa)) (hb : s.shared[b]? = some (some pb)) :
    ∃ s1, assign a b s = .ok s1 ∧
      Get a s1 = .ok pb.resource ∧ Get b s1 = .ok pb.resource ∧
      (∃ n, UseCount a s1 = .ok n ∧ UseCount b s1 = .ok n) ∧
      (∀ h, h ≠ a → s1.shared[h]? = s.shared[h]?) ∧
      (pa.referenceCount = pb.referenceCount →
        s1.counters = s.counters ∧ s1.resources = s.resources) ∧
      (pa.referenceCount ≠ pb.referenceCount →
        (∀ c, pa.referenceCount = some c → ∃ v : Int,
          s.counters[c]? = some ⟨v, false⟩ ∧
          s1.counters[c]? = some ⟨v - 1, decide (v = 1)⟩ ∧
          (v = 1 → ∀ r, pa.resource = some r →
            s.resources.live r = true ∧ s1.resources.released r = true) ∧
          (v ≠ 1 → s1.resources = s.resources)) ∧
        (pa.referenceCount = none → s1.resources = s.resources) ∧
        (∀ c, pb.referenceCount = some c → ∃ v : Int,
          s.counters[c]? = some ⟨v, false⟩ ∧ s1.counters[c]? = some ⟨v + 1, false⟩) ∧
        (∀ k, pa.referenceCount ≠ some k → pb.referenceCount ≠ some k →
          s1.counters[k]? = s.counters[k]?)) := by
  obtain ⟨s2, s1, hd, hassign, hsh, -, hres, hinc⟩ := assign_of_WF hwf hab ha hb
  obtain ⟨s2', hd', -, -, hnone, hsome⟩ := decrement_of_WF hwf ha
  rw [hd] at hd'
  cases hd'
  have ha1 : s1.shared[a]? = some (some pb) := by rw [hsh]; exact lookup_set_self _ ha
  have hb1 : s1.shared[b]? = some (some pb) := by
    rw [hsh, lookup_set_other _ _ hab]; exact hb
  refine ⟨s1, hassign, ?_, ?_, ?_, ?_, ?_, ?_⟩
  · simp [Get, State.getShared_eq_ok ha1, bind, Except.bind, pure, Except.pure]
  · simp [Get, State.getShared_eq_ok hb1, bind, Except.bind, pure, Except.pure]
  · cases hcb : pb.referenceCount with
    | none => exact ⟨0, UseCount_none ha1 hcb, UseCount_none hb1 hcb⟩
    | some cb =>
      rw [hcb] at hinc
      obtain ⟨x, hx, hm⟩ := hinc
      have : s1.counters[cb]? = some ⟨x + 1, false⟩ := by
        rw [hm]; exact lookup_set_self _ hx
      exact ⟨x + 1, UseCount_some ha1 hcb this, UseCount_some hb1 hcb this⟩
  · intro h hne
    rw [hsh]
    exact lookup_set_other _ _ (fun e => hne e.symm)
  · intro hsame
    cases hcb : pb.referenceCount with
    | none =>
      rw [hcb] at hinc hsame
      rw [show s1.counters = s2.counters from hinc, hres]
      exact hnone hsame
    | some c =>
      rw [hcb] at hinc hsame
      obtain ⟨x, hx, hm⟩ := hinc
      obtain ⟨hcell, hcnt, hdel⟩ := hsome c hsame
      have h2 := countP_ge_two hab ha hsame hb hcb
      have hne1 : ¬ ((liveCount c s : Int) = 1) := by
        simp only [liveCount]; omega
      rw [hcnt, lookup_set_self _ hcell] at hx
      simp only [hne1, decide_False, Option.some.injEq, Cell.mk.injEq, and_true] at hx
      subst hx
      rw [hm, hcnt, List.set_set, hres, hdel.unchanged hne1]
      simp only [sub_add_cancel]
      exact ⟨list_set_same hcell, trivial⟩
  · intro hdiff
    refine ⟨?_, ?_, ?_, ?_⟩
    · intro c hca
      obtain ⟨hcell, hcnt, hdel⟩ := hsome c hca
      refine ⟨_, hcell, ?_, ?_, ?_⟩
      · have hmid : s2.counters[c]? = some ⟨(liveCount c s : Int) - 1,
            decide ((liveCount c s : Int) = 1)⟩ := by
          rw [hcnt]; exact lookup_set_self _ hcell
        cases hcb : pb.referenceCount with
        | none =>
          rw [hcb] at hinc
          rw [show s1.counters = s2.counters from hinc]
          exact hmid
        | some cb =>
          rw [hcb] at hinc
          obtain ⟨x, hx, hm⟩ := hinc
          have hne : cb ≠ c := by
            intro e
            subst e
            exact hdiff (hca.trans hcb.symm)
          rw [hm, lookup_set_other _ _ hne]
          exact hmid
      · rw [hres]; exact hdel.released
      · rw [hres]; exact hdel.unchanged
    · intro hca
      rw [hres]
      exact (hnone hca).2
    · intro c hcb
      rw [hcb] at hinc
      obtain ⟨x, hx, hm⟩ := hinc
      have hcellb := hwf.1.cell hb hcb
      have hx0 : s2.counters[c]? = s.counters[c]? := by
        cases hca : pa.referenceCount with
        | none => rw [(hnone hca).1]
        | some ca =>
          obtain ⟨-, hcnt, -⟩ := hsome ca hca
          have hne : ca ≠ c := by
            intro e
            subst e
            exact hdiff (hca.trans hcb.symm)
          rw [hcnt, lookup_set_other _ _ hne]
      rw [hx0, hcellb] at hx
      cases hx
      exact ⟨_, hcellb, by rw [hm]; exact lookup_set_self _ (hx0.trans hcellb)⟩
    · intro k hka hkb
      have h1 : s1.counters[k]? = s2.counters[k]? := by
        cases hcb : pb.referenceCount with
        | none =>
          rw [hcb] at hinc
          rw [show s1.counters = s2.counters from hinc]
        | some cb =>
          rw [hcb] at hinc hkb
          obtain ⟨x, hx, hm⟩ := hinc
          rw [hm, lookup_set_other _ _ (fun e => hkb (by rw [e]))]
      rw [h1]
      cases hca : pa.referenceCount with
      | none => rw [(hnone hca).1]
      | some ca =>
        rw [hca] at hka
        obtain ⟨-, hcnt, -⟩ := hsome ca hca
        rw [hcnt, lookup_set_other _ _ (fun e => hka (by rw [e]))]

/-- Witness of C7: the sole owner of resource 0 is assigned the owner of
resource 1; resource 0 and its control block are deleted. -/
theorem C7_copy_assignment_witness :
    WF exampleTwoOwners ∧ (0 : Nat) ≠ 1 ∧
    assign 0 1 exampleTwoOwners =
      .ok ⟨[⟨5, true⟩, ⟨7, false⟩], [⟨0, true⟩, ⟨2, false⟩],
        [some ⟨some 1, some 1⟩, some ⟨some 1, some 1⟩], []⟩ ∧
    ∃ s1, assign 0 1 exampleTwoOwners = .ok s1 ∧
      Get 0 s1 = .ok (some 1) ∧ Get 1 s1 = .ok (some 1) ∧
      (∃ n, UseCount 0 s1 = .ok n ∧ UseCount 1 s1 = .ok n) ∧
      (∀ h, h ≠ 0 → s1.shared[h]? = exampleTwoOwners.shared[h]?) ∧
      ((some 0 : Option Nat) = some 1 →
        s1.counters = exampleTwoOwners.counters ∧
        s1.resources = exampleTwoOwners.resources) ∧
      ((some 0 : Option Nat) ≠ some 1 →
        (∀ c, (some 0 : Option Nat) = some c → ∃ v : Int,
          exampleTwoOwners.counters[c]? = some ⟨v, false⟩ ∧
          s1.counters[c]? = some ⟨v - 1, decide (v = 1)⟩ ∧
          (v = 1 → ∀ r, (some 0 : Option Nat) = some r →
            exampleTwoOwners.resources.live r = true ∧ s1.resources.released r = true) ∧
          (v ≠ 1 → s1.resources = exampleTwoOwners.resources)) ∧
        ((some 0 : Option Nat) = none → s1.resources = exampleTwoOwners.resources) ∧
        (∀ c, (some 1 : Option Nat) = some c → ∃ v : Int,
          exampleTwoOwners.counters[c]? = some ⟨v, false⟩ ∧
          s1.counters[c]? = some ⟨v + 1, false⟩) ∧
        (∀ k, (some 0 : Option Nat) ≠ some k → (some 1 : Option Nat) ≠ some k →
          s1.counters[k]? = exampleTwoOwners.counters[k]?)) :=
  ⟨by decide, by decide, by decide,
   C7_copy_assignment exampleTwoOwners 0 1 ⟨some 0, some 0⟩ ⟨some 1, some 1⟩
     (by decide) (by decide) (by decide) (by decide)⟩

/-- C8: self-assignment is a no-op in both handle types: `a = a` on a `SharedPtr`
and `w = w` on a `WeakPtr` return the state unchanged (all handles, counters and
resources), whatever the count. -/
theorem C8_self_assignment_no_op (s : State) (a w : Nat) :
    SharedPtr.assign a a s = .ok s ∧ WeakPtr.assign w w s = .ok s := by
  constructor
  · simp [SharedPtr.assign, pure, Except.pure]
  · simp [WeakPtr.assign, pure, Except.pure]

/-- C9: in a well-formed state, for every existing `SharedPtr` `a`, `a.Reset()`
succeeds and leaves `a` empty (`Get()` null, `UseCount() == 0`) and every other
handle as it was.  If `a` had a control block whose counter was `v`, the
counter is `v - 1` afterwards, the block and the resource are deleted exactly
when `v` was 1, and every other existing `SharedPtr` aliasing the block reported
`v` before and reports `v - 1` now. -/
theorem C9_reset (s : State) (a : Nat) (p : SharedPtr) (hwf : WF s)
    (ha : s.shared[a]? = some (some p)) :
    ∃ s1, Reset a s = .ok s1 ∧ Get a s1 = .ok none ∧ UseCount a s1 = .ok 0 ∧
      (∀ h, h ≠ a → s1.shared[h]? = s.shared[h]?) ∧
      ∀ c, p.referenceCount = some c → ∃ v : Int,
        UseCount a s = .ok v ∧
        s.counters[c]? = some ⟨v, false⟩ ∧
        s1.counters[c]? = some ⟨v - 1, decide (v = 1)⟩ ∧
        (v = 1 → ∀ r, p.resource = some r →
          s.resources.live r = true ∧ s1.resources.released r = true) ∧
        (v ≠ 1 → s1.resources = s.resources) ∧
        ∀ h q, h ≠ a → s.shared[h]? = some (some q) → q.referenceCount = some c →
          UseCount h s = .ok v ∧ UseCount h s1 = .ok (v - 1) := by
  obtain ⟨s2, hd, hsh, -, -, hsome⟩ := decrement_of_WF hwf ha
  have hset : ({ s2 with shared := s.shared.set a (some ⟨none, none⟩) } : State).shared[a]? =
      some (some ⟨none, none⟩) := lookup_set_self _ ha
  refine ⟨_, Reset_of_decrement hd, ?_, UseCount_none hset rfl, ?_, ?_⟩
  · simp [Get, State.getShared_eq_ok hset, bind, Except.bind, pure, Except.pure]
  · intro h hne
    exact lookup_set_other _ _ (fun e => hne e.symm)
  · intro c hc
    obtain ⟨hcell, hcnt, hres⟩ := hsome c hc
    have hcell1 : s2.counters[c]? =
        some ⟨(liveCount c s : Int) - 1, decide ((liveCount c s : Int) = 1)⟩ := by
      rw [hcnt]; exact lookup_set_self _ hcell
    refine ⟨_, UseCount_some ha hc hcell, hcell, hcell1, hres.released, hres.unchanged, ?_⟩
    intro h q hne hq hqc
    have h2 := countP_ge_two hne hq hqc ha hc
    have hne1 : ¬ ((liveCount c s : Int) = 1) := by
      simp only [liveCount]; omega
    refine ⟨UseCount_some hq hqc hcell, ?_⟩
    have hq1 : ({ s2 with shared := s.shared.set a (some ⟨none, none⟩) } : State).shared[h]? =
        some (some q) := by
      show (s.shared.set a _)[h]? = _
      rw [lookup_set_other _ _ (fun e => hne e.symm)]; exact hq
    apply UseCount_some hq1 hqc
    show s2.counters[c]? = _
    rw [hcell1]
    simp [hne1]

/-- Witness of C9: `ptr.Reset()` on the sole owner of resource 0, as in `main`. -/
theorem C9_reset_witness :
    WF exampleObserved ∧
    Reset 0 exampleObserved =
      .ok ⟨[⟨5, true⟩], [⟨0, true⟩], [some ⟨none, none⟩], [some ⟨some 0, some 0⟩]⟩ ∧
    ∃ s1, Reset 0 exampleObserved = .ok s1 ∧ Get 0 s1 = .ok none ∧ UseCount 0 s1 = .ok 0 ∧
      (∀ h, h ≠ 0 → s1.shared[h]? = exampleObserved.shared[h]?) ∧
      ∀ c, (some 0 : Option Nat) = some c → ∃ v : Int,
        UseCount 0 exampleObserved = .ok v ∧
        exampleObserved.counters[c]? = some ⟨v, false⟩ ∧
        s1.counters[c]? = some ⟨v - 1, decide (v = 1)⟩ ∧
        (v = 1 → ∀ r, (some 0 : Option Nat) = some r →
          exampleObserved.resources.live r = true ∧ s1.resources.released r = true) ∧
        (v ≠ 1 → s1.resources = exampleObserved.resources) ∧
        ∀ h q, h ≠ 0 → exampleObserved.shared[h]? = some (some q) →
          q.referenceCount = some c →
          UseCount h exampleObserved = .ok v ∧ UseCount h s1 = .ok (v - 1) :=
  ⟨by decide, by decide,
   C9_reset exampleObserved 0 ⟨some 0, some 0⟩ (by decide) (by decide)⟩

/-- C10: in a well-formed state, for every existing `SharedPtr` `a` and every raw
resource `r`, `a.Reset(r)` succeeds; afterwards `a.Get() == r` and
`a.UseCount() == 1`; the control block of `a` is a newly allocated one (its
address did not exist before), different from the block `a` held and from the
block of every handle; no other handle has changed, so handles aliasing the old
block do not alias the new one; and the old block, if any, has been decremented
by one and deleted together with its resource exactly when its counter was 1. -/
theorem C10_reset_to_resource (s : State) (a : Nat) (p : SharedPtr) (r : Option Nat)
    (hwf : WF s) (ha : s.shared[a]? = some (some p)) :
    ∃ s1, ResetTo a r s = .ok s1 ∧ Get a s1 = .ok r ∧ UseCount a s1 = .ok 1 ∧
      s1.shared[a]? = some (some ⟨r, some s.counters.length⟩) ∧
      s.counters[s.counters.length]? = none ∧
      s1.counters[s.counters.length]? = some ⟨1, false⟩ ∧
      p.referenceCount ≠ some s.counters.length ∧
      (∀ (h : Nat) (q : SharedPtr), s.shared[h]? = some (some q) →
        q.referenceCount ≠ some s.counters.length) ∧
      (∀ h, h ≠ a → s1.shared[h]? = s.shared[h]?) ∧
      (p.referenceCount = none → s1.resources = s.resources) ∧
      ∀ c, p.referenceCount = some c → ∃ v : Int,
        s.counters[c]? = some ⟨v, false⟩ ∧
        s1.counters[c]? = some ⟨v - 1, decide (v = 1)⟩ ∧
        (v = 1 → ∀ r0, p.resource = some r0 →
          s.resources.live r0 = true ∧ s1.resources.released r0 = true) ∧
        (v ≠ 1 → s1.resources = s.resources) := by
  obtain ⟨s2, hd, hsh, -, hnone, hsome⟩ := decrement_of_WF hwf ha
  have hlen := decrement_length hd
  have hfresh : ∀ (h : Nat) (q : SharedPtr), s.shared[h]? = some (some q) →
      q.referenceCount ≠ some s.counters.length := by
    intro h q hq hc
    have := lookup_lt (hwf.1.cell hq hc)
    omega
  have hres := ResetTo_of_decrement r hd
  rw [hlen] at hres
  have hset : ({ s2 with counters := s2.counters ++ [⟨1, false⟩],
                         shared := s.shared.set a (some ⟨r, some s.counters.length⟩) }
      : State).shared[a]? = some (some ⟨r, some s.counters.length⟩) := lookup_set_self _ ha
  have hnew : ({ s2 with counters := s2.counters ++ [⟨1, false⟩],
                         shared := s.shared.set a (some ⟨r, some s.counters.length⟩) }
      : State).counters[s.counters.length]? = some ⟨1, false⟩ := by
    rw [← hlen]; exact lookup_push_last _ _
  refine ⟨_, hres, ?_, UseCount_some hset rfl hnew, hset, by simp, hnew, hfresh a p ha, hfresh,
    ?_, fun h0 => (hnone h0).2, ?_⟩
  · simp [Get, State.getShared_eq_ok hset, bind, Except.bind, pure, Except.pure]
  · intro h hne
    exact lookup_set_other _ _ (fun e => hne e.symm)
  · intro c hc
    obtain ⟨hcell, hcnt, hdel⟩ := hsome c hc
    refine ⟨_, hcell, ?_, hdel.released, hdel.unchanged⟩
    show (s2.counters ++ [_])[c]? = _
    apply lookup_push_old
    rw [hcnt]
    exact lookup_set_self _ hcell

/-- Witness of C10: the owner of resource 0 is reset to the fresh resource 2. -/
theorem C10_reset_to_resource_witness :
    WF (exampleTwoOwners.newResource 9) ∧
    ResetTo 0 (some 2) (exampleTwoOwners.newResource 9) =
      .ok ⟨[⟨5, true⟩, ⟨7, false⟩, ⟨9, false⟩], [⟨0, true⟩, ⟨1, false⟩, ⟨1, false⟩],
        [some ⟨some 2, some 2⟩, some ⟨some 1, some 1⟩], []⟩ ∧
    ∃ s1, ResetTo 0 (some 2) (exampleTwoOwners.newResource 9) = .ok s1 ∧
      Get 0 s1 = .ok (some 2) ∧ UseCount 0 s1 = .ok 1 ∧
      s1.shared[0]? = some (some ⟨some 2, some (exampleTwoOwners.newResource 9).counters.length⟩) ∧
      (exampleTwoOwners.newResource 9).counters[
        (exampleTwoOwners.newResource 9).counters.length]? = none ∧
      s1.counters[(exampleTwoOwners.newResource 9).counters.length]? = some ⟨1, false⟩ ∧
      (some 0 : Option Nat) ≠ some (exampleTwoOwners.newResource 9).counters.length ∧
      (∀ (h : Nat) (q : SharedPtr),
        (exampleTwoOwners.newResource 9).shared[h]? = some (some q) →
        q.referenceCount ≠ some (exampleTwoOwners.newResource 9).counters.length) ∧
      (∀ h, h ≠ 0 → s1.shared[h]? = (exampleTwoOwners.newResource 9).shared[h]?) ∧
      ((some 0 : Option Nat) = none →
        s1.resources = (exampleTwoOwners.newResource 9).resources) ∧
      ∀ c, (some 0 : Option Nat) = some c → ∃ v : Int,
        (exampleTwoOwners.newResource 9).counters[c]? = some ⟨v, false⟩ ∧
        s1.counters[c]? = some ⟨v - 1, decide (v = 1)⟩ ∧
        (v = 1 → ∀ r0, (some 0 : Option Nat) = some r0 →
          (exampleTwoOwners.newResource 9).resources.live r0 = true ∧
          s1.resources.released r0 = true) ∧
        (v ≠ 1 → s1.resources = (exampleTwoOwners.newResource 9).resources) :=
  ⟨by decide, by decide,
   C10_reset_to_resource (exampleTwoOwners.newResource 9) 0 ⟨some 0, some 0⟩ (some 2)
     (by decide) (by decide)⟩

/-- C11: in every state reached from the empty program state by public
operations (allocation of resources, every `SharedPtr` and `WeakPtr`
constructor, copy, assignment, `Reset`, `Reset(Resource*)`, `Swap`, `Lock`, the
observers and destruction), every existing `SharedPtr` with a non-null
`resource` has a non-null `referenceCount` that points to an allocated counter
holding at least 1, which is what `UseCount()` returns. -/
theorem C11_strong_handle_invariant (ops : List Op) (s : State) (h r : Nat) (p : SharedPtr)
    (hs : runOps ops State.empty = .ok s) (hp : s.shared[h]? = some (some p))
    (hr : p.resource = some r) :
    ∃ (c : Nat) (v : Int), p.referenceCount = some c ∧
      s.counters[c]? = some ⟨v, false⟩ ∧ 1 ≤ v ∧ UseCount h s = .ok v := by
  obtain ⟨h0, hb⟩ := (Sound_runOps ops Sound_empty hs).block hp
  cases hc : p.referenceCount with
  | none =>
    rw [h0 hc] at hr
    cases hr
  | some c =>
    obtain ⟨v, hv, h1⟩ := hb c hc
    exact ⟨c, v, rfl, hv, h1, UseCount_some hp hc hv⟩

/-- Witness of C11: the weak-pointer scenario of `main` with a second owner:
`ptr(new int(5))`, `weakPtr(ptr)`, `lockedPtr = weakPtr.Lock()`, a copy of
`ptr`, then `ptr.Reset()`; the handle `lockedPtr` is looked at. -/
theorem C11_strong_handle_invariant_witness :
    runOps [.newResource 5, .sharedConstructFrom (some 0), .weakConstructFromShared 0,
        .weakLock 0, .sharedCopyConstruct 0, .sharedReset 0] State.empty =
      .ok ⟨[⟨5, false⟩], [⟨2, false⟩],
        [some ⟨none, none⟩, some ⟨some 0, some 0⟩, some ⟨some 0, some 0⟩],
        [some ⟨some 0, some 0⟩]⟩ ∧
    ∃ (c : Nat) (v : Int), (⟨some 0, some 0⟩ : SharedPtr).referenceCount = some c ∧
      (⟨[⟨5, false⟩], [⟨2, false⟩],
        [some ⟨none, none⟩, some ⟨some 0, some 0⟩, some ⟨some 0, some 0⟩],
        [some ⟨some 0, some 0⟩]⟩ : State).counters[c]? = some ⟨v, false⟩ ∧ 1 ≤ v ∧
      UseCount 1 ⟨[⟨5, false⟩], [⟨2, false⟩],
        [some ⟨none, none⟩, some ⟨some 0, some 0⟩, some ⟨some 0, some 0⟩],
        [some ⟨some 0, some 0⟩]⟩ = .ok v :=
  ⟨by decide,
   C11_strong_handle_invariant
     [.newResource 5, .sharedConstructFrom (some 0), .weakConstructFromShared 0,
       .weakLock 0, .sharedCopyConstruct 0, .sharedReset 0]
     ⟨[⟨5, false⟩], [⟨2, false⟩],
       [some ⟨none, none⟩, some ⟨some 0, some 0⟩, some ⟨some 0, some 0⟩],
       [some ⟨some 0, some 0⟩]⟩ 1 0 ⟨some 0, some 0⟩ (by decide) (by decide) rfl⟩

/-- C12: in every state reached from the empty program state by public
operations that hand over raw pointers as `SharedPtr(Resource*)` demands (null,
or an allocated resource no handle holds yet): every counter is non-negative,
and is zero exactly when its control block is released; the decrement through
any existing handle succeeds, lowers the counter by one, and deletes the
control block and the resource of the handle exactly when the counter was 1,
leaving both allocated otherwise; no public operation deletes a deleted
counter or resource; across every public operation, and every further
sequence of them, that runs to completion a released counter and a released
resource stay as they are, a counter is released only by going from 1 to 0 and
a resource only together with the counter of a handle that held it; and the
decrement, run statement by statement, evaluates no `delete` when the counter
stays at 1 or more, and on going from 1 to 0 evaluates `delete resource` first
and `delete referenceCount` second: when the control block is deleted the
resource is already released and the control block still allocated. -/
theorem C12_release_exactly_once (ops : List Op) (s : State)
    (hs : runOps ops State.empty = .ok s) (hr : respects ops State.empty = true) :
    (∀ (c : Nat) (v : Int) (f : Bool), s.counters[c]? = some ⟨v, f⟩ →
      0 ≤ v ∧ (f = true ↔ v = 0)) ∧
    (∀ (a : Nat) (p : SharedPtr), s.shared[a]? = some (some p) →
      ∃ s1, DecrementReferenceCount a s = .ok s1 ∧
        Decremented p.referenceCount s.counters s1.counters ∧ ResourceEffect p s s1) ∧
    (∀ op : Op, op.apply s ≠ .error .doubleFree) ∧
    (∀ (op : Op) (s1 : State), op.apply s = .ok s1 → ReleasedOnce s s1) ∧
    (∀ (ops2 : List Op) (s2 : State), runOps ops2 s = .ok s2 →
      (∀ (c : Nat) (v : Int), s.counters[c]? = some ⟨v, true⟩ →
        s2.counters[c]? = some ⟨v, true⟩) ∧
      (∀ (r : Nat) (x : Int), s.resources[r]? = some ⟨x, true⟩ →
        s2.resources[r]? = some ⟨x, true⟩)) ∧
    (∀ (a : Nat) (p : SharedPtr), s.shared[a]? = some (some p) →
      ∃ (s1 : State) (log : List Deletion),
        DecrementReferenceCountTraced a ⟨s, []⟩ = .ok ⟨s1, log⟩ ∧
        DecrementReferenceCount a s = .ok s1 ∧
        (p.referenceCount = none → log = []) ∧
        (∀ (c : Nat) (v : Int), p.referenceCount = some c →
          s.counters[c]? = some ⟨v, false⟩ → v ≠ 1 → log = []) ∧
        (∀ c : Nat, p.referenceCount = some c → s.counters[c]? = some ⟨1, false⟩ →
          p.resource = none → log = [.counter c]) ∧
        (∀ c r : Nat, p.referenceCount = some c → s.counters[c]? = some ⟨1, false⟩ →
          p.resource = some r →
          log = [.resource r, .counter c] ∧
          ∃ t2 : Traced,
            Traced.deleteResource
              ⟨{ s with counters := s.counters.set c ⟨0, false⟩ }, []⟩ (some r) = .ok t2 ∧
            t2.state.resources.released r = true ∧ t2.state.counters.live c = true ∧
            t2.deleteCounter c = .ok ⟨s1, log⟩)) := by
  have H := Safe_runOps ops Safe_empty hr hs
  refine ⟨fun c v f hc => ?_, fun a p hp => ?_, no_double_free H,
    fun op s1 h1 => releasedOnce_steps (steps_of_apply op h1),
    fun ops2 s2 h2 => released_kept_sequence ops2 h2,
    fun a p hp => traced_of_safe H hp⟩
  · cases f with
    | true =>
      have h0 := H.1.2.2.2 c v hc
      subst h0
      simp
    | false =>
      obtain ⟨h1, h2⟩ := H.1.2.2.1 c v hc
      constructor
      · omega
      · constructor
        · intro h; cases h
        · intro h; omega
  · obtain ⟨s1, hd, -⟩ := decrement_of_WF H.valid.1 hp
    obtain ⟨p1, hp1, -, -, hdec, heff⟩ := decrement_effect hd
    rw [hp] at hp1
    cases hp1
    exact ⟨s1, hd, hdec, heff⟩

/-- Witness of C12: `ptr1(new int(5))`, a copy `ptr2`, a `WeakPtr` made from
`ptr1`, then `ptr2` is destroyed and `ptr1.Reset()` releases the pair; a second
resource has been handed to a new owner meanwhile, whose decrement deletes the
resource 1 first and the control block 1 second. -/
theorem C12_release_exactly_once_witness :
    runOps [.newResource 5, .sharedConstructFrom (some 0), .sharedCopyConstruct 0,
        .weakConstructFromShared 0, .sharedDestroy 1, .newResource 7,
        .sharedConstructFrom (some 1), .sharedReset 0] State.empty = .ok exampleReleased ∧
    respects [.newResource 5, .sharedConstructFrom (some 0), .sharedCopyConstruct 0,
        .weakConstructFromShared 0, .sharedDestroy 1, .newResource 7,
        .sharedConstructFrom (some 1), .sharedReset 0] State.empty = true ∧
    exampleReleased.shared[2]? = some (some ⟨some 1, some 1⟩) ∧
    exampleReleased.counters[1]? = some ⟨1, false⟩ ∧
    (∀ op : Op, op.apply exampleReleased ≠ .error .doubleFree) ∧
    (∃ (s1 : State) (log : List Deletion),
      DecrementReferenceCountTraced 2 ⟨exampleReleased, []⟩ = .ok ⟨s1, log⟩ ∧
      DecrementReferenceCount 2 exampleReleased = .ok s1 ∧
      log = [.resource 1, .counter 1]) :=
  ⟨by decide, by decide, by decide, by decide,
   (C12_release_exactly_once
     [.newResource 5, .sharedConstructFrom (some 0), .sharedCopyConstruct 0,
       .weakConstructFromShared 0, .sharedDestroy 1, .newResource 7,
       .sharedConstructFrom (some 1), .sharedReset 0]
     exampleReleased (by decide) (by decide)).2.2.1,
   by
     obtain ⟨s1, log, h1, h2, -, -, -, h6⟩ :=
       (C12_release_exactly_once
         [.newResource 5, .sharedConstructFrom (some 0), .sharedCopyConstruct 0,
           .weakConstructFromShared 0, .sharedDestroy 1, .newResource 7,
           .sharedConstructFrom (some 1), .sharedReset 0]
         exampleReleased (by decide) (by decide)).2.2.2.2.2 2 ⟨some 1, some 1⟩ (by decide)
     exact ⟨s1, log, h1, h2, (h6 1 1 rfl (by decide) rfl).1⟩⟩

/-- C13 as stated fails: in `ptr(new int(5)); weakPtr(ptr);` followed by the
destruction of `ptr`, the control block 0 made the 1-to-0 transition and is
released while `weakPtr` keeps pointing to it.  `weakPtr.Lock()` then runs
`SharedPtr(const WeakPtr&)`: the new `SharedPtr` object takes the pointer to
the released block and `IncrementReferenceCount` performs `++` on it, which has
no defined result. -/
theorem C13_lock_increments_released_block :
    runOps [.newResource 5, .sharedConstructFrom (some 0), .weakConstructFromShared 0,
        .sharedDestroy 0] State.empty = .ok stateAfterDestroy ∧
    stateAfterDestroy.counters[0]? = some ⟨0, true⟩ ∧
    (Op.weakLock 0).apply stateAfterDestroy = .error .useAfterFree ∧
    (Op.sharedConstructFromWeak 0).apply stateAfterDestroy = .error .useAfterFree ∧
    IncrementReferenceCount 1
      { stateAfterDestroy with shared := [none, some ⟨some 0, some 0⟩] } =
      .error .useAfterFree := by
  decide

/-- C13 amended: let a control block be released in a state reached from the
empty program state by public operations.  After every further sequence of
public operations that runs to completion the block is still released, its
counter is what it was (no operation incremented it) and no existing
`SharedPtr` references it.  On a `WeakPtr` that still points to the released
block, `Lock()`, `SharedPtr(const WeakPtr&)`, `UseCount()` and `Expired()` use
the deleted counter and have no defined result. -/
theorem C13_released_is_terminal (ops1 ops2 : List Op) (s s2 : State) (c : Nat)
    (h1 : runOps ops1 State.empty = .ok s) (h2 : runOps ops2 s = .ok s2)
    (hc : s.counters.released c = true) :
    s2.counters.released c = true ∧ s2.counters[c]? = s.counters[c]? ∧
    (∀ (h : Nat) (p : SharedPtr), s2.shared[h]? = some (some p) →
      p.referenceCount ≠ some c) ∧
    (∀ (w : Nat) (q : WeakPtr), s2.weak[w]? = some (some q) → q.referenceCount = some c →
      (Op.weakLock w).apply s2 = .error .useAfterFree ∧
      (Op.sharedConstructFromWeak w).apply s2 = .error .useAfterFree ∧
      (Op.weakUseCount w).apply s2 = .error .useAfterFree ∧
      (Op.weakExpired w).apply s2 = .error .useAfterFree) := by
  have hS := Sound_runOps ops1 Sound_empty h1
  have hS2 := Sound_runOps ops2 hS h2
  obtain ⟨v, hv⟩ := Memory.released_inv hc
  have hc2 := released_kept_runOps ops2 h2 hv
  refine ⟨Memory.released_of_lookup hc2, by rw [hc2, hv], fun h p hp hpc => ?_,
    fun w q hq hqc => ?_⟩
  · obtain ⟨u, hu, -⟩ := (hS2.block hp).2 c hpc
    rw [hu] at hc2
    cases hc2
  · have hl := constructFromWeak_stale hq hqc hc2
    have hu := WeakPtr.useCount_stale hq hqc hc2
    have he := WeakPtr.expired_stale hq hqc hc2
    exact ⟨by simp [Op.apply, WeakPtr.Lock, hl, bind, Except.bind], hl,
      by simp [Op.apply, hu, bind, Except.bind], by simp [Op.apply, he, bind, Except.bind]⟩

/-- Witness of the amended C13: after `ptr` is destroyed under `weakPtr`, a
second resource gets an owner, a copy of it and a `WeakPtr`, and the two
`WeakPtr` objects are swapped. -/
theorem C13_released_is_terminal_witness :
    runOps [.newResource 5, .sharedConstructFrom (some 0), .weakConstructFromShared 0,
        .sharedDestroy 0] State.empty = .ok stateAfterDestroy ∧
    runOps [.newResource 7, .sharedConstructFrom (some 1), .sharedCopyConstruct 1,
        .weakConstructFromShared 2, .weakSwap 0 1] stateAfterDestroy =
      .ok stateAfterSecondOwner ∧
    stateAfterDestroy.counters.released 0 = true ∧
    (stateAfterSecondOwner.counters.released 0 = true ∧
    stateAfterSecondOwner.counters[0]? = stateAfterDestroy.counters[0]? ∧
    (∀ (h : Nat) (p : SharedPtr), stateAfterSecondOwner.shared[h]? = some (some p) →
      p.referenceCount ≠ some 0) ∧
    (∀ (w : Nat) (q : WeakPtr), stateAfterSecondOwner.weak[w]? = some (some q) →
      q.referenceCount = some 0 →
      (Op.weakLock w).apply stateAfterSecondOwner = .error .useAfterFree ∧
      (Op.sharedConstructFromWeak w).apply stateAfterSecondOwner = .error .useAfterFree ∧
      (Op.weakUseCount w).apply stateAfterSecondOwner = .error .useAfterFree ∧
      (Op.weakExpired w).apply stateAfterSecondOwner = .error .useAfterFree)) :=
  ⟨by decide, by decide, by decide,
   C13_released_is_terminal
     [.newResource 5, .sharedConstructFrom (some 0), .weakConstructFromShared 0,
       .sharedDestroy 0]
     [.newResource 7, .sharedConstructFrom (some 1), .sharedCopyConstruct 1,
       .weakConstructFromShared 2, .weakSwap 0 1]
     stateAfterDestroy stateAfterSecondOwner 0 (by decide) (by decide) (by decide)⟩

/-- C14: no `WeakPtr` operation other than `Lock()` changes a counter, a
resource or a `SharedPtr`: whenever `WeakPtr()`, either copy constructor,
either `operator=`, `Reset`, `Swap`, `UseCount`, `Expired` or `~WeakPtr`
returns, the counters, the resources and the table of `SharedPtr` objects are
what they were.  On existing handles the constructors, assignments, `Reset`,
`Swap` and the destructor do return, and the constructed or assigned `WeakPtr`
holds exactly the two pointers of its source. -/
theorem C14_weak_operations_frame (s : State) (w g h : Nat) (wq gq : WeakPtr) (p : SharedPtr)
    (hw : s.weak[w]? = some (some wq)) (hg : s.weak[g]? = some (some gq))
    (hh : s.shared[h]? = some (some p)) :
    (∀ (op : Op) (s1 : State), op.weakOnly = true → op.apply s = .ok s1 → Untouched s s1) ∧
    (Untouched s (WeakPtr.construct s) ∧
      (WeakPtr.construct s).weak[s.weak.length]? = some (some ⟨none, none⟩)) ∧
    (∃ s1, WeakPtr.copyConstruct g s = .ok s1 ∧ Untouched s s1 ∧
      s1.weak[s.weak.length]? = some (some gq)) ∧
    (∃ s1, WeakPtr.constructFromShared h s = .ok s1 ∧ Untouched s s1 ∧
      s1.weak[s.weak.length]? = some (some ⟨p.resource, p.referenceCount⟩)) ∧
    (∃ s1, WeakPtr.assign w g s = .ok s1 ∧ Untouched s s1 ∧ s1.weak[w]? = some (some gq)) ∧
    (∃ s1, WeakPtr.assignShared w h s = .ok s1 ∧ Untouched s s1 ∧
      s1.weak[w]? = some (some ⟨p.resource, p.referenceCount⟩)) ∧
    (∃ s1, WeakPtr.Reset w s = .ok s1 ∧ Untouched s s1 ∧
      s1.weak[w]? = some (some ⟨none, none⟩)) ∧
    (∃ s1, WeakPtr.Swap w g s = .ok s1 ∧ Untouched s s1 ∧
      s1.weak[w]? = some (some gq) ∧ s1.weak[g]? = some (some wq)) ∧
    (∃ s1, WeakPtr.destroy w s = .ok s1 ∧ Untouched s s1 ∧ s1.weak[w]? = some none) := by
  refine ⟨fun op s1 hop hs => (WeakPtr.weakOnly_inv op hop hs).1,
    ⟨⟨rfl, rfl, rfl⟩, lookup_push_last _ _⟩,
    ⟨_, WeakPtr.copyConstruct_ok hg, ⟨rfl, rfl, rfl⟩, lookup_push_last _ _⟩,
    ⟨_, WeakPtr.constructFromShared_ok hh, ⟨rfl, rfl, rfl⟩, lookup_push_last _ _⟩,
    ⟨_, WeakPtr.assign_ok hw hg, ⟨rfl, rfl, rfl⟩, lookup_set_self _ hw⟩,
    ⟨_, WeakPtr.assignShared_ok hw hh, ⟨rfl, rfl, rfl⟩, lookup_set_self _ hw⟩,
    ⟨_, WeakPtr.Reset_ok hw, ⟨rfl, rfl, rfl⟩, lookup_set_self _ hw⟩,
    ⟨_, WeakPtr.Swap_ok hw hg, ⟨rfl, rfl, rfl⟩, ?_, ?_⟩,
    ⟨_, WeakPtr.destroy_ok hw, ⟨rfl, rfl, rfl⟩, lookup_set_self _ hw⟩⟩
  · show ((s.weak.set w (some gq)).set g (some wq))[w]? = some (some gq)
    by_cases hwg : w = g
    · subst hwg
      rw [hw] at hg
      cases hg
      rw [List.set_set]
      exact lookup_set_self _ hw
    · rw [lookup_set_other _ _ (fun e => hwg e.symm)]
      exact lookup_set_self _ hw
  · show ((s.weak.set w (some gq)).set g (some wq))[g]? = some (some wq)
    by_cases hwg : w = g
    · subst hwg
      rw [List.set_set]
      exact lookup_set_self _ hw
    · apply lookup_set_self (y := some gq)
      rw [lookup_set_other _ _ hwg]
      exact hg

/-- Witness of C14: the owner of `main` observed by `weakPtr`, next to a
default-constructed `WeakPtr` that is then assigned from `weakPtr`. -/
theorem C14_weak_operations_frame_witness :
    (WeakPtr.construct exampleObserved).weak[1]? = some (some ⟨none, none⟩) ∧
    (WeakPtr.construct exampleObserved).weak[0]? = some (some ⟨some 0, some 0⟩) ∧
    (WeakPtr.construct exampleObserved).shared[0]? = some (some ⟨some 0, some 0⟩) ∧
    ∃ s1, WeakPtr.assign 1 0 (WeakPtr.construct exampleObserved) = .ok s1 ∧
      Untouched (WeakPtr.construct exampleObserved) s1 ∧
      s1.weak[1]? = some (some ⟨some 0, some 0⟩) :=
  ⟨by decide, by decide, by decide,
   (C14_weak_operations_frame (WeakPtr.construct exampleObserved) 1 0 0 ⟨none, none⟩
     ⟨some 0, some 0⟩ ⟨some 0, some 0⟩ (by decide) (by decide) (by decide)).2.2.2.2.1⟩

/-- C15: for every `WeakPtr` `x` in every state, `x.UseCount()` is 0 when
`x.referenceCount` is null and otherwise the value of the counter it points to
(an allocated one).  For a `WeakPtr` `w` constructed or assigned from the
`SharedPtr` `h` in a state with the counting invariant, `w` holds the pointers
of `h` and `w.UseCount()` equals `h.UseCount()` right then and after every
sequence of copy constructions, assignments and destructions of `SharedPtr`
objects that runs to completion and leaves `h` in existence with the same
pointers. -/
theorem C15_weak_use_count (s s1 s2 : State) (h w : Nat) (p : SharedPtr) (ops : List StrongOp)
    (hi : CountInv s) (hp : s.shared[h]? = some (some p))
    (hmade : (WeakPtr.constructFromShared h s = .ok s1 ∧ w = s.weak.length) ∨
      ((∃ wq, s.weak[w]? = some (some wq)) ∧ WeakPtr.assignShared w h s = .ok s1))
    (hrun : run ops s1 = .ok s2) (hsame : s2.shared[h]? = some (some p)) :
    (∀ (t : State) (x : Nat) (xp : WeakPtr), t.weak[x]? = some (some xp) →
      (xp.referenceCount = none → WeakPtr.UseCount x t = .ok 0) ∧
      (∀ (c : Nat) (v : Int), xp.referenceCount = some c →
        t.counters[c]? = some ⟨v, false⟩ → WeakPtr.UseCount x t = .ok v)) ∧
    s1.weak[w]? = some (some ⟨p.resource, p.referenceCount⟩) ∧
    (∃ n, WeakPtr.UseCount w s1 = .ok n ∧ SharedPtr.UseCount h s1 = .ok n) ∧
    (∃ n, WeakPtr.UseCount w s2 = .ok n ∧ SharedPtr.UseCount h s2 = .ok n) := by
  have hmk : s1.weak[w]? = some (some ⟨p.resource, p.referenceCount⟩) ∧ s1.counters = s.counters ∧
      s1.shared = s.shared := by
    rcases hmade with ⟨hm, rfl⟩ | ⟨⟨wq, hq⟩, hm⟩
    · rw [WeakPtr.constructFromShared_ok hp] at hm
      cases hm
      exact ⟨lookup_push_last _ _, rfl, rfl⟩
    · rw [WeakPtr.assignShared_ok hq hp] at hm
      cases hm
      exact ⟨lookup_set_self _ hq, rfl, rfl⟩
  obtain ⟨hw1, hc1, hsh1⟩ := hmk
  have hi1 : CountInv s1 := by
    apply CountInv.of_cells
    intro a q c hq hc
    simp only [liveCount]
    rw [hsh1] at hq ⊢
    rw [hc1]
    exact hi.cell hq hc
  have hi2 := CountInv_run hi1 hrun
  have hw2 : s2.weak[w]? = some (some ⟨p.resource, p.referenceCount⟩) := by
    rw [run_weak_unchanged hrun]; exact hw1
  have hp1 : s1.shared[h]? = some (some p) := by rw [hsh1]; exact hp
  have key : ∀ t : State, CountInv t → t.weak[w]? = some (some ⟨p.resource, p.referenceCount⟩) →
      t.shared[h]? = some (some p) →
      ∃ n, WeakPtr.UseCount w t = .ok n ∧ SharedPtr.UseCount h t = .ok n := by
    intro t ht hwt hpt
    cases hc : p.referenceCount with
    | none => exact ⟨0, WeakPtr.useCount_none hwt hc, UseCount_none hpt hc⟩
    | some c =>
      have hcell := ht.cell hpt hc
      exact ⟨_, WeakPtr.useCount_of_cell hwt hc hcell, UseCount_some hpt hc hcell⟩
  refine ⟨fun t x xp hx => ⟨fun hn => WeakPtr.useCount_none hx hn,
    fun c v hc hv => WeakPtr.useCount_of_cell hx hc hv⟩, hw1, key s1 hi1 hw1 hp1,
    key s2 hi2 hw2 hsame⟩

/-- Witness of C15: `ptr(new int(5)); weakPtr(ptr);` then two copies of `ptr`
and the destruction of the first copy. -/
theorem C15_weak_use_count_witness :
    CountInv (constructFrom (some 0) (State.empty.newResource 5)) ∧
    WeakPtr.constructFromShared 0 (constructFrom (some 0) (State.empty.newResource 5)) =
      .ok exampleObserved ∧
    run [.copyConstruct 0, .copyConstruct 0, .destroy 1] exampleObserved =
      .ok ⟨[⟨5, false⟩], [⟨2, false⟩],
        [some ⟨some 0, some 0⟩, none, some ⟨some 0, some 0⟩], [some ⟨some 0, some 0⟩]⟩ ∧
    ∃ n, WeakPtr.UseCount 0 ⟨[⟨5, false⟩], [⟨2, false⟩],
        [some ⟨some 0, some 0⟩, none, some ⟨some 0, some 0⟩], [some ⟨some 0, some 0⟩]⟩ = .ok n ∧
      SharedPtr.UseCount 0 ⟨[⟨5, false⟩], [⟨2, false⟩],
        [some ⟨some 0, some 0⟩, none, some ⟨some 0, some 0⟩], [some ⟨some 0, some 0⟩]⟩ = .ok n :=
  ⟨by decide, by decide, by decide,
   (C15_weak_use_count (constructFrom (some 0) (State.empty.newResource 5)) exampleObserved
     ⟨[⟨5, false⟩], [⟨2, false⟩],
       [some ⟨some 0, some 0⟩, none, some ⟨some 0, some 0⟩], [some ⟨some 0, some 0⟩]⟩
     0 0 ⟨some 0, some 0⟩ [.copyConstruct 0, .copyConstruct 0, .destroy 1]
     (by decide) (by decide) (Or.inl ⟨by decide, by decide⟩) (by decide)
     (by decide)).2.2.2⟩

/-- C16, evaluated on `ptr(new int(5)); weakPtr(ptr);` followed by the
destruction of `ptr`: the decrement takes the counter from 1 to 0 and deletes
the control block, `weakPtr` still points to it, and `weakPtr.Expired()`
evaluates `*referenceCount == 0` on the deleted counter instead of returning
true.  A counter that still exists holds at least 1, so the second half of the
test is only ever reached on a deleted block. -/
theorem C16_expired_on_zero_count :
    runOps [.newResource 5, .sharedConstructFrom (some 0), .weakConstructFromShared 0]
      State.empty = .ok exampleObserved ∧
    WeakPtr.Expired 0 exampleObserved = .ok false ∧
    SharedPtr.destroy 0 exampleObserved = .ok stateAfterDestroy ∧
    stateAfterDestroy.weak[0]? = some (some ⟨some 0, some 0⟩) ∧
    stateAfterDestroy.counters[0]? = some ⟨0, true⟩ ∧
    WeakPtr.Expired 0 stateAfterDestroy = .error .useAfterFree := by
  decide

/-- C17: for every `SharedPtr` `a` over a resource `r` in a valid state, a copy
`b` of `a`, copy-constructed or assigned to an existing handle, holds the same
pointer (`a.Get() == b.Get()`, both `r`), and for every value `v` the store
`*b = v` succeeds and `*a` then reads `v`. -/
theorem C17_copies_alias (s : State) (a r c : Nat) (p : SharedPtr) (v : Int) (hv : Valid s)
    (ha : s.shared[a]? = some (some p)) (hr : p.resource = some r)
    (hc : p.referenceCount = some c) :
    (∃ s1, copyConstruct a s = .ok s1 ∧
      Get a s1 = .ok (some r) ∧ Get s.shared.length s1 = .ok (some r) ∧
      ∃ s2, derefAssign s.shared.length v s1 = .ok s2 ∧ deref a s2 = .ok v ∧
        deref s.shared.length s2 = .ok v) ∧
    (∀ (b : Nat) (pb : SharedPtr), b ≠ a → s.shared[b]? = some (some pb) →
      ∃ s1, assign b a s = .ok s1 ∧ Get a s1 = .ok (some r) ∧ Get b s1 = .ok (some r) ∧
        ∃ s2, derefAssign b v s1 = .ok s2 ∧ deref a s2 = .ok v ∧ deref b s2 = .ok v) := by
  constructor
  · have hcell := hv.1.1.cell ha hc
    obtain ⟨u, hu⟩ := hv.1.2.live ha hc hr
    have hcopy := copyConstruct_some ha hc hcell
    have ha1 : ({ s with counters := s.counters.set c ⟨(liveCount c s : Int) + 1, false⟩,
                         shared := s.shared ++ [some ⟨p.resource, some c⟩] } : State).shared[a]? =
        some (some p) := lookup_push_old _ ha
    have hb1 : ({ s with counters := s.counters.set c ⟨(liveCount c s : Int) + 1, false⟩,
                         shared := s.shared ++ [some ⟨p.resource, some c⟩] } : State).shared[
        s.shared.length]? = some (some ⟨p.resource, some c⟩) := lookup_push_last _ _
    obtain ⟨s2, hw, hra, hrb, -, -⟩ := write_then_read v hb1 hr ha1 hr hu
    refine ⟨_, hcopy, ?_, ?_, s2, hw, hra, hrb⟩
    · rw [Get_of_lookup ha1, hr]
    · rw [Get_of_lookup hb1, hr]
  · intro b pb hba hb
    rcases Valid_assign b a hv with he | ⟨s1, hs, hv1⟩
    · obtain ⟨-, s1, -, hs, -⟩ := assign_of_WF hv.1 hba hb ha
      rw [hs] at he
      cases he
    · obtain ⟨-, s1', -, hs', hsh, -⟩ := assign_of_WF hv.1 hba hb ha
      rw [hs] at hs'
      cases hs'
      have ha1 : s1.shared[a]? = some (some p) := by
        rw [hsh, lookup_set_other _ _ hba]; exact ha
      have hb1 : s1.shared[b]? = some (some p) := by
        rw [hsh]; exact lookup_set_self _ hb
      obtain ⟨u, hu⟩ := hv1.1.2.live ha1 hc hr
      obtain ⟨s2, hw, hra, hrb, -, -⟩ := write_then_read v hb1 hr ha1 hr hu
      refine ⟨s1, hs, ?_, ?_, s2, hw, hra, hrb⟩
      · rw [Get_of_lookup ha1, hr]
      · rw [Get_of_lookup hb1, hr]

/-- Witness of C17, the scenario of `main`: `ptr1(new int(5))`, `ptr2 = ptr1`
(copy-constructed), `*ptr2 = 10`; then `*ptr1` is 10 and `UseCount()` is 2. -/
theorem C17_copies_alias_witness :
    Valid (constructFrom (some 0) (State.empty.newResource 5)) ∧
    (∃ s1, copyConstruct 0 (constructFrom (some 0) (State.empty.newResource 5)) = .ok s1 ∧
      Get 0 s1 = .ok (some 0) ∧
      Get (constructFrom (some 0) (State.empty.newResource 5)).shared.length s1 =
        .ok (some 0) ∧
      ∃ s2, derefAssign (constructFrom (some 0) (State.empty.newResource 5)).shared.length
          10 s1 = .ok s2 ∧ deref 0 s2 = .ok 10 ∧
        deref (constructFrom (some 0) (State.empty.newResource 5)).shared.length s2 =
          .ok 10) ∧
    (∀ s1 s2, copyConstruct 0 (constructFrom (some 0) (State.empty.newResource 5)) = .ok s1 →
      derefAssign 1 10 s1 = .ok s2 → UseCount 0 s2 = .ok 2 ∧ UseCount 1 s2 = .ok 2) :=
  ⟨by decide,
   (C17_copies_alias (constructFrom (some 0) (State.empty.newResource 5)) 0 0 0
     ⟨some 0, some 0⟩ 10 (by decide) (by decide) rfl rfl).1,
   by
     intro s1 s2 h1 h2
     have e1 : copyConstruct 0 (constructFrom (some 0) (State.empty.newResource 5)) =
         .ok ⟨[⟨5, false⟩], [⟨2, false⟩],
           [some ⟨some 0, some 0⟩, some ⟨some 0, some 0⟩], []⟩ := by decide
     rw [e1] at h1
     cases h1
     have e2 : derefAssign 1 10 ⟨[⟨5, false⟩], [⟨2, false⟩],
           [some ⟨some 0, some 0⟩, some ⟨some 0, some 0⟩], []⟩ =
         .ok ⟨[⟨10, false⟩], [⟨2, false⟩],
           [some ⟨some 0, some 0⟩, some ⟨some 0, some 0⟩], []⟩ := by decide
     rw [e2] at h2
     cases h2
     exact ⟨by decide, by decide⟩⟩

/-- C18 as stated fails: `SharedPtr<int> a(nullptr)` holds no resource
(`a.Get()` is null) and yet `a.UseCount()` is 1, because `SharedPtr(Resource*)`
allocates a control block for a null pointer as well; the same holds after
`a.Reset(nullptr)`. -/
theorem C18_null_resource_counts_one :
    runOps [.sharedConstructFrom none] State.empty = .ok (constructFrom none State.empty) ∧
    Get 0 (constructFrom none State.empty) = .ok none ∧
    UseCount 0 (constructFrom none State.empty) = .ok 1 ∧
    (∃ s1, ResetTo 0 none (construct State.empty) = .ok s1 ∧ Get 0 s1 = .ok none ∧
      UseCount 0 s1 = .ok 1) := by
  refine ⟨by decide, by decide, by decide, _, rfl, by decide, by decide⟩

/-- C18 amended: for every `SharedPtr` `a` in a state reached from the empty
program state by public operations, `a.UseCount()` is 0 when `a` has no
control block, and then `a` holds no resource (`a.Get()` is null); otherwise it
is the value of the control block's counter, which is at least 1, and this is
the case whenever `a` holds a resource.  A default-constructed `SharedPtr` has
no resource, no control block and `UseCount() == 0`. -/
theorem C18_use_count (ops : List Op) (s : State) (a : Nat) (p : SharedPtr)
    (hs : runOps ops State.empty = .ok s) (hp : s.shared[a]? = some (some p)) :
    (p.referenceCount = none →
      p.resource = none ∧ Get a s = .ok none ∧ UseCount a s = .ok 0) ∧
    (∀ c, p.referenceCount = some c →
      ∃ v : Int, s.counters[c]? = some ⟨v, false⟩ ∧ UseCount a s = .ok v ∧ 1 ≤ v) ∧
    (∀ r, p.resource = some r → ∃ c, p.referenceCount = some c) ∧
    (construct s).shared[s.shared.length]? = some (some ⟨none, none⟩) ∧
    Get s.shared.length (construct s) = .ok none ∧
    UseCount s.shared.length (construct s) = .ok 0 := by
  obtain ⟨h0, hb⟩ := (Sound_runOps ops Sound_empty hs).block hp
  have hn : (construct s).shared[s.shared.length]? = some (some ⟨none, none⟩) :=
    lookup_push_last _ _
  refine ⟨fun hc => ⟨h0 hc, ?_, UseCount_none hp hc⟩, fun c hc => ?_, fun r hr => ?_, hn,
    ?_, UseCount_none hn rfl⟩
  · rw [Get_of_lookup hp, h0 hc]
  · obtain ⟨v, hv, h1⟩ := hb c hc
    exact ⟨v, hv, UseCount_some hp hc hv, h1⟩
  · cases hc : p.referenceCount with
    | none =>
      rw [h0 hc] at hr
      cases hr
    | some c => exact ⟨c, rfl⟩
  · rw [Get_of_lookup hn]

/-- Witness of the amended C18: `a(new int(5))`, a copy `b` of it, and an empty
`c`; the copy is looked at. -/
theorem C18_use_count_witness :
    runOps [.newResource 5, .sharedConstructFrom (some 0), .sharedCopyConstruct 0,
        .sharedConstruct] State.empty =
      .ok ⟨[⟨5, false⟩], [⟨2, false⟩],
        [some ⟨some 0, some 0⟩, some ⟨some 0, some 0⟩, some ⟨none, none⟩], []⟩ ∧
    (∀ c, (⟨some 0, some 0⟩ : SharedPtr).referenceCount = some c →
      ∃ v : Int, (⟨[⟨5, false⟩], [⟨2, false⟩],
        [some ⟨some 0, some 0⟩, some ⟨some 0, some 0⟩, some ⟨none, none⟩], []⟩ :
          State).counters[c]? = some ⟨v, false⟩ ∧
        UseCount 1 ⟨[⟨5, false⟩], [⟨2, false⟩],
          [some ⟨some 0, some 0⟩, some ⟨some 0, some 0⟩, some ⟨none, none⟩], []⟩ = .ok v ∧
        1 ≤ v) :=
  ⟨by decide,
   (C18_use_count
     [.newResource 5, .sharedConstructFrom (some 0), .sharedCopyConstruct 0, .sharedConstruct]
     ⟨[⟨5, false⟩], [⟨2, false⟩],
       [some ⟨some 0, some 0⟩, some ⟨some 0, some 0⟩, some ⟨none, none⟩], []⟩ 1
     ⟨some 0, some 0⟩ (by decide) (by decide)).2.1⟩

/-- C19: for every `WeakPtr` `w` with `w.Expired() == false`, `w.Lock()`
returns a handle, its destruction succeeds, and afterwards every counter, every
resource object (so also the set of released resources), every `WeakPtr` and
every existing `SharedPtr` is what it was before the `Lock()` call; the only
trace is the destroyed temporary object. -/
theorem C19_lock_destroy_round_trip (s : State) (w : Nat) (he : WeakPtr.Expired w s = .ok false) :
    ∃ l s1 s2, WeakPtr.Lock w s = .ok (l, s1) ∧ destroy l s1 = .ok s2 ∧
      s2.counters = s.counters ∧ s2.resources = s.resources ∧ s2.weak = s.weak ∧
      s2.shared = s.shared ++ [none] ∧
      (∀ (h : Nat) (p : SharedPtr),
        s2.shared[h]? = some (some p) ↔ s.shared[h]? = some (some p)) ∧
      (∀ r, s2.resources.released r = s.resources.released r) := by
  obtain ⟨wp, c, v, hw, hc, hv, h0⟩ := WeakPtr.Expired_false_inv he
  obtain ⟨s1, hl, hd⟩ := lock_destroy_of_cell hw hc hv h0
  refine ⟨_, s1, _, hl, hd, rfl, rfl, rfl, rfl, ?_, fun _ => rfl⟩
  intro h p
  constructor
  · intro hp
    rcases lookup_push_cases hp with h1 | ⟨-, h2⟩
    · exact h1
    · cases h2
  · intro hp
    exact lookup_push_old none hp

/-- Witness of C19, the scenario of `main`: `ptr(new int(5)); weakPtr(ptr);`
then `lockedPtr = weakPtr.Lock()` and the end of its block. -/
theorem C19_lock_destroy_round_trip_witness :
    WeakPtr.Expired 0 exampleObserved = .ok false ∧
    ∃ l s1 s2, WeakPtr.Lock 0 exampleObserved = .ok (l, s1) ∧ destroy l s1 = .ok s2 ∧
      s2.counters = exampleObserved.counters ∧ s2.resources = exampleObserved.resources ∧
      s2.weak = exampleObserved.weak ∧ s2.shared = exampleObserved.shared ++ [none] ∧
      (∀ (h : Nat) (p : SharedPtr),
        s2.shared[h]? = some (some p) ↔ exampleObserved.shared[h]? = some (some p)) ∧
      (∀ r, s2.resources.released r = exampleObserved.resources.released r) :=
  ⟨by decide, C19_lock_destroy_round_trip exampleObserved 0 (by decide)⟩

/-- C20: for every `SharedPtr` `e` whose `referenceCount` is null,
copy-constructing from `e`, destroying `e` and `e.Reset()` succeed, change no
counter and no resource object, the copy holds the pointers of `e` and reports
`UseCount() == 0`, `e` is empty after `Reset()` and a second `Reset()` changes
nothing; in every state reached from the empty program state by public
operations such an `e` holds no resource either, so the copy is empty.  For
every `WeakPtr` `w` with both pointers null, `w.Lock()` returns a `SharedPtr`
with null resource and `UseCount() == 0` without changing any counter. -/
theorem C20_null_control_block (s : State) (e w : Nat) (p : SharedPtr)
    (he : s.shared[e]? = some (some p)) (hn : p.referenceCount = none)
    (hw : s.weak[w]? = some (some ⟨none, none⟩)) :
    (∃ s1, copyConstruct e s = .ok s1 ∧ s1.counters = s.counters ∧
      s1.resources = s.resources ∧ s1.shared = s.shared ++ [some p] ∧
      Get s.shared.length s1 = .ok p.resource ∧ UseCount s.shared.length s1 = .ok 0) ∧
    (∃ s1, destroy e s = .ok s1 ∧ s1.counters = s.counters ∧ s1.resources = s.resources ∧
      s1.shared = s.shared.set e none) ∧
    (∃ s1, Reset e s = .ok s1 ∧ s1.counters = s.counters ∧ s1.resources = s.resources ∧
      s1.shared = s.shared.set e (some ⟨none, none⟩) ∧
      Get e s1 = .ok none ∧ UseCount e s1 = .ok 0 ∧ Reset e s1 = .ok s1) ∧
    (∃ l s1, WeakPtr.Lock w s = .ok (l, s1) ∧ s1.counters = s.counters ∧
      s1.resources = s.resources ∧ Get l s1 = .ok none ∧ UseCount l s1 = .ok 0) ∧
    (∀ ops : List Op, runOps ops State.empty = .ok s → p.resource = none) := by
  refine ⟨?_, ?_, ?_, ?_, ?_⟩
  · have hpush : ({ s with shared := s.shared ++ [some ⟨p.resource, none⟩] } : State).shared[
        s.shared.length]? = some (some ⟨p.resource, none⟩) := lookup_push_last _ _
    refine ⟨_, copyConstruct_none he hn, rfl, rfl, ?_, ?_, UseCount_none hpush rfl⟩
    · cases p
      simp only at hn
      subst hn
      rfl
    · simp [Get, State.getShared_eq_ok hpush, bind, Except.bind, pure, Except.pure]
  · exact ⟨_, destroy_none he hn, rfl, rfl, rfl⟩
  · have hset : ({ s with shared := s.shared.set e (some ⟨none, none⟩) } : State).shared[e]? =
        some (some ⟨none, none⟩) := lookup_set_self _ he
    have hr := Reset_of_decrement (decrement_none he hn)
    refine ⟨_, hr, rfl, rfl, rfl, ?_, UseCount_none hset rfl, ?_⟩
    · simp [Get, State.getShared_eq_ok hset, bind, Except.bind, pure, Except.pure]
    · rw [Reset_of_decrement (decrement_none hset rfl)]
      simp only [List.set_set]
  · have hl := constructFromWeak_none hw rfl
    have hpush : ({ s with shared := s.shared ++ [some ⟨none, none⟩] } : State).shared[
        s.shared.length]? = some (some ⟨none, none⟩) := lookup_push_last _ _
    refine ⟨_, _, WeakPtr.Lock_of_construct hl, rfl, rfl, ?_, UseCount_none hpush rfl⟩
    simp [Get, State.getShared_eq_ok hpush, bind, Except.bind, pure, Except.pure]
  · intro ops hs
    exact ((Sound_runOps ops Sound_empty hs).block he).1 hn

/-- Witness of C20: an owner of a resource, a default-constructed `SharedPtr`
and a default-constructed `WeakPtr`. -/
theorem C20_null_control_block_witness :
    runOps [.newResource 5, .sharedConstructFrom (some 0), .sharedConstruct, .weakConstruct]
        State.empty =
      .ok ⟨[⟨5, false⟩], [⟨1, false⟩], [some ⟨some 0, some 0⟩, some ⟨none, none⟩],
        [some ⟨none, none⟩]⟩ ∧
    ∃ l s1, WeakPtr.Lock 0 ⟨[⟨5, false⟩], [⟨1, false⟩],
        [some ⟨some 0, some 0⟩, some ⟨none, none⟩], [some ⟨none, none⟩]⟩ = .ok (l, s1) ∧
      s1.counters = (⟨[⟨5, false⟩], [⟨1, false⟩],
        [some ⟨some 0, some 0⟩, some ⟨none, none⟩], [some ⟨none, none⟩]⟩ : State).counters ∧
      s1.resources = (⟨[⟨5, false⟩], [⟨1, false⟩],
        [some ⟨some 0, some 0⟩, some ⟨none, none⟩], [some ⟨none, none⟩]⟩ : State).resources ∧
      Get l s1 = .ok none ∧ UseCount l s1 = .ok 0 :=
  ⟨by decide,
   (C20_null_control_block ⟨[⟨5, false⟩], [⟨1, false⟩],
     [some ⟨some 0, some 0⟩, some ⟨none, none⟩], [some ⟨none, none⟩]⟩ 1 0 ⟨none, none⟩
     (by decide) rfl (by decide)).2.2.2.1⟩

end SmartPtr
